import Mathlib

/-!
Verification of the cgroup BPF attachment engine, `kernel/bpf/cgroup.c`.

A shallow embedding of the attach / detach / recompute logic of
`kernel/bpf/cgroup.c`, of its packet filter entry point, and of the classifier
loop and the handle allocation of `net/sched/cls_bpf.c`.

* A cgroup is a natural number (its index in creation order); a BPF program
  is a natural number (its address), `none` standing for the `NULL` pointer.
* `struct cgroup_bpf` is spread over the per-node, per-attach-type tables
  `progs`, `flags` and `effective` of `State`.
* A `list_head` of `struct bpf_prog_list` is a `List (Option Nat)`: one entry
  per list node, holding `pl->prog`.
* `desc->bpf.inactive` is scratch storage that is `NULL` outside of a call; the
  staged arrays are kept in a local list instead.
* The outcome of every allocation is an argument of the operation.
* The counters `cnt` (`int`, `u32`) count list entries in memory and stay far
  below `2^31`; they are natural numbers here. Flags words are only compared
  and masked.
-/

namespace CgroupBpf

/-! ## Constants -/

/-- Modelled from the spec: the `ALLOW_OVERRIDE` bit of AttachFlags
(`BPF_F_ALLOW_OVERRIDE`, declared in a header outside of the sources). -/
def BPF_F_ALLOW_OVERRIDE : Nat := 1

/-- Modelled from the spec: the `ALLOW_MULTI` bit of AttachFlags
(`BPF_F_ALLOW_MULTI`, declared in a header outside of the sources). -/
def BPF_F_ALLOW_MULTI : Nat := 2

/-- The bound `#define BPF_CGROUP_MAX_PROGS 64`. -/
def BPF_CGROUP_MAX_PROGS : Nat := 64

/-- Operation not permitted. -/
def EPERM : Int := 1
/-- No such file or directory. -/
def ENOENT : Int := 2
/-- Argument list too long. -/
def E2BIG : Int := 7
/-- Out of memory. -/
def ENOMEM : Int := 12
/-- Invalid argument. -/
def EINVAL : Int := 22

/-! ## State -/

/-- The cgroup tree together with the `bpf` member of every cgroup.
`parent n` is `cgrp->parent` (`none` for `NULL`); cgroups are numbered in
creation order, so a parent has a smaller number than its children, and the
nodes of the tree are `0 .. nr - 1`. -/
@[ext]
structure State where
  /-- Number of cgroups created so far. -/
  nr : Nat
  /-- The `parent` pointer of a cgroup. -/
  parent : Nat → Option Nat
  /-- A parent is created before its children. -/
  parent_lt : ∀ n p, parent n = some p → p < n
  /-- The list `cgrp->bpf.progs[type]`. -/
  progs : Nat → Nat → List (Option Nat)
  /-- The word `cgrp->bpf.flags[type]`. -/
  flags : Nat → Nat → Nat
  /-- The published array `cgrp->bpf.effective[type]` (`none` for `NULL`). -/
  effective : Nat → Nat → Option (List Nat)
  /-- The count of `cgroup_bpf_enabled_key`. -/
  enabled_key : Int
  /-- The arguments of the calls of `bpf_prog_put`, oldest first. -/
  released : List (Option Nat)

/-- The test `flags & BPF_F_ALLOW_MULTI`. -/
def allow_multi (flags : Nat) : Bool := flags &&& BPF_F_ALLOW_MULTI != 0

/-- The test `flags & BPF_F_ALLOW_OVERRIDE`. -/
def allow_override (flags : Nat) : Bool := flags &&& BPF_F_ALLOW_OVERRIDE != 0

/-! ## Walking the tree -/

/-- The nodes visited by `p = cgrp; do { ...; p = p->parent; } while (p);`,
in the order of the visit: the cgroup itself, its parent, ..., the root.
The first argument only serves as the measure of the recursion. -/
def cgroup_path_aux (s : State) : (k : Nat) → (n : Nat) → n < k → List Nat
  | 0, n, h => absurd h (Nat.not_lt_zero n)
  | k + 1, n, h =>
    match hp : s.parent n with
    | none => [n]
    | some p => n :: cgroup_path_aux s k p (by have := s.parent_lt n p hp; omega)

/-- The cgroup `cgrp` followed by its ancestors, nearest first. -/
def cgroup_path (s : State) (cgrp : Nat) : List Nat :=
  cgroup_path_aux s (cgrp + 1) cgrp (Nat.lt_succ_self cgrp)

/-- The children of `r`, oldest first. -/
def children (s : State) (r : Nat) : List Nat :=
  (List.range s.nr).filter (fun c => s.parent c = some r)

/-- Pre-order walk of the subtree of `r`, with `r` first; the first argument
bounds the depth of the walk. -/
def subtree_pre (s : State) : Nat → Nat → List Nat
  | 0, _ => []
  | k + 1, r => r :: (children s r).flatMap (fun c => subtree_pre s k c)

/-- Modelled from the spec: the macro `cgroup_for_each_descendant_pre(desc, cgrp)`
is declared outside of the sources; following the spec it enumerates the
subtree of `cgrp` in pre-order, `cgrp` included. A subtree below node `cgrp`
has depth at most `nr - cgrp`. -/
def descendants_pre (s : State) (cgrp : Nat) : List Nat :=
  subtree_pre s (s.nr - cgrp) cgrp

/-! ## prog_list_length, hierarchy_allows_attach -/

/-- Number of entries of the list whose program is not `NULL`. -/
def prog_list_length : List (Option Nat) → Nat
  | [] => 0
  | none :: head => prog_list_length head
  | some _ :: head => prog_list_length head + 1

/-- The `do ... while (p)` loop of `hierarchy_allows_attach` over the proper
ancestors of the cgroup, nearest first. -/
def hierarchy_walk (s : State) (type : Nat) : List Nat → Bool
  | [] => true
  | p :: rest =>
    let flags := s.flags p type
    if allow_multi flags then true
    else
      let cnt := prog_list_length (s.progs p type)
      if cnt = 1 then allow_override flags
      else hierarchy_walk s type rest

/-- If a parent has a non-overridable program attached, attaching to the
descendant is disallowed; an overridable or multi parent allows it. -/
def hierarchy_allows_attach (s : State) (cgrp type _new_flags : Nat) : Bool :=
  match s.parent cgrp with
  | none => true
  | some _ => hierarchy_walk s type (cgroup_path s cgrp).tail

/-! ## compute_effective_progs -/

/-- The programs of the entries of a list that are not `NULL`, in list order:
what the loop `list_for_each_entry(pl, ...) { if (!pl->prog) continue; ... }`
visits. -/
def live_progs : List (Option Nat) → List Nat
  | [] => []
  | none :: head => live_progs head
  | some prog :: head => prog :: live_progs head

/-- First walk of `compute_effective_progs`: count the number of effective
programs by walking the parents; `cnt` is the count so far. -/
def count_effective (s : State) (type : Nat) : List Nat → Nat → Nat
  | [], cnt => cnt
  | p :: rest, cnt =>
    if cnt = 0 ∨ allow_multi (s.flags p type) then
      count_effective s type rest (cnt + prog_list_length (s.progs p type))
    else count_effective s type rest cnt

/-- Second walk of `compute_effective_progs`: populate the array with the
effective programs. `arr` holds the entries written so far, so `cnt` is its
length and `progs[cnt++] = pl->prog` appends to it. -/
def fill_effective (s : State) (type : Nat) : List Nat → List Nat → List Nat
  | [], arr => arr
  | p :: rest, arr =>
    if arr.length = 0 ∨ allow_multi (s.flags p type) then
      fill_effective s type rest (arr ++ live_progs (s.progs p type))
    else fill_effective s type rest arr

/-- Compute the chain of effective programs of a cgroup: start from the list
of programs in this cgroup and add all parent programs. `alloc_ok` tells
whether `bpf_prog_array_alloc(cnt, GFP_KERNEL)` succeeds; the result is the
error code or the array stored in `*array`. -/
def compute_effective_progs (s : State) (cgrp type : Nat) (alloc_ok : Bool) :
    Except Int (List Nat) :=
  let _cnt := count_effective s type (cgroup_path s cgrp) 0
  if !alloc_ok then Except.error (-ENOMEM)
  else Except.ok (fill_effective s type (cgroup_path s cgrp) [])

/-- The function `activate_effective_progs`: exchange the published array. -/
def activate_effective_progs (s : State) (cgrp type : Nat) (array : List Nat) : State :=
  { s with effective := fun n t =>
      if n = cgrp ∧ t = type then some array else s.effective n t }

/-- The first `cgroup_for_each_descendant_pre` loop of attach and detach:
compute the array of every descendant, stopping at the first error. The result
pairs every descendant with its staged array (`desc->bpf.inactive`). -/
def stage_effective (s : State) (type : Nat) (arr_ok : Nat → Bool) :
    List Nat → Except Int (List (Nat × List Nat))
  | [] => Except.ok []
  | desc :: rest =>
    match compute_effective_progs s desc type (arr_ok desc) with
    | Except.error err => Except.error err
    | Except.ok array =>
      match stage_effective s type arr_ok rest with
      | Except.error err => Except.error err
      | Except.ok staged => Except.ok ((desc, array) :: staged)

/-- The second `cgroup_for_each_descendant_pre` loop of attach and detach:
activate all staged arrays. -/
def activate_staged (s : State) (type : Nat) : List (Nat × List Nat) → State
  | [] => s
  | (desc, array) :: rest => activate_staged (activate_effective_progs s desc type array) type rest

/-- Store `v` in the list `cgrp->bpf.progs[type]`. -/
def set_progs (s : State) (cgrp type : Nat) (v : List (Option Nat)) : State :=
  { s with progs := fun n t => if n = cgrp ∧ t = type then v else s.progs n t }

/-- Store `v` in the word `cgrp->bpf.flags[type]`. -/
def set_flags (s : State) (cgrp type : Nat) (v : Nat) : State :=
  { s with flags := fun n t => if n = cgrp ∧ t = type then v else s.flags n t }

/-! ## cgroup_bpf_inherit -/

/-- The loop `for (i = 0; i < NR; i++) INIT_LIST_HEAD(&cgrp->bpf.progs[i])`. -/
def init_list_heads (s : State) (cgrp NR : Nat) : State :=
  { s with progs := fun n t => if n = cgrp ∧ t < NR then [] else s.progs n t }

/-- The loop `for (i = 0; i < NR; i++) if (compute_effective_progs(cgrp, i,
&arrays[i])) goto cleanup`, over the attach types `i, i + 1, ...` of the list. -/
def inherit_compute (s : State) (cgrp : Nat) (arr_ok : Nat → Bool) :
    List Nat → Except Int (List (Nat × List Nat))
  | [] => Except.ok []
  | i :: rest =>
    match compute_effective_progs s cgrp i (arr_ok i) with
    | Except.error _ => Except.error (-ENOMEM)
    | Except.ok array =>
      match inherit_compute s cgrp arr_ok rest with
      | Except.error err => Except.error err
      | Except.ok arrays => Except.ok ((i, array) :: arrays)

/-- The loop `for (i = 0; i < NR; i++) activate_effective_progs(cgrp, i,
arrays[i])`. -/
def inherit_activate (s : State) (cgrp : Nat) : List (Nat × List Nat) → State
  | [] => s
  | (i, array) :: rest => inherit_activate (activate_effective_progs s cgrp i array) cgrp rest

/-- Inherit the effective programs from the parent. `NR` is
`ARRAY_SIZE(cgrp->bpf.effective)`, the number of attach types, and `arr_ok i`
tells whether the allocation of the array of attach type `i` succeeds. -/
def cgroup_bpf_inherit (s : State) (cgrp NR : Nat) (arr_ok : Nat → Bool) : Int × State :=
  let s1 := init_list_heads s cgrp NR
  match inherit_compute s1 cgrp arr_ok (List.range NR) with
  | Except.error err => (err, s1)
  | Except.ok arrays => (0, inherit_activate s1 cgrp arrays)

/-! ## __cgroup_bpf_attach -/

/-- The change of the list `progs` made by `__cgroup_bpf_attach` once the
checks have passed: the error code, or the new list together with the position
of the entry `pl` in it, `old_prog` and `pl_was_allocated`. `pl_ok` tells
whether `kmalloc(sizeof(*pl), GFP_KERNEL)` succeeds. -/
def attach_list (progs : List (Option Nat)) (prog flags : Nat) (pl_ok : Bool) :
    Except Int (List (Option Nat) × Nat × Option Nat × Bool) :=
  if allow_multi flags then
    if some prog ∈ progs then
      -- disallow attaching the same prog twice
      Except.error (-EINVAL)
    else if !pl_ok then Except.error (-ENOMEM)
    else Except.ok (progs ++ [some prog], progs.length, none, true)
  else if progs = [] then
    if !pl_ok then Except.error (-ENOMEM)
    else Except.ok ([some prog], 0, none, true)
  else
    Except.ok (progs.set 0 (some prog), 0, progs.head?.join, false)

/-- The cleanup of the list after a failed recomputation:
`pl->prog = old_prog; if (pl_was_allocated) list_del(&pl->node);`. -/
def attach_cleanup (progs : List (Option Nat)) (idx : Nat) (old_prog : Option Nat)
    (pl_was_allocated : Bool) : List (Option Nat) :=
  let progs2 := progs.set idx old_prog
  if pl_was_allocated then progs2.eraseIdx idx else progs2

/-- The end of a successful `__cgroup_bpf_attach`:
`static_key_slow_inc(&cgroup_bpf_enabled_key); if (old_prog) { bpf_prog_put(old_prog);
static_key_slow_dec(&cgroup_bpf_enabled_key); }`. -/
def attach_finish (s : State) (old_prog : Option Nat) : State :=
  let s3 := { s with enabled_key := s.enabled_key + 1 }
  match old_prog with
  | some _ => { s3 with released := s3.released ++ [old_prog],
                        enabled_key := s3.enabled_key - 1 }
  | none => s3

/-- Attach the program to a cgroup, and propagate the change to descendants.
`pl_ok` tells whether the list entry can be allocated, `arr_ok desc` whether
the array of descendant `desc` can be allocated. -/
def __cgroup_bpf_attach (s : State) (cgrp prog type flags : Nat) (pl_ok : Bool)
    (arr_ok : Nat → Bool) : Int × State :=
  let progs := s.progs cgrp type
  if allow_override flags && allow_multi flags then
    -- invalid combination
    (-EINVAL, s)
  else if !hierarchy_allows_attach s cgrp type flags then
    (-EPERM, s)
  else if progs ≠ [] ∧ s.flags cgrp type ≠ flags then
    (-EPERM, s)
  else if prog_list_length progs ≥ BPF_CGROUP_MAX_PROGS then
    (-E2BIG, s)
  else
    match attach_list progs prog flags pl_ok with
    | Except.error err => (err, s)
    | Except.ok (progs1, idx, old_prog, pl_was_allocated) =>
      -- old_flags = cgrp->bpf.flags[type]; cgrp->bpf.flags[type] = flags;
      let s1 := set_flags (set_progs s cgrp type progs1) cgrp type flags
      match stage_effective s1 type arr_ok (descendants_pre s1 cgrp) with
      | Except.ok staged =>
        (0, attach_finish (activate_staged s1 type staged) old_prog)
      | Except.error err =>
        -- free the computed arrays and clean up the prog list
        (err, set_progs s1 cgrp type (attach_cleanup progs1 idx old_prog pl_was_allocated))

/-! ## __cgroup_bpf_detach -/

/-- Position of the first entry of the list with `pl->prog == prog` (the length
of the list if there is none): where the loop `list_for_each_entry(pl, progs,
node) { if (pl->prog != prog) continue; ...; break; }` stops. -/
def find_prog : List (Option Nat) → Option Nat → Nat
  | [], _ => 0
  | pl :: head, prog => if pl = prog then 0 else find_prog head prog + 1

/-- The entry `pl` that `__cgroup_bpf_detach` marks as deleted, as its position
in the list, together with `old_prog`; `none` when the loop over a multi list
finds no entry holding `prog`. -/
def detach_find (progs : List (Option Nat)) (flags : Nat) (prog : Option Nat) :
    Option (Nat × Option Nat) :=
  if allow_multi flags then
    -- find the prog and detach it
    if prog ∈ progs then some (find_prog progs prog, prog) else none
  else
    -- NONE and OVERRIDE cgroups allow detaching with invalid FD (prog == NULL)
    some (0, progs.head?.join)

/-- The end of a successful `__cgroup_bpf_detach`: delete the entry from the
list, reset the flags if the list is empty, `bpf_prog_put(old_prog)` and
`static_key_slow_dec(&cgroup_bpf_enabled_key)`. -/
def detach_finish (s : State) (cgrp type idx : Nat) (old_prog : Option Nat) : State :=
  let progs2 := (s.progs cgrp type).eraseIdx idx
  let s3 := set_progs s cgrp type progs2
  -- last program was detached, reset flags to zero
  let s4 := if progs2 = [] then set_flags s3 cgrp type 0 else s3
  { s4 with released := s4.released ++ [old_prog], enabled_key := s4.enabled_key - 1 }

/-- Detach the program from a cgroup, and propagate the change to
descendants; `prog` is `none` for `NULL`. -/
def __cgroup_bpf_detach (s : State) (cgrp : Nat) (prog : Option Nat) (type : Nat)
    (arr_ok : Nat → Bool) : Int × State :=
  let progs := s.progs cgrp type
  let flags := s.flags cgrp type
  if allow_multi flags ∧ prog = none then
    -- to detach MULTI prog the user has to specify valid FD
    (-EINVAL, s)
  else if ¬ allow_multi flags ∧ progs = [] then
    -- report error when trying to detach and nothing is attached
    (-ENOENT, s)
  else
    match detach_find progs flags prog with
    | none => (-ENOENT, s)
    | some (idx, old_prog) =>
      -- mark it deleted, so it is ignored while recomputing effective
      let s1 := set_progs s cgrp type (progs.set idx none)
      match stage_effective s1 type arr_ok (descendants_pre s1 cgrp) with
      | Except.ok staged =>
        (0, detach_finish (activate_staged s1 type staged) cgrp type idx old_prog)
      | Except.error err =>
        -- free the computed arrays and restore back old_prog
        (err, set_progs s1 cgrp type ((s1.progs cgrp type).set idx old_prog))

/-! ## Creation of cgroups and sequences of calls -/

/-- Modelled from the spec: the creation of a cgroup belongs to the tree
lifecycle, which is outside of the sources. The new cgroup gets the next
number, is linked below `parent` and its `bpf` member is zeroed (no flags, no
published array); the list heads are left for `cgroup_bpf_inherit` to
initialise. -/
def cgroup_create (s : State) (parent : Option (Fin s.nr)) : State :=
  { s with
    nr := s.nr + 1
    parent := fun n => if n = s.nr then parent.map Fin.val else s.parent n
    parent_lt := by
      intro n p h
      beta_reduce at h
      by_cases hn : n = s.nr
      · rw [if_pos hn] at h
        cases parent with
        | none => cases h
        | some q =>
          simp only [Option.map_some', Option.some.injEq] at h
          have := q.isLt
          omega
      · rw [if_neg hn] at h
        exact s.parent_lt n p h
    flags := fun n t => if n = s.nr then 0 else s.flags n t
    effective := fun n t => if n = s.nr then none else s.effective n t }

/-- A call made by the environment: an attach, a detach, or the creation of a
cgroup (below `parent`, or as a root) followed by `cgroup_bpf_inherit`. Every
call comes with the outcome of its allocations. -/
inductive Op where
  | attach (cgrp prog type flags : Nat) (pl_ok : Bool) (arr_ok : Nat → Bool)
  | detach (cgrp : Nat) (prog : Option Nat) (type : Nat) (arr_ok : Nat → Bool)
  | create (parent : Option Nat) (arr_ok : Nat → Bool)

/-- The state after one call. Attach and detach are called on cgroups of the
tree only. A cgroup whose `cgroup_bpf_inherit` fails is not added to the tree
(its creation fails). `NR` is the number of attach types. -/
def step (NR : Nat) (s : State) : Op → State
  | Op.attach cgrp prog type flags pl_ok arr_ok =>
    if cgrp < s.nr then (__cgroup_bpf_attach s cgrp prog type flags pl_ok arr_ok).2 else s
  | Op.detach cgrp prog type arr_ok =>
    if cgrp < s.nr then (__cgroup_bpf_detach s cgrp prog type arr_ok).2 else s
  | Op.create none arr_ok =>
    let r := cgroup_bpf_inherit (cgroup_create s none) s.nr NR arr_ok
    if r.1 = 0 then r.2 else s
  | Op.create (some p) arr_ok =>
    if h : p < s.nr then
      let r := cgroup_bpf_inherit (cgroup_create s (some ⟨p, h⟩)) s.nr NR arr_ok
      if r.1 = 0 then r.2 else s
    else s

/-- The state after a sequence of calls. -/
def run (NR : Nat) (s : State) : List Op → State
  | [] => s
  | op :: ops => run NR (step NR s op) ops

/-- Every published chain equals the compiled chain: for every cgroup of the
tree and every attach type, `effective[type]` is the array that
`compute_effective_progs` returns on the current lists and flags. -/
def published_ok (NR : Nat) (s : State) : Prop :=
  ∀ n type, n < s.nr → type < NR →
    ∃ array, s.effective n type = some array ∧
      compute_effective_progs s n type true = Except.ok array

/-- The state with no cgroup at all. -/
def empty_state : State :=
  { nr := 0
    parent := fun _ => none
    parent_lt := by intro n p h; cases h
    progs := fun _ _ => []
    flags := fun _ _ => 0
    effective := fun _ _ => none
    enabled_key := 0
    released := [] }

/-- A tree of `nr` cgroups in a line: cgroup 0 is the root and cgroup `n + 1`
is the child of cgroup `n`; the lists, the flags and the published arrays are
given. -/
def chain_state (nr : Nat) (progs : Nat → Nat → List (Option Nat)) (flags : Nat → Nat → Nat)
    (effective : Nat → Nat → Option (List Nat)) : State :=
  { nr := nr
    parent := fun n => if n = 0 then none else some (n - 1)
    parent_lt := by
      intro n p h
      beta_reduce at h
      by_cases hn : n = 0
      · rw [if_pos hn] at h; cases h
      · rw [if_neg hn] at h; cases h; omega
    progs := progs
    flags := flags
    effective := effective
    enabled_key := 0
    released := [] }

/-! ## Example states -/

/-- Root cgroup 0 with the program 7 and child cgroup 1 with the program 9,
both attached with `BPF_F_ALLOW_MULTI`, for attach type 0. -/
def order_state : State :=
  chain_state 2 (fun n t => if t = 0 then (if n = 0 then [some 7] else if n = 1 then [some 9] else []) else [])
    (fun n t => if t = 0 ∧ n < 2 then BPF_F_ALLOW_MULTI else 0) (fun _ _ => none)

/-- Root cgroup 0 holding the single program 7 attached with no flags for
attach type 0, and its child cgroup 1 without attachments. -/
def inherit_state : State :=
  chain_state 2 (fun n t => if n = 0 ∧ t = 0 then [some 7] else [])
    (fun _ _ => 0) (fun n t => if n < 2 ∧ t = 0 then some [7] else some [])

/-- Root cgroup 0 holding the program 7 attached with `BPF_F_ALLOW_MULTI` for
attach type 0, and its child cgroup 1 without attachments; the published
chains are the compiled ones. -/
def multi_parent_state : State :=
  chain_state 2 (fun n t => if n = 0 ∧ t = 0 then [some 7] else [])
    (fun n t => if n = 0 ∧ t = 0 then BPF_F_ALLOW_MULTI else 0)
    (fun n t => if n < 2 ∧ t = 0 then some [7] else some [])

/-- A single root cgroup 0 without attachments and without flags; the published
chains are empty. -/
def root_state : State :=
  chain_state 1 (fun _ _ => []) (fun _ _ => 0) (fun _ _ => some [])

/-- A single root cgroup 0 holding the 64 programs 0, ..., 63 attached with
`BPF_F_ALLOW_MULTI` for attach type 0; the published chain is the compiled
one. -/
def full_state : State :=
  chain_state 1 (fun n t => if n = 0 ∧ t = 0 then (List.range 64).map some else [])
    (fun n t => if n = 0 ∧ t = 0 then BPF_F_ALLOW_MULTI else 0)
    (fun n t => if n = 0 ∧ t = 0 then some (List.range 64) else some [])

/-- Root cgroup 0 holding program 7 attached with `BPF_F_ALLOW_MULTI` and its
child cgroup 1 holding program 9 attached with no flags, for attach type 0; the
published chains are the compiled ones. -/
def replace_state : State :=
  chain_state 2
    (fun n t => if t = 0 then (if n = 0 then [some 7] else if n = 1 then [some 9] else []) else [])
    (fun n t => if n = 0 ∧ t = 0 then BPF_F_ALLOW_MULTI else 0)
    (fun n t => if t = 0 then (if n = 0 then some [7] else if n = 1 then some [9, 7] else some [])
      else some [])

/-- Attach the programs of the list one after another to the same cgroup, with
the same flags and with every allocation succeeding; the result is the list of
the return codes and the final state. -/
def attach_seq (s : State) (cgrp type flags : Nat) : List Nat → List Int × State
  | [] => ([], s)
  | prog :: rest =>
    let r := __cgroup_bpf_attach s cgrp prog type flags true (fun _ => true)
    let q := attach_seq r.2 cgrp type flags rest
    (r.1 :: q.1, q.2)

/-! ## __cgroup_bpf_run_filter -/

/-- The address family `AF_INET` (declared in a header outside of the
sources). -/
def AF_INET : Nat := 2

/-- The address family `AF_INET6` (declared in a header outside of the
sources). -/
def AF_INET6 : Nat := 10

/-- What `__cgroup_bpf_run_filter` reads of a `struct sock`: the answer of
`sk_fullsock(sk)`, the field `sk->sk_family` and the cgroup `sk->skcg` (`none`
for `NULL`). -/
structure sock where
  /-- The answer of `sk_fullsock(sk)`. -/
  fullsock : Bool
  /-- The field `sk_family`. -/
  sk_family : Nat
  /-- The field `skcg`. -/
  skcg : Option Nat
deriving DecidableEq

/-- Modelled from the spec: the macro `BPF_PROG_RUN_ARRAY(array, ctx, func)` is
declared outside of the sources. Following the spec (the programs of the
published chain are executed in order, an empty chain is a pass-through) and
the comment of `__cgroup_bpf_run_filter` (a denial if an attached program
returned `!= 1`), its value is 1 when every program of the array returned 1,
and 0 otherwise; `func prog` is the value the program returns on the packet.
An array that is `NULL` is run as an empty one. -/
def BPF_PROG_RUN_ARRAY (array : Option (List Nat)) (func : Nat → Nat) : Nat :=
  match array with
  | none => 1
  | some progs => if progs.all (fun prog => func prog == 1) then 1 else 0

/-- Run a program for packet filtering. `sk` is `none` for a `NULL` socket;
`run_array array` is the value of
`BPF_PROG_RUN_ARRAY(array, skb, bpf_prog_run_save_cb)` on the packet. The
packet is pushed and pulled by the same offset and gets its `sk` field back, so
it is left as it was. -/
def __cgroup_bpf_run_filter (s : State) (run_array : Option (List Nat) → Nat)
    (sk : Option sock) (type : Nat) : Int :=
  match sk with
  | none => 0
  | some sk =>
    if !sk.fullsock then 0
    else if sk.sk_family ≠ AF_INET ∧ sk.sk_family ≠ AF_INET6 then 0
    else
      match sk.skcg with
      | none => 0
      | some cgrp =>
        let ret := run_array (s.effective cgrp type)
        if ret = 1 then 0 else -EPERM

/-! ## cls_bpf_classify -/

/-- The action code `TC_ACT_UNSPEC` (declared in a header outside of the
sources). -/
def TC_ACT_UNSPEC : Int := -1

/-- The action code `TC_ACT_OK` (declared in a header outside of the
sources). -/
def TC_ACT_OK : Int := 0

/-- The action code `TC_ACT_SHOT` (declared in a header outside of the
sources). -/
def TC_ACT_SHOT : Int := 2

/-- The action code `TC_ACT_STOLEN` (declared in a header outside of the
sources). -/
def TC_ACT_STOLEN : Int := 4

/-- The action code `TC_ACT_REDIRECT` (declared in a header outside of the
sources). -/
def TC_ACT_REDIRECT : Int := 7

/-- The macro `TC_H_MAJ(h)`, the major part of a class identifier (declared in
a header outside of the sources). -/
def TC_H_MAJ (h : Nat) : Nat := h &&& 0xFFFF0000

/-- The `switch` of `cls_bpf_exec_opcode`. -/
def cls_bpf_exec_opcode (code : Int) : Int :=
  if code = TC_ACT_OK ∨ code = TC_ACT_SHOT ∨ code = TC_ACT_STOLEN ∨
      code = TC_ACT_REDIRECT ∨ code = TC_ACT_UNSPEC then code
  else TC_ACT_UNSPEC

/-- A `struct tcf_result`: the fields `class` and `classid`. -/
structure tcf_result where
  /-- The field `class`. -/
  class_ : Nat
  /-- The field `classid`. -/
  classid : Nat
deriving DecidableEq

/-- What the classifier uses of a `struct cls_bpf_prog`: the program `filter`,
the configured result `res`, the flag `exts_integrated`, the extensions `exts`
(as an identifier) and the `handle`. -/
structure cls_bpf_prog where
  /-- The program that is run. -/
  filter : Nat
  /-- The configured result. -/
  res : tcf_result
  /-- Integrated (direct action) mode. -/
  exts_integrated : Bool
  /-- The extensions of the program. -/
  exts : Nat
  /-- The handle of the program. -/
  handle : Nat
deriving DecidableEq

/-- The state of the loop of `cls_bpf_classify`: the variable `ret`, the result
`*res`, the field `qdisc_skb_cb(skb)->tc_classid` and the programs run so far,
oldest first. -/
structure classify_state where
  /-- The variable `ret`. -/
  ret : Int
  /-- The result `*res`. -/
  res : tcf_result
  /-- The field `tc_classid` of the packet. -/
  tc_classid : Nat
  /-- The programs run so far. -/
  ran : List Nat
deriving DecidableEq

/-- The loop `list_for_each_entry_rcu(prog, &head->plist, link)` of
`cls_bpf_classify`. `bpf_prog_run filter tc_classid` is the value of
`BPF_PROG_RUN(prog->filter, skb)` as stored in `int filter_res`, together with
the `tc_classid` the program leaves in the packet; `tcf_exts_exec exts res` is
the value of `tcf_exts_exec(skb, &prog->exts, res)` together with the result it
leaves in `*res`. -/
def classify_loop (bpf_prog_run : Nat → Nat → Int × Nat)
    (tcf_exts_exec : Nat → tcf_result → Int × tcf_result) :
    List cls_bpf_prog → classify_state → classify_state
  | [], st => st
  | prog :: rest, st =>
    let run := bpf_prog_run prog.filter prog.res.classid
    let filter_res := run.1
    let st1 := { st with tc_classid := run.2, ran := st.ran ++ [prog.filter] }
    if prog.exts_integrated then
      let res1 : tcf_result :=
        { class_ := 0, classid := TC_H_MAJ prog.res.classid ||| run.2 }
      let ret := cls_bpf_exec_opcode filter_res
      if ret = TC_ACT_UNSPEC then
        classify_loop bpf_prog_run tcf_exts_exec rest { st1 with res := res1, ret := ret }
      else { st1 with res := res1, ret := ret }
    else if filter_res = 0 then
      classify_loop bpf_prog_run tcf_exts_exec rest st1
    else
      let res1 : tcf_result :=
        if filter_res ≠ -1 then { class_ := 0, classid := (filter_res % 2 ^ 32).toNat }
        else prog.res
      let act := tcf_exts_exec prog.exts res1
      if act.1 < 0 then
        classify_loop bpf_prog_run tcf_exts_exec rest { st1 with res := act.2, ret := act.1 }
      else { st1 with res := act.2, ret := act.1 }

/-- The classifier `cls_bpf_classify`: `mac_header_was_set` is the answer of
`skb_mac_header_was_set(skb)`, `plist` the list `head->plist`, `res` the
initial content of `*res` and `tc_classid` that of the packet. -/
def cls_bpf_classify (mac_header_was_set : Bool) (bpf_prog_run : Nat → Nat → Int × Nat)
    (tcf_exts_exec : Nat → tcf_result → Int × tcf_result) (plist : List cls_bpf_prog)
    (res : tcf_result) (tc_classid : Nat) : classify_state :=
  if !mac_header_was_set then
    { ret := -1, res := res, tc_classid := tc_classid, ran := [] }
  else
    classify_loop bpf_prog_run tcf_exts_exec plist
      { ret := -1, res := res, tc_classid := tc_classid, ran := [] }

/-- An integrated-mode program of the classifier, with filter 1 and class
identifier 0. -/
def integrated_prog : cls_bpf_prog :=
  { filter := 1, res := { class_ := 0, classid := 0 }, exts_integrated := true, exts := 0,
    handle := 1 }

/-- A classic-mode program of the classifier, with filter 2 and the configured
result of class 5 and class identifier 6. -/
def classic_prog : cls_bpf_prog :=
  { filter := 2, res := { class_ := 5, classid := 6 }, exts_integrated := false, exts := 0,
    handle := 2 }

/-! ## The array of compute_effective_progs as a block of fixed length -/

/-- The loop `list_for_each_entry(pl, &p->bpf.progs[type], node) { if (!pl->prog)
continue; progs[cnt++] = pl->prog; }` on an array of fixed length, whose
entries are `none` until they are written: the array and `cnt` after the loop,
or `none` when a write falls outside of the array. -/
def populate_list : List (Option Nat) → List (Option Nat) → Nat →
    Option (List (Option Nat) × Nat)
  | [], progs, cnt => some (progs, cnt)
  | none :: head, progs, cnt => populate_list head progs cnt
  | some prog :: head, progs, cnt =>
    if cnt < progs.length then populate_list head (progs.set cnt (some prog)) (cnt + 1)
    else none

/-- Second walk of `compute_effective_progs` on an array of fixed length:
`progs` is the array and `cnt` the write index so far; the result is `none`
when a write falls outside of the array. -/
def populate_array (s : State) (type : Nat) :
    List Nat → List (Option Nat) → Nat → Option (List (Option Nat) × Nat)
  | [], progs, cnt => some (progs, cnt)
  | p :: rest, progs, cnt =>
    if cnt = 0 ∨ allow_multi (s.flags p type) then
      match populate_list (s.progs p type) progs cnt with
      | none => none
      | some (progs1, cnt1) => populate_array s type rest progs1 cnt1
    else populate_array s type rest progs cnt

/-- The body of `compute_effective_progs` with the array as a block of memory:
count, allocate `cnt` zeroed entries (the allocation succeeding), populate. The
result is the array and the final write index, or `none` when a write falls
outside of the array. -/
def compute_effective_array (s : State) (cgrp type : Nat) :
    Option (List (Option Nat) × Nat) :=
  let cnt := count_effective s type (cgroup_path s cgrp) 0
  populate_array s type (cgroup_path s cgrp) (List.replicate cnt none) 0

/-! ## A chain of five cgroups -/

/-- Attach, for attach type 0 and with every allocation succeeding, the
programs of the list one after another, each to its cgroup and with its flags
(an item is the cgroup, the program and the flags); the result is the list of
the return codes and the final state. -/
def attach_all (s : State) : List (Nat × Nat × Nat) → List Int × State
  | [] => ([], s)
  | (cgrp, prog, flags) :: rest =>
    let r := __cgroup_bpf_attach s cgrp prog 0 flags true (fun _ => true)
    let q := attach_all r.2 rest
    (r.1 :: q.1, q.2)

/-- Five cgroups in a line, cgroup 0 being the root, with no attachment; the
published chains are empty. -/
def five_level_empty : State :=
  chain_state 5 (fun _ _ => []) (fun _ _ => 0) (fun _ _ => some [])

/-- The attaches of the five-level example, the cgroups `cgrp1`, ..., `cgrp5`
being 0, ..., 4 and the programs `A`, ..., `F` being 10, ..., 15: `A` and `B` on
cgroup 0 with `BPF_F_ALLOW_MULTI`, `C` on cgroup 1 with `BPF_F_ALLOW_OVERRIDE`,
`D` on cgroup 2 with `BPF_F_ALLOW_MULTI`, `E` on cgroup 3 with
`BPF_F_ALLOW_OVERRIDE` and `F` on cgroup 4 with no flags. -/
def five_level_attaches : List (Nat × Nat × Nat) :=
  [(0, 10, BPF_F_ALLOW_MULTI), (0, 11, BPF_F_ALLOW_MULTI), (1, 12, BPF_F_ALLOW_OVERRIDE),
   (2, 13, BPF_F_ALLOW_MULTI), (3, 14, BPF_F_ALLOW_OVERRIDE), (4, 15, 0)]

/-- The state of the five-level example after its attaches. -/
def five_level_state : State := (attach_all five_level_empty five_level_attaches).2

/-- The five-level example after the detach of `F` from cgroup 4. -/
def five_level_detach_F : Int × State :=
  __cgroup_bpf_detach five_level_state 4 (some 15) 0 (fun _ => true)

/-- The five-level example after the detaches of `F` and of `D` (from
cgroup 2). -/
def five_level_detach_FD : Int × State :=
  __cgroup_bpf_detach five_level_detach_F.2 2 (some 13) 0 (fun _ => true)

/-- The five-level example after the detaches of `F`, of `D` and of `E` (from
cgroup 3). -/
def five_level_detach_FDE : Int × State :=
  __cgroup_bpf_detach five_level_detach_FD.2 3 (some 14) 0 (fun _ => true)

/-! ## cls_bpf_get, cls_bpf_grab_new_handle -/

/-- What the handle functions use of a `struct cls_bpf_head`: the list `plist`
of the programs and the handle generator `hgen`, a `u32`. -/
structure cls_bpf_head where
  /-- The list of the programs. -/
  plist : List cls_bpf_prog
  /-- The handle generator. -/
  hgen : Nat
deriving DecidableEq

/-- The lookup `cls_bpf_get`: `head` is `tp->root` (`none` for `NULL`); the
result is the first program of the list whose handle is `handle`, `none`
standing for the value `0UL`. -/
def cls_bpf_get (head : Option cls_bpf_head) (handle : Nat) : Option cls_bpf_prog :=
  match head with
  | none => none
  | some head => head.plist.find? (fun prog => prog.handle == handle)

/-- The body `if (++head->hgen == 0x7FFFFFFF) head->hgen = 1;` of the loop of
`cls_bpf_grab_new_handle`, the increment being that of a `u32`. -/
def grab_new_handle_step (head : cls_bpf_head) : cls_bpf_head :=
  let hgen := (head.hgen + 1) % 2 ^ 32
  { plist := head.plist, hgen := if hgen = 0x7FFFFFFF then 1 else hgen }

/-- The loop `do { if (++head->hgen == 0x7FFFFFFF) head->hgen = 1; } while (--i > 0
&& cls_bpf_get(tp, head->hgen));` of `cls_bpf_grab_new_handle`. The first
argument is the counter `i` at the entry of the body, which is positive there
since the loop starts with `0x80000000` and goes on only while `--i > 0`; the
result is `i` and the head after the loop. -/
def grab_new_handle_loop : Nat → cls_bpf_head → Nat × cls_bpf_head
  | 0, head => (0, head)
  | i + 1, head =>
    let head1 := grab_new_handle_step head
    if 0 < i ∧ (cls_bpf_get (some head1) head1.hgen).isSome then grab_new_handle_loop i head1
    else (i, head1)

/-- The function `cls_bpf_grab_new_handle`: the handle it returns and the head
it leaves. -/
def cls_bpf_grab_new_handle (head : cls_bpf_head) : Nat × cls_bpf_head :=
  let r := grab_new_handle_loop 0x80000000 head
  if r.1 = 0 then (0, r.2) else (r.2.hgen, r.2)

/-! ## The assertion of hierarchy_allows_attach, the invariant of the lists -/

/-- The walk of `hierarchy_allows_attach` once more, watching the assertion
`WARN_ON_ONCE(cnt > 1)`: whether `cnt > 1` holds at one of the ancestors that
the loop visits. An ancestor with `cnt > 1` does not stop the loop. -/
def hierarchy_warn_walk (s : State) (type : Nat) : List Nat → Bool
  | [] => false
  | p :: rest =>
    let flags := s.flags p type
    if allow_multi flags then false
    else
      let cnt := prog_list_length (s.progs p type)
      decide (cnt > 1) || (if cnt = 1 then false else hierarchy_warn_walk s type rest)

/-- Whether the assertion `WARN_ON_ONCE(cnt > 1)` of `hierarchy_allows_attach`
fires in a call on `cgrp` and `type`. -/
def hierarchy_warns (s : State) (cgrp type : Nat) : Bool :=
  match s.parent cgrp with
  | none => false
  | some _ => hierarchy_warn_walk s type (cgroup_path s cgrp).tail

/-- The invariant of the lists between two calls: no entry of a list has a
`NULL` program, no program occurs twice in a list, a list whose flags lack
`BPF_F_ALLOW_MULTI` has at most one entry, and the cgroups that are not
created yet have empty lists. -/
def registry_inv (s : State) : Prop :=
  ∀ n t, none ∉ s.progs n t ∧ (s.progs n t).Nodup ∧
    (allow_multi (s.flags n t) = false → (s.progs n t).length ≤ 1) ∧
    (s.nr ≤ n → s.progs n t = [])

/-! ## cgroup_bpf_put, the number of entries -/

/-- The loop `list_for_each_entry_safe(pl, tmp, progs, node) { list_del(&pl->node);
bpf_prog_put(pl->prog); kfree(pl); static_key_slow_dec(&cgroup_bpf_enabled_key); }`
of `cgroup_bpf_put` over the entries of the list of `(cgrp, type)`. -/
def put_entries (s : State) (cgrp type : Nat) : List (Option Nat) → State
  | [] => s
  | pl :: rest =>
    let s1 := set_progs s cgrp type rest
    put_entries { s1 with released := s1.released ++ [pl], enabled_key := s1.enabled_key - 1 }
      cgrp type rest

/-- The loop `for (type = 0; type < ARRAY_SIZE(cgrp->bpf.progs); type++)` of
`cgroup_bpf_put`, over the attach types of the list. The call
`bpf_prog_array_free(cgrp->bpf.effective[type])` frees the array and does not
write the pointer. -/
def cgroup_bpf_put_types (s : State) (cgrp : Nat) : List Nat → State
  | [] => s
  | type :: rest =>
    cgroup_bpf_put_types (put_entries s cgrp type (s.progs cgrp type)) cgrp rest

/-- Put the references of all programs of a cgroup; `NR` is
`ARRAY_SIZE(cgrp->bpf.progs)`, the number of attach types. -/
def cgroup_bpf_put (s : State) (cgrp NR : Nat) : State :=
  cgroup_bpf_put_types s cgrp (List.range NR)

/-- The number of entries of the lists of a cgroup, over the attach types below
`NR`. -/
def cgroup_slots (NR : Nat) (s : State) (n : Nat) : Nat :=
  ((List.range NR).map (fun t => (s.progs n t).length)).sum

/-- The number of entries of all lists, over the cgroups of the tree and the
attach types below `NR`. -/
def total_slots (NR : Nat) (s : State) : Nat :=
  ((List.range s.nr).map (cgroup_slots NR s)).sum

/-- Whether the attach type of a call is one of the `NR` attach types, as the
callers of attach and detach ensure (the lists are an array of `NR` heads). -/
def op_type_ok (NR : Nat) : Op → Bool
  | Op.attach _ _ type _ _ _ => decide (type < NR)
  | Op.detach _ _ type _ => decide (type < NR)
  | Op.create _ _ => true

/-! ## Lemmas on the walk to the root -/

theorem cgroup_path_aux_irrel (s : State) :
    ∀ (k k2 n : Nat) (h : n < k) (h2 : n < k2),
      cgroup_path_aux s k n h = cgroup_path_aux s k2 n h2 := by
  intro k
  induction k with
  | zero => intro k2 n h; omega
  | succ k ih =>
    intro k2 n h h2
    cases k2 with
    | zero => omega
    | succ k2 =>
      unfold cgroup_path_aux
      split
      · rfl
      · rename_i p hp
        congr 1
        exact ih k2 p _ _

theorem cgroup_path_root (s : State) (n : Nat) (h : s.parent n = none) :
    cgroup_path s n = [n] := by
  unfold cgroup_path cgroup_path_aux
  split
  · rfl
  · rename_i p hp; rw [h] at hp; cases hp

theorem cgroup_path_child (s : State) (n p : Nat) (h : s.parent n = some p) :
    cgroup_path s n = n :: cgroup_path s p := by
  unfold cgroup_path
  conv_lhs => unfold cgroup_path_aux
  split
  · rename_i hp; rw [h] at hp; cases hp
  · rename_i q hq
    have hqp : q = p := by rw [h] at hq; cases hq; rfl
    subst hqp
    congr 1
    exact cgroup_path_aux_irrel s _ _ _ _ _

theorem cgroup_path_cons (s : State) (n : Nat) :
    cgroup_path s n = n :: (cgroup_path s n).tail := by
  cases h : s.parent n with
  | none => rw [cgroup_path_root s n h]; rfl
  | some p => rw [cgroup_path_child s n p h]; rfl

theorem live_progs_eq_reduceOption (l : List (Option Nat)) :
    live_progs l = l.reduceOption := by
  induction l with
  | nil => rfl
  | cons a t ih =>
    cases a with
    | none => simp [live_progs, ih]
    | some v => simp [live_progs, ih]

theorem live_progs_append (l1 l2 : List (Option Nat)) :
    live_progs (l1 ++ l2) = live_progs l1 ++ live_progs l2 := by
  simp [live_progs_eq_reduceOption, List.reduceOption_append]

theorem prog_list_length_eq (l : List (Option Nat)) :
    prog_list_length l = (live_progs l).length := by
  induction l with
  | nil => rfl
  | cons a t ih =>
    cases a with
    | none => simp [live_progs, prog_list_length, ih]
    | some v => simp [live_progs, prog_list_length, ih]

theorem fill_effective_append (s : State) (type : Nat) :
    ∀ (l1 l2 : List Nat) (arr : List Nat),
      fill_effective s type (l1 ++ l2) arr
        = fill_effective s type l2 (fill_effective s type l1 arr) := by
  intro l1
  induction l1 with
  | nil => intro l2 arr; rfl
  | cons p rest ih =>
    intro l2 arr
    simp only [List.cons_append, fill_effective]
    split <;> exact ih _ _

theorem fill_effective_parts (s : State) (type : Nat) :
    ∀ (l : List Nat) (arr : List Nat), ∃ parts : List (List Nat),
      List.Forall₂ (fun p part => part = live_progs (s.progs p type) ∨ part = []) l parts ∧
      fill_effective s type l arr = arr ++ parts.flatten := by
  intro l
  induction l with
  | nil => intro arr; exact ⟨[], List.Forall₂.nil, by simp [fill_effective]⟩
  | cons p rest ih =>
    intro arr
    simp only [fill_effective]
    split
    · obtain ⟨parts, hp, he⟩ := ih (arr ++ live_progs (s.progs p type))
      exact ⟨live_progs (s.progs p type) :: parts, List.Forall₂.cons (Or.inl rfl) hp, by
        rw [he]; simp⟩
    · obtain ⟨parts, hp, he⟩ := ih arr
      exact ⟨[] :: parts, List.Forall₂.cons (Or.inr rfl) hp, by rw [he]; simp⟩

theorem compute_effective_progs_ok (s : State) (n type : Nat) :
    compute_effective_progs s n type true
      = Except.ok (fill_effective s type (cgroup_path s n) []) := rfl

theorem compute_effective_progs_fail (s : State) (n type : Nat) :
    compute_effective_progs s n type false = Except.error (-ENOMEM) := rfl

theorem cgroup_path_tail_lt (s : State) :
    ∀ n m, m ∈ (cgroup_path s n).tail → m < n := by
  intro n
  induction n using Nat.strong_induction_on with
  | _ n ih =>
    intro m hm
    cases h : s.parent n with
    | none => rw [cgroup_path_root s n h] at hm; simp at hm
    | some p =>
      have hp := s.parent_lt n p h
      rw [cgroup_path_child s n p h, List.tail_cons, cgroup_path_cons] at hm
      rcases List.mem_cons.mp hm with h1 | h1
      · omega
      · have := ih p hp m h1
        omega

theorem cgroup_path_le (s : State) (n m : Nat) (hm : m ∈ cgroup_path s n) : m ≤ n := by
  rw [cgroup_path_cons] at hm
  rcases List.mem_cons.mp hm with h1 | h1
  · omega
  · exact Nat.le_of_lt (cgroup_path_tail_lt s n m h1)

theorem fill_effective_extends (s : State) (type : Nat) (l : List Nat) (arr : List Nat) :
    ∃ rest, fill_effective s type l arr = arr ++ rest := by
  obtain ⟨parts, _, he⟩ := fill_effective_parts s type l arr
  exact ⟨parts.flatten, he⟩

theorem fill_effective_eq_nil_iff (s : State) (type : Nat) :
    ∀ l : List Nat, fill_effective s type l [] = [] ↔
      ∀ c ∈ l, live_progs (s.progs c type) = [] := by
  intro l
  induction l with
  | nil => simp [fill_effective]
  | cons p rest ih =>
    simp only [fill_effective, List.length_nil, true_or, if_true, List.nil_append,
      List.mem_cons, forall_eq_or_imp]
    constructor
    · intro h
      obtain ⟨r, hr⟩ := fill_effective_extends s type rest (live_progs (s.progs p type))
      have hl : live_progs (s.progs p type) = [] := by
        rw [hr] at h
        exact (List.append_eq_nil.mp h).1
      rw [hl] at h
      exact ⟨hl, ih.mp h⟩
    · rintro ⟨hl, hrest⟩
      rw [hl]
      exact ih.mpr hrest

/-- The step of the second walk at one node. -/
theorem fill_effective_cons (s : State) (type p : Nat) (rest arr : List Nat) :
    fill_effective s type (p :: rest) arr
      = fill_effective s type rest
          (arr ++ if arr = [] ∨ allow_multi (s.flags p type) then
              live_progs (s.progs p type) else []) := by
  simp only [fill_effective, List.length_eq_zero]
  split <;> simp

/-- C5, counterexample: in `order_state` the chain of cgroup 1 is `[9, 7]`, its
own program 9 before the program 7 of its parent, and not the ancestors-first
chain `[7, 9]`. -/
theorem chain_order_counterexample :
    order_state.parent 1 = some 0 ∧
    live_progs (order_state.progs 0 0) = [7] ∧
    live_progs (order_state.progs 1 0) = [9] ∧
    compute_effective_progs order_state 1 0 true = Except.ok [9, 7] ∧
    compute_effective_progs order_state 1 0 true ≠
      Except.ok (live_progs (order_state.progs 0 0) ++ live_progs (order_state.progs 1 0)) := by
  refine ⟨rfl, rfl, rfl, rfl, ?_⟩
  intro h
  have h2 : (Except.ok [9, 7] : Except Int (List Nat)) = Except.ok [7, 9] := h
  injection h2 with h3
  exact absurd h3 (by decide)

/-- C5 (amended): the chain that `compute_effective_progs` returns for cgroup
`n` is the concatenation, along the walk `n`, parent of `n`, ..., root, of one
part per visited cgroup, each part being either the live programs of that
cgroup in insertion order or empty; the part of `n` itself comes first and is
the list of its live programs. So the programs of a cgroup closer to `n` come
before those of any farther ancestor. -/
theorem chain_order (s : State) (n type : Nat) :
    ∃ parts : List (List Nat),
      List.Forall₂ (fun p part => part = live_progs (s.progs p type) ∨ part = [])
        (cgroup_path s n) parts ∧
      parts.head? = some (live_progs (s.progs n type)) ∧
      compute_effective_progs s n type true = Except.ok parts.flatten := by
  rw [compute_effective_progs_ok, cgroup_path_cons, fill_effective_cons]
  obtain ⟨parts, hp, he⟩ := fill_effective_parts s type (cgroup_path s n).tail
    ([] ++ if ([] : List Nat) = [] ∨ allow_multi (s.flags n type) then
      live_progs (s.progs n type) else [])
  simp only [true_or, if_true, List.nil_append] at he hp ⊢
  exact ⟨live_progs (s.progs n type) :: parts, List.Forall₂.cons (Or.inl rfl) hp, rfl, by
    rw [he]; simp⟩

/-- C6, counterexample: in `inherit_state` the root 0 is a proper ancestor of
cgroup 1 without `BPF_F_ALLOW_MULTI`, and yet its program 7 is contributed to
the chain of cgroup 1, which is not the chain made of the programs of cgroup 1
alone. -/
theorem contribution_rule_counterexample :
    inherit_state.parent 1 = some 0 ∧
    allow_multi (inherit_state.flags 0 0) = false ∧
    live_progs (inherit_state.progs 0 0) = [7] ∧
    compute_effective_progs inherit_state 1 0 true = Except.ok [7] ∧
    compute_effective_progs inherit_state 1 0 true ≠
      Except.ok (live_progs (inherit_state.progs 1 0)) := by
  refine ⟨rfl, rfl, rfl, rfl, ?_⟩
  intro h
  have h2 : (Except.ok [7] : Except Int (List Nat)) = Except.ok [] := h
  injection h2 with h3
  exact absurd h3 (by decide)

theorem compute_effective_progs_split (s : State) (n type a : Nat) (pre post : List Nat)
    (hpath : cgroup_path s n = pre ++ a :: post) :
    ∃ parts : List (List Nat),
      List.Forall₂ (fun p part => part = live_progs (s.progs p type) ∨ part = []) post parts ∧
      compute_effective_progs s n type true =
        Except.ok (fill_effective s type pre [] ++
          (if fill_effective s type pre [] = [] ∨ allow_multi (s.flags a type) then
            live_progs (s.progs a type) else []) ++ parts.flatten) := by
  rw [compute_effective_progs_ok, hpath, fill_effective_append, fill_effective_cons]
  obtain ⟨parts, hp, hl⟩ := fill_effective_parts s type post
    (fill_effective s type pre [] ++
      (if fill_effective s type pre [] = [] ∨ allow_multi (s.flags a type) then
        live_progs (s.progs a type) else []))
  exact ⟨parts, hp, by rw [hl]⟩

/-- C6 (amended): for a cgroup `a` on the walk from `n` to the root, with `pre`
the cgroups visited before it and `post` those visited after it, the chain of
`n` is what has been collected from `pre`, then the part of `a`, then one part
per cgroup of `post` (its live programs or nothing). The part of `a` is the
list of its live programs when nothing has been collected from `pre` or the
flags of `a` have `BPF_F_ALLOW_MULTI`, and is empty otherwise. Nothing has
been collected from `pre` exactly when no cgroup of `pre` has a live program;
this is the case when `a` is `n` itself. -/
theorem contribution_rule (s : State) (n type a : Nat) (pre post : List Nat)
    (hpath : cgroup_path s n = pre ++ a :: post) :
    (∃ parts : List (List Nat),
      List.Forall₂ (fun p part => part = live_progs (s.progs p type) ∨ part = []) post parts ∧
      compute_effective_progs s n type true =
        Except.ok (fill_effective s type pre [] ++
          (if fill_effective s type pre [] = [] ∨ allow_multi (s.flags a type) then
            live_progs (s.progs a type) else []) ++ parts.flatten)) ∧
    (fill_effective s type pre [] = [] ↔ ∀ c ∈ pre, live_progs (s.progs c type) = []) ∧
    (a = n → pre = []) := by
  refine ⟨compute_effective_progs_split s n type a pre post hpath,
    fill_effective_eq_nil_iff s type pre, ?_⟩
  intro han
  subst han
  cases pre with
  | nil => rfl
  | cons x pre2 =>
    exfalso
    rw [cgroup_path_cons] at hpath
    simp only [List.cons_append, List.cons.injEq] at hpath
    have hmem : a ∈ (cgroup_path s a).tail := by
      rw [hpath.2]; simp
    exact absurd (cgroup_path_tail_lt s a a hmem) (Nat.lt_irrefl a)

/-- C6, witness: the rule at the root of `inherit_state`, seen from cgroup 1. -/
theorem contribution_rule_witness :
    cgroup_path inherit_state 1 = [1] ++ 0 :: [] ∧
    (fill_effective inherit_state 0 [1] [] = [] ↔
      ∀ c ∈ [1], live_progs (inherit_state.progs c 0) = []) :=
  ⟨rfl, (contribution_rule inherit_state 1 0 0 [1] [] rfl).2.1⟩

/-- C7: a cgroup that has a parent and no live program for the attach type
gets from `compute_effective_progs` what its parent gets, whatever the outcome
of the allocation; and when the root `R` holds the single program `A` attached
with no flags and its child `C` has no attachment, the chain of `R` and the
chain of `C` are both `[A]`. -/
theorem inheritance :
    (∀ (s : State) (n p type : Nat) (alloc_ok : Bool), s.parent n = some p →
      live_progs (s.progs n type) = [] →
      compute_effective_progs s n type alloc_ok = compute_effective_progs s p type alloc_ok) ∧
    (∀ (s : State) (R C type A : Nat), s.parent R = none → s.parent C = some R →
      s.progs R type = [some A] → s.flags R type = 0 → s.progs C type = [] →
      compute_effective_progs s R type true = Except.ok [A] ∧
      compute_effective_progs s C type true = Except.ok [A]) := by
  have key : ∀ (s : State) (n p type : Nat) (alloc_ok : Bool), s.parent n = some p →
      live_progs (s.progs n type) = [] →
      compute_effective_progs s n type alloc_ok = compute_effective_progs s p type alloc_ok := by
    intro s n p type alloc_ok hp hl
    cases alloc_ok with
    | false => rfl
    | true =>
      rw [compute_effective_progs_ok, compute_effective_progs_ok, cgroup_path_child s n p hp,
        fill_effective_cons, hl]
      simp
  refine ⟨key, ?_⟩
  intro s R C type A hR hC hprogs _ hCprogs
  have hroot : compute_effective_progs s R type true = Except.ok [A] := by
    rw [compute_effective_progs_ok, cgroup_path_root s R hR, fill_effective_cons, hprogs]
    simp [fill_effective, live_progs]
  refine ⟨hroot, ?_⟩
  rw [key s C R type true hC (by rw [hCprogs]; rfl)]
  exact hroot

/-- C7, witness: scenario A on `inherit_state`, whose root 0 holds the program
7 and whose child 1 has no attachment. -/
theorem inheritance_witness :
    inherit_state.parent 0 = none ∧ inherit_state.parent 1 = some 0 ∧
    inherit_state.progs 0 0 = [some 7] ∧ inherit_state.flags 0 0 = 0 ∧
    inherit_state.progs 1 0 = [] ∧ live_progs (inherit_state.progs 1 0) = [] ∧
    compute_effective_progs inherit_state 1 0 true
      = compute_effective_progs inherit_state 0 0 true ∧
    compute_effective_progs inherit_state 0 0 true = Except.ok [7] ∧
    compute_effective_progs inherit_state 1 0 true = Except.ok [7] :=
  ⟨rfl, rfl, rfl, rfl, rfl, rfl, inheritance.1 inherit_state 1 0 0 true rfl rfl,
    inheritance.2 inherit_state 0 1 0 7 rfl rfl rfl rfl rfl⟩

/-- C8: whatever the flags of the cgroup `n` and of its ancestors, the chain
returned by `compute_effective_progs` starts with the live programs of `n` in
insertion order, followed by one part per proper ancestor (its live programs
or nothing); the live programs of a list are its entries that are not `NULL`,
in list order, so a tombstoned entry contributes nothing. -/
theorem own_programs_included (s : State) (n type : Nat) :
    (∃ parts : List (List Nat),
      List.Forall₂ (fun p part => part = live_progs (s.progs p type) ∨ part = [])
        (cgroup_path s n).tail parts ∧
      compute_effective_progs s n type true
        = Except.ok (live_progs (s.progs n type) ++ parts.flatten)) ∧
    live_progs (s.progs n type) = (s.progs n type).reduceOption ∧
    (∀ prog, prog ∈ live_progs (s.progs n type) ↔ some prog ∈ s.progs n type) := by
  refine ⟨?_, live_progs_eq_reduceOption _, ?_⟩
  · rw [compute_effective_progs_ok, cgroup_path_cons, fill_effective_cons]
    obtain ⟨parts, hp, he⟩ := fill_effective_parts s type (cgroup_path s n).tail
      ([] ++ if ([] : List Nat) = [] ∨ allow_multi (s.flags n type) then
        live_progs (s.progs n type) else [])
    simp only [true_or, if_true, List.nil_append] at he hp ⊢
    exact ⟨parts, hp, by rw [he]⟩
  · intro prog
    rw [live_progs_eq_reduceOption, List.reduceOption_mem_iff]

theorem fill_effective_all_multi (s : State) (type : Nat) :
    ∀ (l : List Nat) (arr : List Nat), (∀ a ∈ l, allow_multi (s.flags a type) = true) →
      fill_effective s type l arr
        = arr ++ (l.map (fun a => live_progs (s.progs a type))).flatten := by
  intro l
  induction l with
  | nil => intro arr _; simp [fill_effective]
  | cons p rest ih =>
    intro arr h
    have hp : allow_multi (s.flags p type) = true := h p (List.mem_cons_self _ _)
    rw [fill_effective_cons, hp, ih _ (fun a ha => h a (List.mem_cons_of_mem _ ha))]
    simp

/-- C9: a cgroup `a` on the walk from `n` to the root whose flags have
`BPF_F_ALLOW_MULTI` contributes all its live programs to the chain of `n`, as
one block in insertion order, after what has been collected from the cgroups
visited before it and before the parts of the cgroups visited after it; and
when `n` and all its ancestors are multi, the chain is the concatenation of the
live programs of the cgroups of the walk. -/
theorem multi_composition :
    (∀ (s : State) (n type a : Nat), a ∈ cgroup_path s n →
      allow_multi (s.flags a type) = true →
      ∃ (pre post : List Nat) (parts : List (List Nat)),
        cgroup_path s n = pre ++ a :: post ∧
        List.Forall₂ (fun p part => part = live_progs (s.progs p type) ∨ part = [])
          post parts ∧
        compute_effective_progs s n type true
          = Except.ok (fill_effective s type pre [] ++ live_progs (s.progs a type)
              ++ parts.flatten)) ∧
    (∀ (s : State) (n type : Nat),
      (∀ a ∈ cgroup_path s n, allow_multi (s.flags a type) = true) →
      compute_effective_progs s n type true
        = Except.ok ((cgroup_path s n).map (fun a => live_progs (s.progs a type))).flatten) := by
  constructor
  · intro s n type a ha hm
    obtain ⟨pre, post, hpath⟩ := List.append_of_mem ha
    obtain ⟨parts, hp, hl⟩ := compute_effective_progs_split s n type a pre post hpath
    rw [hm] at hl
    simp only [or_true, if_true] at hl
    exact ⟨pre, post, parts, hpath, hp, hl⟩
  · intro s n type h
    rw [compute_effective_progs_ok, fill_effective_all_multi s type _ _ h]
    simp

/-- C9, witness: in `order_state` both cgroups are multi; the root contributes
its program to the chain of cgroup 1, which is `[9] ++ [7]`. -/
theorem multi_composition_witness :
    0 ∈ cgroup_path order_state 1 ∧ allow_multi (order_state.flags 0 0) = true ∧
    (∃ (pre post : List Nat) (parts : List (List Nat)),
        cgroup_path order_state 1 = pre ++ 0 :: post ∧
        List.Forall₂ (fun p part => part = live_progs (order_state.progs p 0) ∨ part = [])
          post parts ∧
        compute_effective_progs order_state 1 0 true
          = Except.ok (fill_effective order_state 0 pre [] ++ live_progs (order_state.progs 0 0)
              ++ parts.flatten)) ∧
    (∀ a ∈ cgroup_path order_state 1, allow_multi (order_state.flags a 0) = true) ∧
    compute_effective_progs order_state 1 0 true
      = Except.ok ((cgroup_path order_state 1).map
          (fun a => live_progs (order_state.progs a 0))).flatten :=
  ⟨by decide, rfl, multi_composition.1 order_state 1 0 0 (by decide) rfl, by decide,
    multi_composition.2 order_state 1 0 (by decide)⟩

/-- C10, counterexample: in `multi_parent_state` the parent of cgroup 1 has a
non-empty list and flags without `BPF_F_ALLOW_OVERRIDE` (they are
`BPF_F_ALLOW_MULTI`), and yet the attach of program 9 to cgroup 1 with no
flags is accepted: it returns 0 and program 9 is in the list of cgroup 1. -/
theorem hierarchy_rule_counterexample :
    multi_parent_state.parent 1 = some 0 ∧
    multi_parent_state.progs 0 0 ≠ [] ∧
    allow_override (multi_parent_state.flags 0 0) = false ∧
    allow_multi 0 = false ∧
    (__cgroup_bpf_attach multi_parent_state 1 9 0 0 true (fun _ => true)).1 = 0 ∧
    (__cgroup_bpf_attach multi_parent_state 1 9 0 0 true (fun _ => true)).1 ≠ -EPERM ∧
    (__cgroup_bpf_attach multi_parent_state 1 9 0 0 true (fun _ => true)).2.progs 1 0
      = [some 9] := by
  refine ⟨rfl, by decide, rfl, rfl, by decide, by decide, by decide⟩

/-- C10 (amended): when the parent of a cgroup has exactly one live program for
the attach type and the flags of the parent have neither
`BPF_F_ALLOW_OVERRIDE` nor `BPF_F_ALLOW_MULTI`, an attach to the cgroup with
flags lacking `BPF_F_ALLOW_MULTI` is rejected with `-EPERM`. -/
theorem hierarchy_rule (s : State) (cgrp p prog type flags : Nat) (pl_ok : Bool)
    (arr_ok : Nat → Bool) (hparent : s.parent cgrp = some p)
    (hcnt : prog_list_length (s.progs p type) = 1)
    (hoverride : allow_override (s.flags p type) = false)
    (hmulti : allow_multi (s.flags p type) = false)
    (hflags : allow_multi flags = false) :
    (__cgroup_bpf_attach s cgrp prog type flags pl_ok arr_ok).1 = -EPERM := by
  have hh : hierarchy_allows_attach s cgrp type flags = false := by
    unfold hierarchy_allows_attach
    rw [hparent]
    simp only [cgroup_path_child s cgrp p hparent, List.tail_cons]
    rw [cgroup_path_cons]
    simp [hierarchy_walk, hmulti, hcnt, hoverride]
  unfold __cgroup_bpf_attach
  simp [hflags, hh]

/-- C10, witness: in `inherit_state` the root holds one program with no flags,
so an attach to its child 1 with no flags is rejected. -/
theorem hierarchy_rule_witness :
    inherit_state.parent 1 = some 0 ∧
    prog_list_length (inherit_state.progs 0 0) = 1 ∧
    allow_override (inherit_state.flags 0 0) = false ∧
    allow_multi (inherit_state.flags 0 0) = false ∧
    allow_multi 0 = false ∧
    (__cgroup_bpf_attach inherit_state 1 9 0 0 true (fun _ => true)).1 = -EPERM :=
  ⟨rfl, rfl, rfl, rfl, rfl,
    hierarchy_rule inherit_state 1 0 9 0 0 true (fun _ => true) rfl rfl rfl rfl rfl⟩

/-! ## Frame lemmas: what the walks depend on -/

theorem cgroup_path_congr (s s2 : State) :
    ∀ n, (∀ m, m ≤ n → s.parent m = s2.parent m) → cgroup_path s n = cgroup_path s2 n := by
  intro n
  induction n using Nat.strong_induction_on with
  | _ n ih =>
    intro h
    cases hp : s.parent n with
    | none =>
      rw [cgroup_path_root s n hp,
        cgroup_path_root s2 n (by rw [← h n (Nat.le_refl n)]; exact hp)]
    | some p =>
      have hlt := s.parent_lt n p hp
      rw [cgroup_path_child s n p hp,
        cgroup_path_child s2 n p (by rw [← h n (Nat.le_refl n)]; exact hp),
        ih p hlt (fun m hm => h m (by omega))]

theorem children_congr (s s2 : State) (hnr : s.nr = s2.nr) (hp : s.parent = s2.parent)
    (r : Nat) : children s r = children s2 r := by
  unfold children
  rw [hnr, hp]

theorem subtree_pre_congr (s s2 : State) (hnr : s.nr = s2.nr) (hp : s.parent = s2.parent) :
    ∀ k r, subtree_pre s k r = subtree_pre s2 k r := by
  intro k
  induction k with
  | zero => intro r; rfl
  | succ k ih =>
    intro r
    simp only [subtree_pre, children_congr s s2 hnr hp r, ih]

theorem descendants_pre_congr (s s2 : State) (hnr : s.nr = s2.nr) (hp : s.parent = s2.parent)
    (cgrp : Nat) : descendants_pre s cgrp = descendants_pre s2 cgrp := by
  unfold descendants_pre
  rw [subtree_pre_congr s s2 hnr hp, hnr]

theorem fill_effective_congr (s s2 : State) (type : Nat) :
    ∀ (l arr : List Nat),
      (∀ p ∈ l, live_progs (s.progs p type) = live_progs (s2.progs p type) ∧
        (allow_multi (s.flags p type) = allow_multi (s2.flags p type) ∨
          live_progs (s.progs p type) = [])) →
      fill_effective s type l arr = fill_effective s2 type l arr := by
  intro l
  induction l with
  | nil => intro arr _; rfl
  | cons p rest ih =>
    intro arr h
    obtain ⟨hl, hf⟩ := h p (List.mem_cons_self _ _)
    have hrest := fun q hq => h q (List.mem_cons_of_mem _ hq)
    rw [fill_effective_cons, fill_effective_cons, ← hl]
    rcases hf with hf | hf
    · rw [hf, ih _ hrest]
    · rw [hf]
      simp only [ite_self, List.append_nil]
      exact ih _ hrest

/-! ## The descendants of a cgroup are the cgroups whose walk to the root meets it -/

theorem mem_children (s : State) (r c : Nat) :
    c ∈ children s r ↔ c < s.nr ∧ s.parent c = some r := by
  unfold children
  simp

theorem cgroup_path_parent_closed (s : State) :
    ∀ n c r, c ∈ cgroup_path s n → s.parent c = some r → r ∈ cgroup_path s n := by
  intro n
  induction n using Nat.strong_induction_on with
  | _ n ih =>
    intro c r hc hr
    cases hp : s.parent n with
    | none =>
      rw [cgroup_path_root s n hp] at hc
      have hcn : c = n := by simpa using hc
      rw [hcn, hp] at hr
      cases hr
    | some p =>
      have hlt := s.parent_lt n p hp
      rw [cgroup_path_child s n p hp] at hc ⊢
      rcases List.mem_cons.mp hc with h1 | h1
      · rw [h1, hp] at hr
        cases hr
        exact List.mem_cons_of_mem _ (by rw [cgroup_path_cons]; exact List.mem_cons_self _ _)
      · exact List.mem_cons_of_mem _ (ih p hlt c r h1 hr)

theorem cgroup_path_child_of_mem (s : State) :
    ∀ n r, r ∈ cgroup_path s n → r ≠ n →
      ∃ c, s.parent c = some r ∧ c ∈ cgroup_path s n := by
  intro n
  induction n using Nat.strong_induction_on with
  | _ n ih =>
    intro r hr hne
    cases hp : s.parent n with
    | none =>
      rw [cgroup_path_root s n hp] at hr
      exact absurd (by simpa using hr) hne
    | some p =>
      have hlt := s.parent_lt n p hp
      rw [cgroup_path_child s n p hp] at hr ⊢
      rcases List.mem_cons.mp hr with h1 | h1
      · exact absurd h1 hne
      · by_cases hrp : r = p
        · exact ⟨n, by rw [hrp]; exact hp, List.mem_cons_self _ _⟩
        · obtain ⟨c, hc1, hc2⟩ := ih p hlt r h1 hrp
          exact ⟨c, hc1, List.mem_cons_of_mem _ hc2⟩

theorem mem_subtree_pre (s : State) :
    ∀ k r n, r < s.nr → s.nr ≤ r + k → n < s.nr →
      (n ∈ subtree_pre s k r ↔ r ∈ cgroup_path s n) := by
  intro k
  induction k with
  | zero => intro r n hr hk _; omega
  | succ k ih =>
    intro r n hr hk hn
    simp only [subtree_pre, List.mem_cons, List.mem_flatMap]
    constructor
    · rintro (h | ⟨c, hc, hmem⟩)
      · rw [h, cgroup_path_cons]; exact List.mem_cons_self _ _
      · obtain ⟨hc1, hc2⟩ := (mem_children s r c).mp hc
        have hlt := s.parent_lt c r hc2
        have := (ih c n hc1 (by omega) hn).mp hmem
        exact cgroup_path_parent_closed s n c r this hc2
    · intro h
      by_cases hnr : r = n
      · exact Or.inl hnr.symm
      · right
        obtain ⟨c, hc1, hc2⟩ := cgroup_path_child_of_mem s n r h hnr
        have hlt := s.parent_lt c r hc1
        have hcn := cgroup_path_le s n c hc2
        have hc : c < s.nr := by omega
        exact ⟨c, (mem_children s r c).mpr ⟨hc, hc1⟩,
          (ih c n hc (by omega) hn).mpr (by
            -- the walk from n meets c
            exact hc2)⟩

theorem mem_descendants_pre (s : State) (cgrp n : Nat) (hc : cgrp < s.nr) (hn : n < s.nr) :
    n ∈ descendants_pre s cgrp ↔ cgrp ∈ cgroup_path s n := by
  unfold descendants_pre
  exact mem_subtree_pre s _ cgrp n hc (by omega) hn

/-! ## Staging and activation -/

theorem stage_effective_eq (s : State) (type : Nat) (arr_ok : Nat → Bool) :
    ∀ l : List Nat, stage_effective s type arr_ok l =
      if l.all arr_ok then
        Except.ok (l.map (fun d => (d, fill_effective s type (cgroup_path s d) [])))
      else Except.error (-ENOMEM) := by
  intro l
  induction l with
  | nil => rfl
  | cons d rest ih =>
    simp only [stage_effective, List.all_cons, List.map_cons]
    cases hd : arr_ok d with
    | false => simp [compute_effective_progs_fail]
    | true =>
      rw [compute_effective_progs_ok, ih]
      cases hr : rest.all arr_ok <;> simp

theorem activate_staged_eq (type : Nat) (f : Nat → List Nat) :
    ∀ (l : List Nat) (s : State),
      activate_staged s type (l.map (fun d => (d, f d))) =
        { s with effective := fun n t =>
            if n ∈ l ∧ t = type then some (f n) else s.effective n t } := by
  intro l
  induction l with
  | nil =>
    intro s
    apply State.ext <;> simp [activate_staged]
  | cons d rest ih =>
    intro s
    simp only [List.map_cons, activate_staged, ih]
    apply State.ext <;> simp only [activate_effective_progs]
    funext n t
    by_cases h1 : n ∈ rest
    · by_cases h2 : t = type <;> simp [h1, h2]
    · by_cases h2 : n = d
      · subst h2; simp [h1]
      · simp [h1, h2]

/-! ## The list of an attach and of a detach -/

theorem attach_list_cleanup (progs : List (Option Nat)) (prog flags : Nat) (pl_ok : Bool)
    (progs1 : List (Option Nat)) (idx : Nat) (old_prog : Option Nat) (alloc : Bool)
    (h : attach_list progs prog flags pl_ok = Except.ok (progs1, idx, old_prog, alloc)) :
    attach_cleanup progs1 idx old_prog alloc = progs := by
  unfold attach_list at h
  split at h
  · split at h
    · cases h
    · split at h
      · cases h
      · injection h with h
        simp only [Prod.mk.injEq] at h
        obtain ⟨rfl, rfl, rfl, rfl⟩ := h
        simp [attach_cleanup, List.eraseIdx_append_of_length_le]
  · split at h
    · split at h
      · cases h
      · injection h with h
        simp only [Prod.mk.injEq] at h
        obtain ⟨rfl, rfl, rfl, rfl⟩ := h
        subst_vars
        simp [attach_cleanup]
    · injection h with h
      simp only [Prod.mk.injEq] at h
      obtain ⟨rfl, rfl, rfl, rfl⟩ := h
      cases progs with
      | nil => contradiction
      | cons x t => simp [attach_cleanup]

theorem set_find_prog_self (l : List (Option Nat)) (a : Option Nat) (h : a ∈ l) :
    l.set (find_prog l a) a = l := by
  induction l with
  | nil => cases h
  | cons x t ih =>
    by_cases hx : x = a
    · subst hx; simp [find_prog]
    · have ht : a ∈ t := by
        rcases List.mem_cons.mp h with h1 | h1
        · exact absurd h1.symm hx
        · exact h1
      simp [find_prog, hx, ih ht]

theorem detach_find_restore (progs : List (Option Nat)) (flags : Nat) (prog : Option Nat)
    (idx : Nat) (old_prog : Option Nat)
    (h : detach_find progs flags prog = some (idx, old_prog)) :
    (progs.set idx none).set idx old_prog = progs := by
  unfold detach_find at h
  split at h
  · split at h
    · rename_i hm hmem
      simp only [Option.some.injEq, Prod.mk.injEq] at h
      obtain ⟨rfl, rfl⟩ := h
      rw [List.set_set]
      exact set_find_prog_self progs prog hmem
    · cases h
  · simp only [Option.some.injEq, Prod.mk.injEq] at h
    obtain ⟨rfl, rfl⟩ := h
    cases progs with
    | nil => rfl
    | cons x t => simp

/-! ## The outcomes of attach and detach -/

theorem stage_effective_fail (s : State) (type : Nat) (arr_ok : Nat → Bool) (l : List Nat)
    (h : ∃ d ∈ l, arr_ok d = false) :
    stage_effective s type arr_ok l = Except.error (-ENOMEM) := by
  rw [stage_effective_eq]
  have : l.all arr_ok = false := by
    obtain ⟨d, hd, hf⟩ := h
    rw [List.all_eq_false]
    exact ⟨d, hd, by simp [hf]⟩
  simp [this]

theorem stage_effective_succeed (s : State) (type : Nat) (arr_ok : Nat → Bool) (l : List Nat)
    (h : ∀ d ∈ l, arr_ok d = true) :
    stage_effective s type arr_ok l =
      Except.ok (l.map (fun d => (d, fill_effective s type (cgroup_path s d) []))) := by
  rw [stage_effective_eq]
  have : l.all arr_ok = true := List.all_eq_true.mpr h
  simp [this]

theorem all_or_some_fail (arr_ok : Nat → Bool) (l : List Nat) :
    (∀ d ∈ l, arr_ok d = true) ∨ (∃ d ∈ l, arr_ok d = false) := by
  by_cases h : ∀ d ∈ l, arr_ok d = true
  · exact Or.inl h
  · right
    push_neg at h
    obtain ⟨d, hd, hf⟩ := h
    exact ⟨d, hd, by simpa using hf⟩

theorem set_progs_restore (s : State) (cgrp type : Nat) (v w : List (Option Nat))
    (h : w = s.progs cgrp type) :
    set_progs (set_progs s cgrp type v) cgrp type w = s := by
  apply State.ext <;> simp only [set_progs]
  funext n t
  by_cases hnt : n = cgrp ∧ t = type
  · rw [if_pos hnt, h, hnt.1, hnt.2]
  · rw [if_neg hnt, if_neg hnt]

theorem set_progs_flags_restore (s : State) (cgrp type flags : Nat) (v w : List (Option Nat))
    (h : w = s.progs cgrp type) :
    set_progs (set_flags (set_progs s cgrp type v) cgrp type flags) cgrp type w
      = set_flags s cgrp type flags := by
  apply State.ext <;> simp only [set_progs, set_flags]
  funext n t
  by_cases hnt : n = cgrp ∧ t = type
  · rw [if_pos hnt, h, hnt.1, hnt.2]
  · rw [if_neg hnt, if_neg hnt]

/-- The three outcomes of `__cgroup_bpf_attach`: an error before the list is
touched; an allocation failure during the recomputation, after which the list
is cleaned up; or success. -/
theorem attach_cases (s : State) (cgrp prog type flags : Nat) (pl_ok : Bool)
    (arr_ok : Nat → Bool) :
    (∃ err, err ≠ 0 ∧ __cgroup_bpf_attach s cgrp prog type flags pl_ok arr_ok = (err, s)) ∨
    (∃ progs1 idx old_prog alloc,
      attach_list (s.progs cgrp type) prog flags pl_ok
        = Except.ok (progs1, idx, old_prog, alloc) ∧
      (s.progs cgrp type = [] ∨ s.flags cgrp type = flags) ∧
      (((∃ d ∈ descendants_pre s cgrp, arr_ok d = false) ∧
          __cgroup_bpf_attach s cgrp prog type flags pl_ok arr_ok
            = (-ENOMEM, set_flags s cgrp type flags)) ∨
       ((∀ d ∈ descendants_pre s cgrp, arr_ok d = true) ∧
          __cgroup_bpf_attach s cgrp prog type flags pl_ok arr_ok
            = (0, attach_finish
                (activate_staged (set_flags (set_progs s cgrp type progs1) cgrp type flags) type
                  ((descendants_pre s cgrp).map (fun d => (d,
                    fill_effective (set_flags (set_progs s cgrp type progs1) cgrp type flags)
                      type (cgroup_path s d) []))))
                old_prog)))) := by
  unfold __cgroup_bpf_attach
  simp only []
  by_cases h1 : (allow_override flags && allow_multi flags) = true
  · left; exact ⟨-EINVAL, by decide, by rw [if_pos h1]⟩
  rw [if_neg h1]
  by_cases h2 : (!hierarchy_allows_attach s cgrp type flags) = true
  · left; exact ⟨-EPERM, by decide, by rw [if_pos h2]⟩
  rw [if_neg h2]
  by_cases h3 : s.progs cgrp type ≠ [] ∧ s.flags cgrp type ≠ flags
  · left; exact ⟨-EPERM, by decide, by rw [if_pos h3]⟩
  rw [if_neg h3]
  by_cases h4 : prog_list_length (s.progs cgrp type) ≥ BPF_CGROUP_MAX_PROGS
  · left; exact ⟨-E2BIG, by decide, by rw [if_pos h4]⟩
  rw [if_neg h4]
  have h3' : s.progs cgrp type = [] ∨ s.flags cgrp type = flags := by
    by_cases hp : s.progs cgrp type = []
    · exact Or.inl hp
    · right
      by_contra hf
      exact h3 ⟨hp, hf⟩
  cases hl : attach_list (s.progs cgrp type) prog flags pl_ok with
  | error err =>
    left
    refine ⟨err, ?_, rfl⟩
    unfold attach_list at hl
    intro h0
    subst h0
    split at hl
    · split at hl
      · injection hl with hl; revert hl; decide
      · split at hl
        · injection hl with hl; revert hl; decide
        · cases hl
    · split at hl
      · split at hl
        · injection hl with hl; revert hl; decide
        · cases hl
      · cases hl
  | ok res =>
    obtain ⟨progs1, idx, old_prog, alloc⟩ := res
    right
    refine ⟨progs1, idx, old_prog, alloc, rfl, h3', ?_⟩
    have hdesc : descendants_pre (set_flags (set_progs s cgrp type progs1) cgrp type flags) cgrp
        = descendants_pre s cgrp :=
      descendants_pre_congr (set_flags (set_progs s cgrp type progs1) cgrp type flags) s rfl rfl cgrp
    have hpath : ∀ d, cgroup_path (set_flags (set_progs s cgrp type progs1) cgrp type flags) d
        = cgroup_path s d := fun d =>
      cgroup_path_congr (set_flags (set_progs s cgrp type progs1) cgrp type flags) s d
        (fun _ _ => rfl)
    simp only [hdesc]
    rcases all_or_some_fail arr_ok (descendants_pre s cgrp) with hall | hsome
    · right
      refine ⟨hall, ?_⟩
      rw [stage_effective_succeed _ _ _ _ hall]
      simp only [hpath]
    · left
      refine ⟨hsome, ?_⟩
      rw [stage_effective_fail _ _ _ _ hsome]
      simp only []
      rw [set_progs_flags_restore s cgrp type flags progs1 _
        (attach_list_cleanup _ _ _ _ _ _ _ _ hl)]

/-- The outcomes of `__cgroup_bpf_detach`: an error that leaves the state as it
was (a failed check, or a failed recomputation after which the program is put
back), or success. -/
theorem detach_cases (s : State) (cgrp : Nat) (prog : Option Nat) (type : Nat)
    (arr_ok : Nat → Bool) :
    (∃ err, err ≠ 0 ∧ __cgroup_bpf_detach s cgrp prog type arr_ok = (err, s)) ∨
    (∃ idx old_prog,
      detach_find (s.progs cgrp type) (s.flags cgrp type) prog = some (idx, old_prog) ∧
      (∀ d ∈ descendants_pre s cgrp, arr_ok d = true) ∧
      __cgroup_bpf_detach s cgrp prog type arr_ok
        = (0, detach_finish
            (activate_staged (set_progs s cgrp type ((s.progs cgrp type).set idx none)) type
              ((descendants_pre s cgrp).map (fun d => (d,
                fill_effective (set_progs s cgrp type ((s.progs cgrp type).set idx none))
                  type (cgroup_path s d) []))))
            cgrp type idx old_prog)) := by
  unfold __cgroup_bpf_detach
  simp only []
  by_cases h1 : allow_multi (s.flags cgrp type) = true ∧ prog = none
  · left; exact ⟨-EINVAL, by decide, by rw [if_pos h1]⟩
  rw [if_neg h1]
  by_cases h2 : ¬ allow_multi (s.flags cgrp type) = true ∧ s.progs cgrp type = []
  · left; exact ⟨-ENOENT, by decide, by rw [if_pos h2]⟩
  rw [if_neg h2]
  cases hf : detach_find (s.progs cgrp type) (s.flags cgrp type) prog with
  | none => left; exact ⟨-ENOENT, by decide, rfl⟩
  | some res =>
    obtain ⟨idx, old_prog⟩ := res
    have hdesc : descendants_pre (set_progs s cgrp type ((s.progs cgrp type).set idx none)) cgrp
        = descendants_pre s cgrp :=
      descendants_pre_congr (set_progs s cgrp type ((s.progs cgrp type).set idx none)) s
        rfl rfl cgrp
    have hpath : ∀ d, cgroup_path (set_progs s cgrp type ((s.progs cgrp type).set idx none)) d
        = cgroup_path s d := fun d =>
      cgroup_path_congr (set_progs s cgrp type ((s.progs cgrp type).set idx none)) s d
        (fun _ _ => rfl)
    simp only [hdesc]
    rcases all_or_some_fail arr_ok (descendants_pre s cgrp) with hall | hsome
    · right
      refine ⟨idx, old_prog, rfl, hall, ?_⟩
      rw [stage_effective_succeed _ _ _ _ hall]
      simp only [hpath]
    · left
      refine ⟨-ENOMEM, by decide, ?_⟩
      rw [stage_effective_fail _ _ _ _ hsome]
      simp only []
      rw [set_progs_restore s cgrp type]
      simp only [set_progs, and_self, if_true]
      exact detach_find_restore _ _ _ _ _ hf

/-- C2, the failing call: on `root_state` (one cgroup, nothing attached, flags
0) an attach of program 7 with `BPF_F_ALLOW_MULTI` whose recomputation fails
for lack of memory returns `-ENOMEM` and puts the list and the published chain
back, but the flags word stays `BPF_F_ALLOW_MULTI` instead of 0; a following
detach without program then returns `-EINVAL`, whereas it returns `-ENOENT`
before the failed attach. -/
theorem attach_rollback_leaves_flags :
    (__cgroup_bpf_attach root_state 0 7 0 BPF_F_ALLOW_MULTI true (fun _ => false)).1 = -ENOMEM ∧
    root_state.flags 0 0 = 0 ∧
    (__cgroup_bpf_attach root_state 0 7 0 BPF_F_ALLOW_MULTI true (fun _ => false)).2.flags 0 0
      = BPF_F_ALLOW_MULTI ∧
    (__cgroup_bpf_attach root_state 0 7 0 BPF_F_ALLOW_MULTI true (fun _ => false)).2.progs 0 0
      = root_state.progs 0 0 ∧
    (__cgroup_bpf_attach root_state 0 7 0 BPF_F_ALLOW_MULTI true (fun _ => false)).2.effective 0 0
      = root_state.effective 0 0 ∧
    (__cgroup_bpf_detach root_state 0 none 0 (fun _ => true)).1 = -ENOENT ∧
    (__cgroup_bpf_detach
      (__cgroup_bpf_attach root_state 0 7 0 BPF_F_ALLOW_MULTI true (fun _ => false)).2
      0 none 0 (fun _ => true)).1 = -EINVAL := by
  refine ⟨by decide, rfl, by decide, by decide, by decide, by decide, by decide⟩

/-- C3: a `__cgroup_bpf_detach` call that finds its entry (under multi the
program is supplied and is in the list, otherwise the list is not empty) and
whose recomputation fails for lack of memory on some cgroup of the subtree
returns `-ENOMEM` and leaves the whole state, lists, flags and published
chains, as it was before the call. -/
theorem detach_rollback (s : State) (cgrp : Nat) (prog : Option Nat) (type : Nat)
    (arr_ok : Nat → Bool)
    (hmulti : allow_multi (s.flags cgrp type) = true → prog ≠ none ∧ prog ∈ s.progs cgrp type)
    (hsingle : allow_multi (s.flags cgrp type) = false → s.progs cgrp type ≠ [])
    (hfail : ∃ d ∈ descendants_pre s cgrp, arr_ok d = false) :
    __cgroup_bpf_detach s cgrp prog type arr_ok = (-ENOMEM, s) := by
  rcases detach_cases s cgrp prog type arr_ok with ⟨err, _, he⟩ | ⟨idx, old_prog, _, hall, _⟩
  · rw [he]
    congr 1
    -- the error code is that of the failed allocation
    have h1 : ¬ (allow_multi (s.flags cgrp type) = true ∧ prog = none) :=
      fun h => (hmulti h.1).1 h.2
    have h2 : ¬ (¬ allow_multi (s.flags cgrp type) = true ∧ s.progs cgrp type = []) :=
      fun h => hsingle (by simpa using h.1) h.2
    have hfind : ∃ res, detach_find (s.progs cgrp type) (s.flags cgrp type) prog = some res := by
      unfold detach_find
      cases hm : allow_multi (s.flags cgrp type) with
      | true => simp [(hmulti hm).2]
      | false => simp
    obtain ⟨res, hres⟩ := hfind
    have hdesc : descendants_pre (set_progs s cgrp type ((s.progs cgrp type).set res.1 none)) cgrp
        = descendants_pre s cgrp :=
      descendants_pre_congr (set_progs s cgrp type ((s.progs cgrp type).set res.1 none)) s
        rfl rfl cgrp
    have := he
    unfold __cgroup_bpf_detach at this
    simp only [] at this
    rw [if_neg h1, if_neg h2, hres] at this
    simp only [hdesc] at this
    rw [stage_effective_fail _ _ _ _ hfail] at this
    simp only [Prod.mk.injEq] at this
    exact this.1.symm
  · obtain ⟨d, hd, hf⟩ := hfail
    rw [hall d hd] at hf
    cases hf

/-- C3, witness: in `multi_parent_state` the detach of program 7 from the root
fails on the child cgroup 1. -/
theorem detach_rollback_witness :
    (allow_multi (multi_parent_state.flags 0 0) = true →
      some 7 ≠ none ∧ some 7 ∈ multi_parent_state.progs 0 0) ∧
    (allow_multi (multi_parent_state.flags 0 0) = false → multi_parent_state.progs 0 0 ≠ []) ∧
    (∃ d ∈ descendants_pre multi_parent_state 0, (fun d => decide (d ≠ 1)) d = false) ∧
    __cgroup_bpf_detach multi_parent_state 0 (some 7) 0 (fun d => decide (d ≠ 1))
      = (-ENOMEM, multi_parent_state) :=
  ⟨by decide, by decide, ⟨1, by decide, by decide⟩,
    detach_rollback multi_parent_state 0 (some 7) 0 (fun d => decide (d ≠ 1))
      (by decide) (by decide) ⟨1, by decide, by decide⟩⟩

/-! ## Preservation of the published chains -/

theorem attach_finish_nr (s : State) (old : Option Nat) : (attach_finish s old).nr = s.nr := by
  cases old <;> rfl

theorem attach_finish_parent (s : State) (old : Option Nat) :
    (attach_finish s old).parent = s.parent := by
  cases old <;> rfl

theorem attach_finish_progs (s : State) (old : Option Nat) :
    (attach_finish s old).progs = s.progs := by
  cases old <;> rfl

theorem attach_finish_flags (s : State) (old : Option Nat) :
    (attach_finish s old).flags = s.flags := by
  cases old <;> rfl

theorem attach_finish_effective (s : State) (old : Option Nat) :
    (attach_finish s old).effective = s.effective := by
  cases old <;> rfl

theorem detach_finish_nr (s : State) (cgrp type idx : Nat) (old : Option Nat) :
    (detach_finish s cgrp type idx old).nr = s.nr := by
  unfold detach_finish
  simp only []
  split <;> rfl

theorem detach_finish_parent (s : State) (cgrp type idx : Nat) (old : Option Nat) :
    (detach_finish s cgrp type idx old).parent = s.parent := by
  unfold detach_finish
  simp only []
  split <;> rfl

theorem detach_finish_effective (s : State) (cgrp type idx : Nat) (old : Option Nat) :
    (detach_finish s cgrp type idx old).effective = s.effective := by
  unfold detach_finish
  simp only []
  split <;> rfl

theorem detach_finish_progs (s : State) (cgrp type idx : Nat) (old : Option Nat) :
    (detach_finish s cgrp type idx old).progs = fun n t =>
      if n = cgrp ∧ t = type then (s.progs cgrp type).eraseIdx idx else s.progs n t := by
  unfold detach_finish
  simp only []
  split <;> rfl

theorem detach_finish_flags (s : State) (cgrp type idx : Nat) (old : Option Nat) :
    (detach_finish s cgrp type idx old).flags = fun n t =>
      if (s.progs cgrp type).eraseIdx idx = [] ∧ n = cgrp ∧ t = type then 0
      else s.flags n t := by
  unfold detach_finish
  simp only []
  split
  · rename_i h
    funext n t
    simp [set_flags, set_progs, h]
  · rename_i h
    funext n t
    simp [set_progs, h]

theorem live_progs_set_none_eraseIdx (l : List (Option Nat)) :
    ∀ idx, live_progs ((l.set idx none).eraseIdx idx) = live_progs (l.set idx none) := by
  induction l with
  | nil => intro idx; rfl
  | cons x t ih =>
    intro idx
    cases idx with
    | zero => simp [live_progs]
    | succ i =>
      cases x with
      | none => simp [live_progs, ih i]
      | some v => simp [live_progs, ih i]

theorem live_progs_nil_of_eq_nil (l : List (Option Nat)) (h : l = []) : live_progs l = [] := by
  rw [h]; rfl

/-- Publishing nothing and changing the lists and flags in a way that no walk
can see keeps the published chains equal to the compiled ones. -/
theorem published_ok_same (NR : Nat) (s s2 : State) (hpub : published_ok NR s)
    (hnr : s2.nr = s.nr) (hpar : s2.parent = s.parent)
    (hreg : ∀ n t, live_progs (s2.progs n t) = live_progs (s.progs n t) ∧
      (allow_multi (s2.flags n t) = allow_multi (s.flags n t) ∨
        live_progs (s2.progs n t) = []))
    (heff : s2.effective = s.effective) : published_ok NR s2 := by
  intro n type hn ht
  rw [hnr] at hn
  obtain ⟨array, h1, h2⟩ := hpub n type hn ht
  refine ⟨array, by rw [heff]; exact h1, ?_⟩
  rw [← h2, compute_effective_progs_ok, compute_effective_progs_ok,
    cgroup_path_congr s2 s n (fun m _ => by rw [hpar])]
  congr 1
  exact fill_effective_congr s2 s type _ _ (fun p _ => hreg p type)

/-- The commit of a change of the lists and flags of `(cgrp, type)`: `s1` is
the state the arrays are computed on, `s2` the state after the activation of
the arrays of all descendants of `cgrp`. -/
theorem published_ok_commit (NR : Nat) (s s1 s2 : State) (cgrp type : Nat)
    (hc : cgrp < s.nr) (hpub : published_ok NR s)
    (hreg1 : ∀ n t, ¬ (n = cgrp ∧ t = type) →
      s1.progs n t = s.progs n t ∧ s1.flags n t = s.flags n t)
    (hnr : s2.nr = s.nr) (hpar : s2.parent = s.parent)
    (hreg2 : ∀ n t, live_progs (s2.progs n t) = live_progs (s1.progs n t) ∧
      (allow_multi (s2.flags n t) = allow_multi (s1.flags n t) ∨
        live_progs (s2.progs n t) = []))
    (heff : ∀ n t, s2.effective n t =
      if n ∈ descendants_pre s cgrp ∧ t = type then
        some (fill_effective s1 t (cgroup_path s n) [])
      else s.effective n t) : published_ok NR s2 := by
  intro n t hn ht
  rw [hnr] at hn
  have hpath : cgroup_path s2 n = cgroup_path s n :=
    cgroup_path_congr s2 s n (fun m _ => by rw [hpar])
  have h21 : fill_effective s2 t (cgroup_path s n) [] = fill_effective s1 t (cgroup_path s n) [] :=
    fill_effective_congr s2 s1 t _ _ (fun p _ => hreg2 p t)
  by_cases hd : n ∈ descendants_pre s cgrp ∧ t = type
  · refine ⟨fill_effective s1 t (cgroup_path s n) [], by rw [heff, if_pos hd], ?_⟩
    rw [compute_effective_progs_ok, hpath, h21]
  · obtain ⟨array, h1, h2⟩ := hpub n t hn ht
    refine ⟨array, by rw [heff, if_neg hd]; exact h1, ?_⟩
    rw [← h2, compute_effective_progs_ok, compute_effective_progs_ok, hpath, h21]
    congr 1
    apply fill_effective_congr
    intro p hp
    have hne : ¬ (p = cgrp ∧ t = type) := by
      rintro ⟨rfl, rfl⟩
      exact hd ⟨(mem_descendants_pre s p n hc hn).mpr hp, rfl⟩
    obtain ⟨e1, e2⟩ := hreg1 p t hne
    rw [e1, e2]
    exact ⟨rfl, Or.inl rfl⟩

theorem published_ok_attach (NR : Nat) (s : State) (cgrp prog type flags : Nat) (pl_ok : Bool)
    (arr_ok : Nat → Bool) (hc : cgrp < s.nr) (hpub : published_ok NR s) :
    published_ok NR (__cgroup_bpf_attach s cgrp prog type flags pl_ok arr_ok).2 := by
  rcases attach_cases s cgrp prog type flags pl_ok arr_ok with
    ⟨err, _, he⟩ | ⟨progs1, idx, old_prog, alloc, _, hflags, ⟨_, he⟩ | ⟨_, he⟩⟩
  · rw [he]; exact hpub
  · rw [he]
    show published_ok NR (set_flags s cgrp type flags)
    refine published_ok_same NR s (set_flags s cgrp type flags) hpub rfl rfl ?_ rfl
    intro n t
    refine ⟨rfl, ?_⟩
    by_cases hnt : n = cgrp ∧ t = type
    · obtain ⟨rfl, rfl⟩ := hnt
      rcases hflags with h | h
      · right; exact live_progs_nil_of_eq_nil _ h
      · left; simp [set_flags, h]
    · left; simp [set_flags, hnt]
  · rw [he]
    apply published_ok_commit NR s (set_flags (set_progs s cgrp type progs1) cgrp type flags)
      _ cgrp type hc hpub
    · intro n t hnt
      simp [set_flags, set_progs, hnt]
    · rw [attach_finish_nr, activate_staged_eq]; rfl
    · rw [attach_finish_parent, activate_staged_eq]; rfl
    · intro n t
      rw [attach_finish_progs, attach_finish_flags, activate_staged_eq]
      exact ⟨rfl, Or.inl rfl⟩
    · intro n t
      rw [attach_finish_effective, activate_staged_eq]
      simp only [set_flags, set_progs]
      by_cases h : n ∈ descendants_pre s cgrp ∧ t = type
      · rw [if_pos h, if_pos h, h.2]
      · rw [if_neg h, if_neg h]

theorem published_ok_detach (NR : Nat) (s : State) (cgrp : Nat) (prog : Option Nat)
    (type : Nat) (arr_ok : Nat → Bool) (hc : cgrp < s.nr) (hpub : published_ok NR s) :
    published_ok NR (__cgroup_bpf_detach s cgrp prog type arr_ok).2 := by
  rcases detach_cases s cgrp prog type arr_ok with ⟨err, _, he⟩ | ⟨idx, old_prog, _, _, he⟩
  · rw [he]; exact hpub
  · rw [he]
    apply published_ok_commit NR s (set_progs s cgrp type ((s.progs cgrp type).set idx none))
      _ cgrp type hc hpub
    · intro n t hnt
      simp [set_progs, hnt]
    · rw [detach_finish_nr, activate_staged_eq]; rfl
    · rw [detach_finish_parent, activate_staged_eq]; rfl
    · intro n t
      rw [detach_finish_progs, detach_finish_flags, activate_staged_eq]
      simp only [set_progs, and_self, if_true]
      by_cases hnt : n = cgrp ∧ t = type
      · simp only [if_pos hnt]
        refine ⟨live_progs_set_none_eraseIdx _ _, ?_⟩
        by_cases hnil : ((s.progs cgrp type).set idx none).eraseIdx idx = []
        · right; exact live_progs_nil_of_eq_nil _ hnil
        · left; simp [hnil]
      · simp only [if_neg hnt]
        refine ⟨trivial, Or.inl ?_⟩
        have : ¬ (((s.progs cgrp type).set idx none).eraseIdx idx = [] ∧ n = cgrp ∧ t = type) :=
          fun h => hnt h.2
        rw [if_neg this]
    · intro n t
      rw [detach_finish_effective, activate_staged_eq]
      simp only [set_progs]
      by_cases h : n ∈ descendants_pre s cgrp ∧ t = type
      · rw [if_pos h, if_pos h, h.2]
      · rw [if_neg h, if_neg h]

/-! ## cgroup_bpf_inherit on a new cgroup -/

theorem inherit_compute_eq (s : State) (cgrp : Nat) (arr_ok : Nat → Bool) :
    ∀ l : List Nat, inherit_compute s cgrp arr_ok l =
      if l.all arr_ok then
        Except.ok (l.map (fun i => (i, fill_effective s i (cgroup_path s cgrp) [])))
      else Except.error (-ENOMEM) := by
  intro l
  induction l with
  | nil => rfl
  | cons i rest ih =>
    simp only [inherit_compute, List.all_cons, List.map_cons]
    cases hd : arr_ok i with
    | false => simp [compute_effective_progs_fail]
    | true =>
      rw [compute_effective_progs_ok, ih]
      cases hr : rest.all arr_ok <;> simp

theorem inherit_activate_eq (cgrp : Nat) (f : Nat → List Nat) :
    ∀ (l : List Nat) (s : State),
      inherit_activate s cgrp (l.map (fun i => (i, f i))) =
        { s with effective := fun n t =>
            if n = cgrp ∧ t ∈ l then some (f t) else s.effective n t } := by
  intro l
  induction l with
  | nil =>
    intro s
    apply State.ext <;> simp [inherit_activate]
  | cons i rest ih =>
    intro s
    simp only [List.map_cons, inherit_activate, ih]
    apply State.ext <;> simp only [activate_effective_progs]
    funext n t
    by_cases h1 : n = cgrp
    · by_cases h2 : t ∈ rest
      · simp [h1, h2]
      · by_cases h3 : t = i
        · subst h3; simp [h1, h2]
        · simp [h1, h2, h3]
    · simp [h1]

/-- The two outcomes of `cgroup_bpf_inherit`. -/
theorem cgroup_bpf_inherit_cases (s : State) (cgrp NR : Nat) (arr_ok : Nat → Bool) :
    cgroup_bpf_inherit s cgrp NR arr_ok = (-ENOMEM, init_list_heads s cgrp NR) ∨
    cgroup_bpf_inherit s cgrp NR arr_ok =
      (0, { init_list_heads s cgrp NR with
        effective := fun n t =>
          if n = cgrp ∧ t ∈ List.range NR then
            some (fill_effective (init_list_heads s cgrp NR) t
              (cgroup_path (init_list_heads s cgrp NR) cgrp) [])
          else (init_list_heads s cgrp NR).effective n t }) := by
  unfold cgroup_bpf_inherit
  simp only []
  rw [inherit_compute_eq]
  cases h : (List.range NR).all arr_ok with
  | false => left; simp
  | true =>
    right
    simp only [if_true]
    rw [inherit_activate_eq]

/-- What a successful `cgroup_bpf_inherit` leaves. -/
theorem cgroup_bpf_inherit_ok (s : State) (cgrp NR : Nat) (arr_ok : Nat → Bool)
    (h0 : (cgroup_bpf_inherit s cgrp NR arr_ok).1 = 0) :
    (cgroup_bpf_inherit s cgrp NR arr_ok).2.nr = s.nr ∧
    (cgroup_bpf_inherit s cgrp NR arr_ok).2.parent = s.parent ∧
    (∀ n t, (cgroup_bpf_inherit s cgrp NR arr_ok).2.progs n t =
      if n = cgrp ∧ t < NR then [] else s.progs n t) ∧
    (cgroup_bpf_inherit s cgrp NR arr_ok).2.flags = s.flags ∧
    (∀ n t, (cgroup_bpf_inherit s cgrp NR arr_ok).2.effective n t =
      if n = cgrp ∧ t < NR then
        some (fill_effective (init_list_heads s cgrp NR) t (cgroup_path s cgrp) [])
      else s.effective n t) := by
  rcases cgroup_bpf_inherit_cases s cgrp NR arr_ok with he | he
  · rw [he] at h0
    have hne : ¬ ((-ENOMEM : Int) = 0) := by decide
    exact absurd h0 hne
  · rw [he]
    refine ⟨rfl, rfl, fun n t => rfl, rfl, fun n t => ?_⟩
    have hpath : cgroup_path (init_list_heads s cgrp NR) cgrp = cgroup_path s cgrp :=
      cgroup_path_congr (init_list_heads s cgrp NR) s cgrp (fun _ _ => rfl)
    show (if n = cgrp ∧ t ∈ List.range NR then _ else _) = _
    simp only [List.mem_range, hpath]
    rfl

theorem published_ok_create (NR : Nat) (s : State) (parent : Option (Fin s.nr))
    (arr_ok : Nat → Bool) (hpub : published_ok NR s)
    (h0 : (cgroup_bpf_inherit (cgroup_create s parent) s.nr NR arr_ok).1 = 0) :
    published_ok NR (cgroup_bpf_inherit (cgroup_create s parent) s.nr NR arr_ok).2 := by
  obtain ⟨hnr, hpar, hprogs, hflags, heff⟩ :=
    cgroup_bpf_inherit_ok (cgroup_create s parent) s.nr NR arr_ok h0
  generalize (cgroup_bpf_inherit (cgroup_create s parent) s.nr NR arr_ok).2 = r at *
  intro n t hn ht
  rw [hnr] at hn
  have hn' : n < s.nr + 1 := hn
  have hpathr : ∀ m, cgroup_path r m = cgroup_path (cgroup_create s parent) m :=
    fun m => cgroup_path_congr r (cgroup_create s parent) m (fun _ _ => by rw [hpar])
  by_cases hnew : n = s.nr
  · subst hnew
    refine ⟨_, ?_, compute_effective_progs_ok r s.nr t⟩
    rw [heff, if_pos ⟨rfl, ht⟩, hpathr]
    congr 1
    apply fill_effective_congr
    intro p _
    rw [hprogs, hflags]
    exact ⟨rfl, Or.inl rfl⟩
  · have hlt : n < s.nr := by omega
    obtain ⟨array, h1, h2⟩ := hpub n t hlt ht
    refine ⟨array, ?_, ?_⟩
    · rw [heff, if_neg (fun h => hnew h.1)]
      show (if n = s.nr then none else s.effective n t) = _
      rw [if_neg hnew]
      exact h1
    · rw [← h2, compute_effective_progs_ok, compute_effective_progs_ok, hpathr]
      congr 1
      have hpath : cgroup_path (cgroup_create s parent) n = cgroup_path s n := by
        apply cgroup_path_congr
        intro m hm
        show (if m = s.nr then _ else s.parent m) = _
        rw [if_neg (by omega)]
      rw [hpath]
      apply fill_effective_congr
      intro p hp
      have hple := cgroup_path_le s n p hp
      have hpne : p ≠ s.nr := by omega
      have e1 : r.progs p t = s.progs p t := by
        rw [hprogs, if_neg (fun h => hpne h.1)]
        rfl
      have e2 : r.flags p t = s.flags p t := by
        rw [hflags]
        show (if p = s.nr then 0 else s.flags p t) = _
        rw [if_neg hpne]
      rw [e1, e2]
      exact ⟨rfl, Or.inl rfl⟩

theorem published_ok_step (NR : Nat) (s : State) (op : Op) (hpub : published_ok NR s) :
    published_ok NR (step NR s op) := by
  cases op with
  | attach cgrp prog type flags pl_ok arr_ok =>
    simp only [step]
    split
    · rename_i hc
      exact published_ok_attach NR s cgrp prog type flags pl_ok arr_ok hc hpub
    · exact hpub
  | detach cgrp prog type arr_ok =>
    simp only [step]
    split
    · rename_i hc
      exact published_ok_detach NR s cgrp prog type arr_ok hc hpub
    · exact hpub
  | create parent arr_ok =>
    cases parent with
    | none =>
      simp only [step]
      split
      · rename_i h0
        exact published_ok_create NR s none arr_ok hpub h0
      · exact hpub
    | some p =>
      simp only [step]
      split
      · rename_i hp
        split
        · rename_i h0
          exact published_ok_create NR s (some ⟨p, hp⟩) arr_ok hpub h0
        · exact hpub
      · exact hpub

/-- C1: starting from a tree in which every published chain equals the compiled
chain, after any sequence of attach calls, detach calls (successful or failed)
and creations of cgroups followed by `cgroup_bpf_inherit`, for every cgroup of
the tree and every attach type the published chain `effective[type]` is the
array `compute_effective_progs` returns on the current lists and flags. The
walk over the descendants includes the target cgroup itself. -/
theorem published_equals_compiled (NR : Nat) (ops : List Op) :
    ∀ s : State, published_ok NR s → published_ok NR (run NR s ops) := by
  induction ops with
  | nil => intro s h; exact h
  | cons op ops ih =>
    intro s h
    exact ih (step NR s op) (published_ok_step NR s op h)

/-- C1, witness: from `inherit_state`, whose published chains are the compiled
ones, a detach, two attaches, the creation of a cgroup and an attach that fails
for lack of memory. -/
theorem published_equals_compiled_witness :
    published_ok 1 inherit_state ∧
    published_ok 1 (run 1 inherit_state
      [Op.detach 0 none 0 (fun _ => true),
       Op.attach 0 5 0 BPF_F_ALLOW_MULTI true (fun _ => true),
       Op.create (some 1) (fun _ => true),
       Op.attach 1 9 0 BPF_F_ALLOW_MULTI true (fun _ => true),
       Op.attach 2 3 0 0 true (fun _ => false)]) :=
  have h : published_ok 1 inherit_state := by
    intro n t hn ht
    have hn2 : n < 2 := hn
    have ht0 : t = 0 := by omega
    subst ht0
    rcases (by omega : n = 0 ∨ n = 1) with rfl | rfl
    · exact ⟨[7], rfl, rfl⟩
    · exact ⟨[7], rfl, rfl⟩
  ⟨h, published_equals_compiled 1 _ inherit_state h⟩

/-! ## Attach followed by detach -/

theorem find_prog_append_not_mem (l : List (Option Nat)) (a : Option Nat) (h : a ∉ l) :
    find_prog (l ++ [a]) a = l.length := by
  induction l with
  | nil => simp [find_prog]
  | cons x t ih =>
    have hx : x ≠ a := fun e => h (by rw [e]; exact List.mem_cons_self _ _)
    have ht : a ∉ t := fun e => h (List.mem_cons_of_mem _ e)
    simp [find_prog, hx, ih ht]

/-- An attach that does not replace a program appends the program to the
list, in which it did not occur. -/
theorem attach_list_new (progs : List (Option Nat)) (prog flags : Nat) (pl_ok : Bool)
    (progs1 : List (Option Nat)) (idx : Nat) (old_prog : Option Nat) (alloc : Bool)
    (h : attach_list progs prog flags pl_ok = Except.ok (progs1, idx, old_prog, alloc))
    (hnew : allow_multi flags = true ∨ progs = []) :
    progs1 = progs ++ [some prog] ∧ some prog ∉ progs ∧ old_prog = none := by
  unfold attach_list at h
  split at h
  · split at h
    · cases h
    · rename_i hmem
      split at h
      · cases h
      · injection h with h
        simp only [Prod.mk.injEq] at h
        obtain ⟨rfl, rfl, rfl, rfl⟩ := h
        exact ⟨rfl, hmem, rfl⟩
  · rename_i hm
    have hnil : progs = [] := by
      rcases hnew with h1 | h1
      · exact absurd h1 hm
      · exact h1
    subst hnil
    simp only [if_true] at h
    split at h
    · cases h
    · injection h with h
      simp only [Prod.mk.injEq] at h
      obtain ⟨rfl, rfl, rfl, rfl⟩ := h
      exact ⟨rfl, by simp, rfl⟩

theorem detach_find_last (progs : List (Option Nat)) (prog flags : Nat)
    (hmem : some prog ∉ progs) (hnew : allow_multi flags = true ∨ progs = []) :
    detach_find (progs ++ [some prog]) flags (some prog) = some (progs.length, some prog) := by
  unfold detach_find
  cases hm : allow_multi flags with
  | true => simp [find_prog_append_not_mem progs (some prog) hmem]
  | false =>
    rcases hnew with h1 | h1
    · rw [hm] at h1; cases h1
    · subst h1; simp

/-- A detach that passes the checks, finds its entry and gets all its arrays
succeeds. -/
theorem detach_succeeds (s : State) (cgrp : Nat) (prog : Option Nat) (type : Nat)
    (arr_ok : Nat → Bool) (idx : Nat) (old_prog : Option Nat)
    (h1 : ¬ (allow_multi (s.flags cgrp type) = true ∧ prog = none))
    (h2 : ¬ (¬ allow_multi (s.flags cgrp type) = true ∧ s.progs cgrp type = []))
    (hf : detach_find (s.progs cgrp type) (s.flags cgrp type) prog = some (idx, old_prog))
    (hall : ∀ d ∈ descendants_pre s cgrp, arr_ok d = true) :
    __cgroup_bpf_detach s cgrp prog type arr_ok
      = (0, detach_finish
          (activate_staged (set_progs s cgrp type ((s.progs cgrp type).set idx none)) type
            ((descendants_pre s cgrp).map (fun d => (d,
              fill_effective (set_progs s cgrp type ((s.progs cgrp type).set idx none))
                type (cgroup_path s d) []))))
          cgrp type idx old_prog) := by
  rcases detach_cases s cgrp prog type arr_ok with ⟨err, hne, he⟩ | ⟨idx2, old2, hf2, _, he⟩
  · exfalso
    have hdesc : descendants_pre (set_progs s cgrp type ((s.progs cgrp type).set idx none)) cgrp
        = descendants_pre s cgrp :=
      descendants_pre_congr (set_progs s cgrp type ((s.progs cgrp type).set idx none)) s
        rfl rfl cgrp
    unfold __cgroup_bpf_detach at he
    simp only [] at he
    rw [if_neg h1, if_neg h2, hf] at he
    simp only [hdesc] at he
    rw [stage_effective_succeed _ _ _ _ hall] at he
    simp only [Prod.mk.injEq] at he
    exact hne he.1.symm
  · rw [hf] at hf2
    simp only [Option.some.injEq, Prod.mk.injEq] at hf2
    obtain ⟨rfl, rfl⟩ := hf2
    exact he

theorem live_progs_append_none (l : List (Option Nat)) :
    live_progs (l ++ [none]) = live_progs l := by
  rw [live_progs_append]
  simp [live_progs]

theorem self_mem_descendants_pre (s : State) (cgrp : Nat) (hc : cgrp < s.nr) :
    cgrp ∈ descendants_pre s cgrp := by
  unfold descendants_pre
  obtain ⟨k, hk⟩ : ∃ k, s.nr - cgrp = k + 1 := ⟨s.nr - cgrp - 1, by omega⟩
  rw [hk]
  exact List.mem_cons_self _ _

/-- C4, counterexample: in `inherit_state` the root holds program 7 with no
flags; the attach of program 9 with no flags succeeds (it replaces program 7),
the following detach of program 9 succeeds, and the published chains of the
root and of its child are then empty, not the chain `[7]` they were before the
attach. -/
theorem round_trip_counterexample :
    (__cgroup_bpf_attach inherit_state 0 9 0 0 true (fun _ => true)).1 = 0 ∧
    (__cgroup_bpf_detach (__cgroup_bpf_attach inherit_state 0 9 0 0 true (fun _ => true)).2
      0 (some 9) 0 (fun _ => true)).1 = 0 ∧
    inherit_state.effective 0 0 = some [7] ∧
    inherit_state.effective 1 0 = some [7] ∧
    (__cgroup_bpf_detach (__cgroup_bpf_attach inherit_state 0 9 0 0 true (fun _ => true)).2
      0 (some 9) 0 (fun _ => true)).2.effective 0 0 = some [] ∧
    (__cgroup_bpf_detach (__cgroup_bpf_attach inherit_state 0 9 0 0 true (fun _ => true)).2
      0 (some 9) 0 (fun _ => true)).2.effective 1 0 = some [] := by
  refine ⟨by decide, by decide, rfl, rfl, by decide, by decide⟩

/-- C4 (amended): take a state in which the published chains of the subtree of
`cgrp` are the compiled ones, and an attach of `prog` to `cgrp` that succeeds
and does not replace a program (its flags have `BPF_F_ALLOW_MULTI`, or the
list of `cgrp` was empty). Then a following detach of `prog` from `cgrp`, all
allocations of which succeed, returns 0 and leaves the published chain of
`cgrp` and of every descendant of `cgrp` equal to its value before the attach;
the list of `cgrp` is also the one before the attach. -/
theorem round_trip (s : State) (cgrp prog type flags : Nat) (pl_ok : Bool)
    (arr_ok arr_ok2 : Nat → Bool)
    (hpub : ∀ d ∈ descendants_pre s cgrp, ∃ array, s.effective d type = some array ∧
      compute_effective_progs s d type true = Except.ok array)
    (hattach : (__cgroup_bpf_attach s cgrp prog type flags pl_ok arr_ok).1 = 0)
    (hnew : allow_multi flags = true ∨ s.progs cgrp type = [])
    (halloc : ∀ d ∈ descendants_pre s cgrp, arr_ok2 d = true) :
    (__cgroup_bpf_detach (__cgroup_bpf_attach s cgrp prog type flags pl_ok arr_ok).2
      cgrp (some prog) type arr_ok2).1 = 0 ∧
    (∀ d ∈ descendants_pre s cgrp,
      (__cgroup_bpf_detach (__cgroup_bpf_attach s cgrp prog type flags pl_ok arr_ok).2
        cgrp (some prog) type arr_ok2).2.effective d type = s.effective d type) ∧
    (cgrp < s.nr → cgrp ∈ descendants_pre s cgrp) ∧
    (__cgroup_bpf_detach (__cgroup_bpf_attach s cgrp prog type flags pl_ok arr_ok).2
      cgrp (some prog) type arr_ok2).2.progs cgrp type = s.progs cgrp type := by
  rcases attach_cases s cgrp prog type flags pl_ok arr_ok with
    ⟨err, hne, he⟩ | ⟨progs1, idx, old_prog, alloc, hlist, hflags, ⟨_, he⟩ | ⟨_, he⟩⟩
  · rw [he] at hattach; exact absurd hattach hne
  · rw [he] at hattach
    have hne : ¬ ((-ENOMEM : Int) = 0) := by decide
    exact absurd hattach hne
  · obtain ⟨hp1, hmem, _⟩ := attach_list_new _ _ _ _ _ _ _ _ hlist hnew
    subst hp1
    rw [he]
    -- the state after the attach
    generalize hA : attach_finish
      (activate_staged (set_flags (set_progs s cgrp type (s.progs cgrp type ++ [some prog]))
          cgrp type flags) type
        ((descendants_pre s cgrp).map (fun d => (d,
          fill_effective (set_flags (set_progs s cgrp type (s.progs cgrp type ++ [some prog]))
            cgrp type flags) type (cgroup_path s d) []))))
      old_prog = sA
    have hAnr : sA.nr = s.nr := by
      rw [← hA, attach_finish_nr, activate_staged_eq]; rfl
    have hApar : sA.parent = s.parent := by
      rw [← hA, attach_finish_parent, activate_staged_eq]; rfl
    have hAprogs : ∀ n t, sA.progs n t =
        if n = cgrp ∧ t = type then s.progs cgrp type ++ [some prog] else s.progs n t := by
      intro n t
      rw [← hA, attach_finish_progs, activate_staged_eq]; rfl
    have hAflags : ∀ n t, sA.flags n t =
        if n = cgrp ∧ t = type then flags else s.flags n t := by
      intro n t
      rw [← hA, attach_finish_flags, activate_staged_eq]; rfl
    have hAp : sA.progs cgrp type = s.progs cgrp type ++ [some prog] := by
      rw [hAprogs, if_pos ⟨rfl, rfl⟩]
    have hAf : sA.flags cgrp type = flags := by
      rw [hAflags, if_pos ⟨rfl, rfl⟩]
    have hAdesc : descendants_pre sA cgrp = descendants_pre s cgrp :=
      descendants_pre_congr sA s hAnr hApar cgrp
    have hApath : ∀ d, cgroup_path sA d = cgroup_path s d :=
      fun d => cgroup_path_congr sA s d (fun _ _ => by rw [hApar])
    -- the detach succeeds
    have hfind : detach_find (sA.progs cgrp type) (sA.flags cgrp type) (some prog)
        = some ((s.progs cgrp type).length, some prog) := by
      rw [hAp, hAf]
      exact detach_find_last _ _ _ hmem hnew
    have hdet := detach_succeeds sA cgrp (some prog) type arr_ok2 _ _
      (fun h => by cases h.2)
      (fun h => by rw [hAp] at h; simp at h)
      hfind (by rw [hAdesc]; exact halloc)
    rw [hdet]
    have hset : (sA.progs cgrp type).set (s.progs cgrp type).length none
        = s.progs cgrp type ++ [none] := by
      rw [hAp]; simp
    rw [hset, hAdesc]
    refine ⟨rfl, ?_, self_mem_descendants_pre s cgrp, ?_⟩
    · intro d hd
      show (detach_finish _ cgrp type _ _).effective d type = _
      rw [detach_finish_effective, activate_staged_eq]
      show (if d ∈ descendants_pre s cgrp ∧ type = type then _ else _) = _
      rw [if_pos ⟨hd, rfl⟩]
      obtain ⟨array, e1, e2⟩ := hpub d hd
      rw [e1]
      rw [compute_effective_progs_ok] at e2
      injection e2 with e2
      rw [← e2, hApath]
      congr 1
      apply fill_effective_congr
      intro p _
      show live_progs (if p = cgrp ∧ type = type then _ else _) = _ ∧
        (allow_multi (sA.flags p type) = _ ∨ live_progs (if p = cgrp ∧ type = type then _ else _) = _)
      by_cases hp : p = cgrp
      · subst hp
        rw [if_pos ⟨rfl, rfl⟩, live_progs_append_none, hAf]
        refine ⟨rfl, ?_⟩
        rcases hflags with h | h
        · right; rw [h]; rfl
        · left; rw [h]
      · have hne : ¬ (p = cgrp ∧ type = type) := fun h => hp h.1
        rw [if_neg hne, hAprogs, hAflags, if_neg hne, if_neg hne]
        exact ⟨rfl, Or.inl rfl⟩
    · show (detach_finish _ cgrp type _ _).progs cgrp type = _
      rw [detach_finish_progs, activate_staged_eq]
      simp [set_progs, List.eraseIdx_append_of_length_le]

/-- C4, witness: in `multi_parent_state` program 9 is attached to the root with
`BPF_F_ALLOW_MULTI` and detached again; the published chains of the root and
of its child are back to their values. -/
theorem round_trip_witness :
    (∀ d ∈ descendants_pre multi_parent_state 0, ∃ array,
      multi_parent_state.effective d 0 = some array ∧
      compute_effective_progs multi_parent_state d 0 true = Except.ok array) ∧
    (__cgroup_bpf_attach multi_parent_state 0 9 0 BPF_F_ALLOW_MULTI true (fun _ => true)).1 = 0 ∧
    (allow_multi BPF_F_ALLOW_MULTI = true ∨ multi_parent_state.progs 0 0 = []) ∧
    (∀ d ∈ descendants_pre multi_parent_state 0, (fun _ => true) d = true) ∧
    (__cgroup_bpf_detach
      (__cgroup_bpf_attach multi_parent_state 0 9 0 BPF_F_ALLOW_MULTI true (fun _ => true)).2
      0 (some 9) 0 (fun _ => true)).1 = 0 ∧
    (∀ d ∈ descendants_pre multi_parent_state 0,
      (__cgroup_bpf_detach
        (__cgroup_bpf_attach multi_parent_state 0 9 0 BPF_F_ALLOW_MULTI true (fun _ => true)).2
        0 (some 9) 0 (fun _ => true)).2.effective d 0 = multi_parent_state.effective d 0) :=
  have hpub : ∀ d ∈ descendants_pre multi_parent_state 0, ∃ array,
      multi_parent_state.effective d 0 = some array ∧
      compute_effective_progs multi_parent_state d 0 true = Except.ok array := by
    intro d hd
    have hl : descendants_pre multi_parent_state 0 = [0, 1] := by decide
    rw [hl] at hd
    simp only [List.mem_cons, List.mem_singleton, List.not_mem_nil, or_false] at hd
    rcases hd with rfl | rfl
    · exact ⟨[7], rfl, rfl⟩
    · exact ⟨[7], rfl, rfl⟩
  have hr := round_trip multi_parent_state 0 9 0 BPF_F_ALLOW_MULTI true (fun _ => true)
    (fun _ => true) hpub (by decide) (Or.inl rfl) (fun _ _ => rfl)
  ⟨hpub, by decide, Or.inl rfl, fun _ _ => rfl, hr.1, hr.2.1⟩

/-! ## The checks of attach -/

theorem attach_err_both (s : State) (cgrp prog type flags : Nat) (pl_ok : Bool)
    (arr_ok : Nat → Bool) (h1 : (allow_override flags && allow_multi flags) = true) :
    __cgroup_bpf_attach s cgrp prog type flags pl_ok arr_ok = (-EINVAL, s) := by
  unfold __cgroup_bpf_attach
  simp only []
  rw [if_pos h1]

theorem attach_err_hierarchy (s : State) (cgrp prog type flags : Nat) (pl_ok : Bool)
    (arr_ok : Nat → Bool) (h1 : (allow_override flags && allow_multi flags) = false)
    (h2 : hierarchy_allows_attach s cgrp type flags = false) :
    __cgroup_bpf_attach s cgrp prog type flags pl_ok arr_ok = (-EPERM, s) := by
  unfold __cgroup_bpf_attach
  simp only []
  rw [if_neg (by rw [h1]; decide), if_pos (by rw [h2]; rfl)]

theorem attach_err_switch (s : State) (cgrp prog type flags : Nat) (pl_ok : Bool)
    (arr_ok : Nat → Bool) (h1 : (allow_override flags && allow_multi flags) = false)
    (h2 : hierarchy_allows_attach s cgrp type flags = true)
    (h3 : s.progs cgrp type ≠ [] ∧ s.flags cgrp type ≠ flags) :
    __cgroup_bpf_attach s cgrp prog type flags pl_ok arr_ok = (-EPERM, s) := by
  unfold __cgroup_bpf_attach
  simp only []
  rw [if_neg (by rw [h1]; decide), if_neg (by rw [h2]; decide), if_pos h3]

theorem attach_err_full (s : State) (cgrp prog type flags : Nat) (pl_ok : Bool)
    (arr_ok : Nat → Bool) (h1 : (allow_override flags && allow_multi flags) = false)
    (h2 : hierarchy_allows_attach s cgrp type flags = true)
    (h3 : ¬ (s.progs cgrp type ≠ [] ∧ s.flags cgrp type ≠ flags))
    (h4 : prog_list_length (s.progs cgrp type) ≥ BPF_CGROUP_MAX_PROGS) :
    __cgroup_bpf_attach s cgrp prog type flags pl_ok arr_ok = (-E2BIG, s) := by
  unfold __cgroup_bpf_attach
  simp only []
  rw [if_neg (by rw [h1]; decide), if_neg (by rw [h2]; decide), if_neg h3, if_pos h4]

/-- An attach that fails one of its four checks returns the error of the first
failing check and leaves the state as it is. -/
theorem attach_err_checks (s : State) (cgrp prog type flags : Nat) (pl_ok : Bool)
    (arr_ok : Nat → Bool)
    (h : ¬ ((allow_override flags && allow_multi flags) = false ∧
      hierarchy_allows_attach s cgrp type flags = true ∧
      ¬ (s.progs cgrp type ≠ [] ∧ s.flags cgrp type ≠ flags) ∧
      prog_list_length (s.progs cgrp type) < BPF_CGROUP_MAX_PROGS)) :
    (__cgroup_bpf_attach s cgrp prog type flags pl_ok arr_ok = (-EINVAL, s) ∨
     __cgroup_bpf_attach s cgrp prog type flags pl_ok arr_ok = (-EPERM, s) ∨
     __cgroup_bpf_attach s cgrp prog type flags pl_ok arr_ok = (-E2BIG, s)) := by
  cases h1 : (allow_override flags && allow_multi flags) with
  | true => exact Or.inl (attach_err_both s cgrp prog type flags pl_ok arr_ok h1)
  | false =>
    cases h2 : hierarchy_allows_attach s cgrp type flags with
    | false => exact Or.inr (Or.inl (attach_err_hierarchy s cgrp prog type flags pl_ok arr_ok h1 h2))
    | true =>
      by_cases h3 : s.progs cgrp type ≠ [] ∧ s.flags cgrp type ≠ flags
      · exact Or.inr (Or.inl (attach_err_switch s cgrp prog type flags pl_ok arr_ok h1 h2 h3))
      · by_cases h4 : prog_list_length (s.progs cgrp type) ≥ BPF_CGROUP_MAX_PROGS
        · exact Or.inr (Or.inr (attach_err_full s cgrp prog type flags pl_ok arr_ok h1 h2 h3 h4))
        · exact absurd ⟨h1, h2, h3, Nat.lt_of_not_ge h4⟩ h

/-- An attach that passes its four checks goes on with the change of the
list. -/
theorem attach_checked (s : State) (cgrp prog type flags : Nat) (pl_ok : Bool)
    (arr_ok : Nat → Bool) (h1 : (allow_override flags && allow_multi flags) = false)
    (h2 : hierarchy_allows_attach s cgrp type flags = true)
    (h3 : ¬ (s.progs cgrp type ≠ [] ∧ s.flags cgrp type ≠ flags))
    (h4 : prog_list_length (s.progs cgrp type) < BPF_CGROUP_MAX_PROGS) :
    __cgroup_bpf_attach s cgrp prog type flags pl_ok arr_ok =
      match attach_list (s.progs cgrp type) prog flags pl_ok with
      | Except.error err => (err, s)
      | Except.ok (progs1, idx, old_prog, pl_was_allocated) =>
        match stage_effective (set_flags (set_progs s cgrp type progs1) cgrp type flags) type
            arr_ok (descendants_pre s cgrp) with
        | Except.ok staged =>
          (0, attach_finish
            (activate_staged (set_flags (set_progs s cgrp type progs1) cgrp type flags) type
              staged) old_prog)
        | Except.error err =>
          (err, set_progs (set_flags (set_progs s cgrp type progs1) cgrp type flags) cgrp type
            (attach_cleanup progs1 idx old_prog pl_was_allocated)) := by
  unfold __cgroup_bpf_attach
  simp only []
  rw [if_neg (by rw [h1]; decide), if_neg (by rw [h2]; decide), if_neg h3,
    if_neg (Nat.not_le_of_lt h4)]
  cases attach_list (s.progs cgrp type) prog flags pl_ok with
  | error err => rfl
  | ok res =>
    obtain ⟨progs1, idx, old_prog, alloc⟩ := res
    simp only []
    rw [descendants_pre_congr (set_flags (set_progs s cgrp type progs1) cgrp type flags) s
      rfl rfl cgrp]

/-- The flags of the parent that make `hierarchy_allows_attach` refuse. -/
theorem hierarchy_denied_of_parent (s : State) (cgrp p type flags : Nat)
    (hparent : s.parent cgrp = some p)
    (hcnt : prog_list_length (s.progs p type) = 1)
    (hoverride : allow_override (s.flags p type) = false)
    (hmulti : allow_multi (s.flags p type) = false) :
    hierarchy_allows_attach s cgrp type flags = false := by
  unfold hierarchy_allows_attach
  rw [hparent]
  simp only [cgroup_path_child s cgrp p hparent, List.tail_cons]
  rw [cgroup_path_cons]
  simp [hierarchy_walk, hmulti, hcnt, hoverride]

/-- C11: when the parent of a cgroup has exactly one live program for the
attach type and flags with neither `BPF_F_ALLOW_OVERRIDE` nor
`BPF_F_ALLOW_MULTI`, an attach of any program to the cgroup with
`BPF_F_ALLOW_MULTI` (and without `BPF_F_ALLOW_OVERRIDE`) returns `-EPERM` and
leaves the whole state, lists, flags and published chains, unchanged. -/
theorem scenario_b (s : State) (cgrp p prog type flags : Nat) (pl_ok : Bool)
    (arr_ok : Nat → Bool) (hparent : s.parent cgrp = some p)
    (hcnt : prog_list_length (s.progs p type) = 1)
    (hoverride : allow_override (s.flags p type) = false)
    (hmulti : allow_multi (s.flags p type) = false)
    (hflags : allow_multi flags = true) (hvalid : allow_override flags = false) :
    __cgroup_bpf_attach s cgrp prog type flags pl_ok arr_ok = (-EPERM, s) :=
  attach_err_hierarchy s cgrp prog type flags pl_ok arr_ok (by rw [hvalid, hflags]; rfl)
    (hierarchy_denied_of_parent s cgrp p type flags hparent hcnt hoverride hmulti)

/-- C11, witness: scenario B on `inherit_state`: the root holds program 7 with
no flags, and program 9 is attached to its child with `BPF_F_ALLOW_MULTI`. -/
theorem scenario_b_witness :
    inherit_state.parent 1 = some 0 ∧
    prog_list_length (inherit_state.progs 0 0) = 1 ∧
    allow_override (inherit_state.flags 0 0) = false ∧
    allow_multi (inherit_state.flags 0 0) = false ∧
    allow_multi BPF_F_ALLOW_MULTI = true ∧ allow_override BPF_F_ALLOW_MULTI = false ∧
    __cgroup_bpf_attach inherit_state 1 9 0 BPF_F_ALLOW_MULTI true (fun _ => true)
      = (-EPERM, inherit_state) :=
  ⟨rfl, rfl, rfl, rfl, rfl, rfl,
    scenario_b inherit_state 1 0 9 0 BPF_F_ALLOW_MULTI true (fun _ => true)
      rfl rfl rfl rfl rfl rfl⟩

/-- C12: an attach whose flags contain both `BPF_F_ALLOW_OVERRIDE` and
`BPF_F_ALLOW_MULTI` returns `-EINVAL` and leaves the whole state unchanged,
whatever the tree, the cgroup, its lists and the program are. -/
theorem discipline_exclusivity (s : State) (cgrp prog type flags : Nat) (pl_ok : Bool)
    (arr_ok : Nat → Bool) (hoverride : allow_override flags = true)
    (hmulti : allow_multi flags = true) :
    __cgroup_bpf_attach s cgrp prog type flags pl_ok arr_ok = (-EINVAL, s) :=
  attach_err_both s cgrp prog type flags pl_ok arr_ok (by rw [hoverride, hmulti]; rfl)

/-- C12, witness: both flags at once on `multi_parent_state`. -/
theorem discipline_exclusivity_witness :
    allow_override (BPF_F_ALLOW_OVERRIDE ||| BPF_F_ALLOW_MULTI) = true ∧
    allow_multi (BPF_F_ALLOW_OVERRIDE ||| BPF_F_ALLOW_MULTI) = true ∧
    __cgroup_bpf_attach multi_parent_state 1 9 0 (BPF_F_ALLOW_OVERRIDE ||| BPF_F_ALLOW_MULTI)
      true (fun _ => true) = (-EINVAL, multi_parent_state) :=
  ⟨rfl, rfl, discipline_exclusivity multi_parent_state 1 9 0
    (BPF_F_ALLOW_OVERRIDE ||| BPF_F_ALLOW_MULTI) true (fun _ => true) rfl rfl⟩

/-- C14: an attach to a cgroup whose list for the attach type is not empty,
with flags that are valid and allowed by the hierarchy but differ from the
flags word of the cgroup, returns `-EPERM` and leaves the whole state
unchanged. Moreover a flags word changes only on an empty list: if an attach
call changes a flags word, the list of that cgroup and attach type was empty
before the call, and if a detach call changes a flags word, that list is empty
after the call. -/
theorem discipline_switch :
    (∀ (s : State) (cgrp prog type flags : Nat) (pl_ok : Bool) (arr_ok : Nat → Bool),
      s.progs cgrp type ≠ [] → s.flags cgrp type ≠ flags →
      (allow_override flags && allow_multi flags) = false →
      hierarchy_allows_attach s cgrp type flags = true →
      __cgroup_bpf_attach s cgrp prog type flags pl_ok arr_ok = (-EPERM, s)) ∧
    (∀ (s : State) (cgrp prog type flags : Nat) (pl_ok : Bool) (arr_ok : Nat → Bool)
      (n t : Nat),
      (__cgroup_bpf_attach s cgrp prog type flags pl_ok arr_ok).2.flags n t ≠ s.flags n t →
      s.progs n t = []) ∧
    (∀ (s : State) (cgrp : Nat) (prog : Option Nat) (type : Nat) (arr_ok : Nat → Bool)
      (n t : Nat),
      (__cgroup_bpf_detach s cgrp prog type arr_ok).2.flags n t ≠ s.flags n t →
      (__cgroup_bpf_detach s cgrp prog type arr_ok).2.progs n t = []) := by
  refine ⟨?_, ?_, ?_⟩
  · intro s cgrp prog type flags pl_ok arr_ok hne hfl h1 h2
    exact attach_err_switch s cgrp prog type flags pl_ok arr_ok h1 h2 ⟨hne, hfl⟩
  · intro s cgrp prog type flags pl_ok arr_ok n t hch
    have key : ∀ f : Nat → Nat → Nat,
        (f = fun n t => if n = cgrp ∧ t = type then flags else s.flags n t) →
        f n t ≠ s.flags n t → (s.progs cgrp type = [] ∨ s.flags cgrp type = flags) →
        s.progs n t = [] := by
      intro f hf hd hflags
      rw [hf] at hd
      beta_reduce at hd
      by_cases hnt : n = cgrp ∧ t = type
      · obtain ⟨rfl, rfl⟩ := hnt
        rw [if_pos ⟨rfl, rfl⟩] at hd
        rcases hflags with h | h
        · exact h
        · exact absurd h.symm hd
      · rw [if_neg hnt] at hd
        exact absurd rfl hd
    rcases attach_cases s cgrp prog type flags pl_ok arr_ok with
      ⟨err, _, he⟩ | ⟨progs1, idx, old_prog, alloc, _, hflags, ⟨_, he⟩ | ⟨_, he⟩⟩
    · rw [he] at hch; exact absurd rfl hch
    · rw [he] at hch
      exact key _ rfl hch hflags
    · rw [he] at hch
      refine key _ ?_ hch hflags
      show (attach_finish _ old_prog).flags = _
      rw [attach_finish_flags, activate_staged_eq]
      rfl
  · intro s cgrp prog type arr_ok n t hch
    rcases detach_cases s cgrp prog type arr_ok with ⟨err, _, he⟩ | ⟨idx, old_prog, _, _, he⟩
    · rw [he] at hch; exact absurd rfl hch
    · rw [he] at hch ⊢
      have hf := detach_finish_flags
        (activate_staged (set_progs s cgrp type ((s.progs cgrp type).set idx none)) type
          ((descendants_pre s cgrp).map (fun d => (d,
            fill_effective (set_progs s cgrp type ((s.progs cgrp type).set idx none))
              type (cgroup_path s d) []))))
        cgrp type idx old_prog
      have hp := detach_finish_progs
        (activate_staged (set_progs s cgrp type ((s.progs cgrp type).set idx none)) type
          ((descendants_pre s cgrp).map (fun d => (d,
            fill_effective (set_progs s cgrp type ((s.progs cgrp type).set idx none))
              type (cgroup_path s d) []))))
        cgrp type idx old_prog
      have hch2 := hch
      change (detach_finish _ cgrp type idx old_prog).flags n t ≠ _ at hch2
      rw [hf] at hch2
      show (detach_finish _ cgrp type idx old_prog).progs n t = []
      rw [hp]
      by_cases hc : ((activate_staged (set_progs s cgrp type ((s.progs cgrp type).set idx none))
          type ((descendants_pre s cgrp).map (fun d => (d,
            fill_effective (set_progs s cgrp type ((s.progs cgrp type).set idx none))
              type (cgroup_path s d) [])))).progs cgrp type).eraseIdx idx = [] ∧
          n = cgrp ∧ t = type
      · simp only [if_pos hc.2]
        exact hc.1
      · simp only [if_neg hc] at hch2
        rw [activate_staged_eq] at hch2
        exact absurd rfl hch2

/-- C14, witness: on `multi_parent_state` the root holds program 7 under
`BPF_F_ALLOW_MULTI`; an attach with no flags is refused, and the detach of
program 7 changes the flags word while it empties the list. -/
theorem discipline_switch_witness :
    multi_parent_state.progs 0 0 ≠ [] ∧ multi_parent_state.flags 0 0 ≠ 0 ∧
    (allow_override 0 && allow_multi 0) = false ∧
    hierarchy_allows_attach multi_parent_state 0 0 0 = true ∧
    __cgroup_bpf_attach multi_parent_state 0 9 0 0 true (fun _ => true)
      = (-EPERM, multi_parent_state) ∧
    (__cgroup_bpf_detach multi_parent_state 0 (some 7) 0 (fun _ => true)).2.flags 0 0
      ≠ multi_parent_state.flags 0 0 ∧
    (__cgroup_bpf_detach multi_parent_state 0 (some 7) 0 (fun _ => true)).2.progs 0 0 = [] :=
  ⟨by decide, by decide, rfl, rfl,
    discipline_switch.1 multi_parent_state 0 9 0 0 true (fun _ => true)
      (by decide) (by decide) rfl rfl,
    by decide,
    discipline_switch.2.2 multi_parent_state 0 (some 7) 0 (fun _ => true) 0 0 (by decide)⟩

/-- C17, counterexample: the root of `full_state` holds the 64 programs
0, ..., 63 under `BPF_F_ALLOW_MULTI`; the attach of program 5, which is in the
list, with `BPF_F_ALLOW_MULTI` returns `-E2BIG`, not `-EINVAL`. -/
theorem duplicate_multi_attach_counterexample :
    some 5 ∈ full_state.progs 0 0 ∧
    allow_multi (full_state.flags 0 0) = true ∧
    (__cgroup_bpf_attach full_state 0 5 0 BPF_F_ALLOW_MULTI true (fun _ => true)).1 = -E2BIG ∧
    (__cgroup_bpf_attach full_state 0 5 0 BPF_F_ALLOW_MULTI true (fun _ => true)).1 ≠ -EINVAL := by
  refine ⟨by decide, rfl, by decide, by decide⟩

/-- C17 (amended): an attach with `BPF_F_ALLOW_MULTI` of a program that is
already in the list of the cgroup for the attach type is rejected and leaves
the whole state unchanged; the error is `-EINVAL`, `-EPERM` or `-E2BIG`, and it
is `-EINVAL` when the checks made before the search of the list pass (flags
without `BPF_F_ALLOW_OVERRIDE`, hierarchy allowing the attach, flags word of the
cgroup equal to the flags of the call, fewer than 64 live programs). -/
theorem duplicate_multi_attach (s : State) (cgrp prog type flags : Nat) (pl_ok : Bool)
    (arr_ok : Nat → Bool) (hmem : some prog ∈ s.progs cgrp type)
    (hmulti : allow_multi flags = true) :
    (__cgroup_bpf_attach s cgrp prog type flags pl_ok arr_ok = (-EINVAL, s) ∨
     __cgroup_bpf_attach s cgrp prog type flags pl_ok arr_ok = (-EPERM, s) ∨
     __cgroup_bpf_attach s cgrp prog type flags pl_ok arr_ok = (-E2BIG, s)) ∧
    (allow_override flags = false → hierarchy_allows_attach s cgrp type flags = true →
      s.flags cgrp type = flags →
      prog_list_length (s.progs cgrp type) < BPF_CGROUP_MAX_PROGS →
      __cgroup_bpf_attach s cgrp prog type flags pl_ok arr_ok = (-EINVAL, s)) := by
  have hdup : ∀ (h1 : (allow_override flags && allow_multi flags) = false)
      (h2 : hierarchy_allows_attach s cgrp type flags = true)
      (h3 : ¬ (s.progs cgrp type ≠ [] ∧ s.flags cgrp type ≠ flags))
      (h4 : prog_list_length (s.progs cgrp type) < BPF_CGROUP_MAX_PROGS),
      __cgroup_bpf_attach s cgrp prog type flags pl_ok arr_ok = (-EINVAL, s) := by
    intro h1 h2 h3 h4
    rw [attach_checked s cgrp prog type flags pl_ok arr_ok h1 h2 h3 h4]
    simp [attach_list, hmulti, hmem]
  constructor
  · by_cases h : (allow_override flags && allow_multi flags) = false ∧
        hierarchy_allows_attach s cgrp type flags = true ∧
        ¬ (s.progs cgrp type ≠ [] ∧ s.flags cgrp type ≠ flags) ∧
        prog_list_length (s.progs cgrp type) < BPF_CGROUP_MAX_PROGS
    · exact Or.inl (hdup h.1 h.2.1 h.2.2.1 h.2.2.2)
    · exact attach_err_checks s cgrp prog type flags pl_ok arr_ok h
  · intro ho hh hf hl
    exact hdup (by rw [ho]; rfl) hh (fun h => h.2 hf) hl

/-- C17, witness: program 7 is attached a second time to the root of
`multi_parent_state`. -/
theorem duplicate_multi_attach_witness :
    some 7 ∈ multi_parent_state.progs 0 0 ∧ allow_multi BPF_F_ALLOW_MULTI = true ∧
    __cgroup_bpf_attach multi_parent_state 0 7 0 BPF_F_ALLOW_MULTI true (fun _ => true)
      = (-EINVAL, multi_parent_state) :=
  ⟨by decide, rfl,
    (duplicate_multi_attach multi_parent_state 0 7 0 BPF_F_ALLOW_MULTI true (fun _ => true)
      (by decide) rfl).2 rfl rfl rfl (by decide)⟩

/-! ## The checks of detach -/

theorem detach_err_null (s : State) (cgrp type : Nat) (arr_ok : Nat → Bool)
    (hm : allow_multi (s.flags cgrp type) = true) :
    __cgroup_bpf_detach s cgrp none type arr_ok = (-EINVAL, s) := by
  unfold __cgroup_bpf_detach
  simp only []
  rw [if_pos ⟨hm, trivial⟩]

theorem detach_err_absent (s : State) (cgrp prog type : Nat) (arr_ok : Nat → Bool)
    (hm : allow_multi (s.flags cgrp type) = true)
    (habs : some prog ∉ s.progs cgrp type) :
    __cgroup_bpf_detach s cgrp (some prog) type arr_ok = (-ENOENT, s) := by
  unfold __cgroup_bpf_detach
  simp only []
  rw [if_neg (fun h => by cases h.2), if_neg (fun h => h.1 hm)]
  have hf : detach_find (s.progs cgrp type) (s.flags cgrp type) (some prog) = none := by
    unfold detach_find
    rw [if_pos hm, if_neg habs]
  rw [hf]

theorem detach_finish_released (s : State) (cgrp type idx : Nat) (old : Option Nat) :
    (detach_finish s cgrp type idx old).released = s.released ++ [old] := by
  unfold detach_finish
  simp only []
  split <;> rfl

theorem detach_finish_enabled_key (s : State) (cgrp type idx : Nat) (old : Option Nat) :
    (detach_finish s cgrp type idx old).enabled_key = s.enabled_key - 1 := by
  unfold detach_finish
  simp only []
  split <;> rfl

/-- C18: on a cgroup whose flags have `BPF_F_ALLOW_MULTI`, a detach of a
supplied program that is in no entry of the list for the attach type returns
`-ENOENT` and leaves the whole state, lists, flags and published chains,
unchanged. -/
theorem multi_detach_absent (s : State) (cgrp prog type : Nat) (arr_ok : Nat → Bool)
    (hmulti : allow_multi (s.flags cgrp type) = true)
    (habsent : some prog ∉ s.progs cgrp type) :
    __cgroup_bpf_detach s cgrp (some prog) type arr_ok = (-ENOENT, s) :=
  detach_err_absent s cgrp prog type arr_ok hmulti habsent

/-- C18, witness: program 9 is not attached to the root of
`multi_parent_state`. -/
theorem multi_detach_absent_witness :
    allow_multi (multi_parent_state.flags 0 0) = true ∧
    some 9 ∉ multi_parent_state.progs 0 0 ∧
    __cgroup_bpf_detach multi_parent_state 0 (some 9) 0 (fun _ => true)
      = (-ENOENT, multi_parent_state) :=
  ⟨rfl, by decide,
    multi_detach_absent multi_parent_state 0 9 0 (fun _ => true) rfl (by decide)⟩

/-- C19, counterexample: on the root of `multi_parent_state`, whose flags have
`BPF_F_ALLOW_MULTI`, a detach without program returns `-EINVAL`, not
`-ENOENT`. -/
theorem multi_detach_null_counterexample :
    allow_multi (multi_parent_state.flags 0 0) = true ∧
    (__cgroup_bpf_detach multi_parent_state 0 none 0 (fun _ => true)).1 = -EINVAL ∧
    (__cgroup_bpf_detach multi_parent_state 0 none 0 (fun _ => true)).1 ≠ -ENOENT := by
  refine ⟨rfl, by decide, by decide⟩

/-- C19 (amended): on a cgroup whose flags have `BPF_F_ALLOW_MULTI`, a detach
called without program (`NULL`) returns `-EINVAL` and leaves the whole state
unchanged. -/
theorem multi_detach_null (s : State) (cgrp type : Nat) (arr_ok : Nat → Bool)
    (hmulti : allow_multi (s.flags cgrp type) = true) :
    __cgroup_bpf_detach s cgrp none type arr_ok = (-EINVAL, s) :=
  detach_err_null s cgrp type arr_ok hmulti

/-- C19, witness: the root of `multi_parent_state`. -/
theorem multi_detach_null_witness :
    allow_multi (multi_parent_state.flags 0 0) = true ∧
    __cgroup_bpf_detach multi_parent_state 0 none 0 (fun _ => true)
      = (-EINVAL, multi_parent_state) :=
  ⟨rfl, multi_detach_null multi_parent_state 0 0 (fun _ => true) rfl⟩

/-- C20: on a cgroup whose flags lack `BPF_F_ALLOW_MULTI`, detach does not look
at its program argument: two calls with any two program arguments return the
same code and the same state. When the list is not empty and all arrays can be
allocated, the call returns 0, the first entry of the list (the sole one of a
non-multi list) is removed, and the program released is the one of that entry,
whatever the argument is. -/
theorem nonmulti_detach_ignores_prog :
    (∀ (s : State) (cgrp type : Nat) (arr_ok : Nat → Bool) (p1 p2 : Option Nat),
      allow_multi (s.flags cgrp type) = false →
      __cgroup_bpf_detach s cgrp p1 type arr_ok = __cgroup_bpf_detach s cgrp p2 type arr_ok) ∧
    (∀ (s : State) (cgrp type : Nat) (arr_ok : Nat → Bool) (p slot : Option Nat)
      (rest : List (Option Nat)),
      allow_multi (s.flags cgrp type) = false → s.progs cgrp type = slot :: rest →
      (∀ d ∈ descendants_pre s cgrp, arr_ok d = true) →
      (__cgroup_bpf_detach s cgrp p type arr_ok).1 = 0 ∧
      (__cgroup_bpf_detach s cgrp p type arr_ok).2.progs cgrp type = rest ∧
      (__cgroup_bpf_detach s cgrp p type arr_ok).2.released = s.released ++ [slot]) := by
  constructor
  · intro s cgrp type arr_ok p1 p2 hm
    unfold __cgroup_bpf_detach
    simp only [detach_find, hm]
    simp
  · intro s cgrp type arr_ok p slot rest hm hl hall
    have hf : detach_find (s.progs cgrp type) (s.flags cgrp type) p = some (0, slot) := by
      unfold detach_find
      rw [hm, hl]
      simp
    rw [detach_succeeds s cgrp p type arr_ok 0 slot
      (fun h => by rw [hm] at h; cases h.1)
      (fun h => by rw [hl] at h; cases h.2) hf hall]
    refine ⟨rfl, ?_, ?_⟩
    · show (detach_finish _ cgrp type 0 slot).progs cgrp type = rest
      rw [detach_finish_progs, activate_staged_eq]
      simp [set_progs, hl]
    · show (detach_finish _ cgrp type 0 slot).released = _
      rw [detach_finish_released, activate_staged_eq]
      rfl

/-- C20, witness: the root of `inherit_state` holds program 7 with no flags;
the detach with program 9 does what the detach without program does, and
program 7 is released. -/
theorem nonmulti_detach_ignores_prog_witness :
    allow_multi (inherit_state.flags 0 0) = false ∧
    inherit_state.progs 0 0 = some 7 :: [] ∧
    (∀ d ∈ descendants_pre inherit_state 0, (fun _ => true) d = true) ∧
    __cgroup_bpf_detach inherit_state 0 (some 9) 0 (fun _ => true)
      = __cgroup_bpf_detach inherit_state 0 none 0 (fun _ => true) ∧
    (__cgroup_bpf_detach inherit_state 0 (some 9) 0 (fun _ => true)).1 = 0 ∧
    (__cgroup_bpf_detach inherit_state 0 (some 9) 0 (fun _ => true)).2.progs 0 0 = [] ∧
    (__cgroup_bpf_detach inherit_state 0 (some 9) 0 (fun _ => true)).2.released
      = inherit_state.released ++ [some 7] :=
  ⟨rfl, rfl, fun _ _ => rfl,
    nonmulti_detach_ignores_prog.1 inherit_state 0 0 (fun _ => true) (some 9) none rfl,
    nonmulti_detach_ignores_prog.2 inherit_state 0 0 (fun _ => true) (some 9) (some 7) []
      rfl rfl (fun _ _ => rfl)⟩

/-! ## Replacement under the non-multi disciplines -/

theorem attach_finish_released (s : State) (old : Option Nat) :
    (attach_finish s old).released =
      match old with
      | some _ => s.released ++ [old]
      | none => s.released := by
  cases old <;> rfl

theorem activate_staged_progs (type : Nat) :
    ∀ (staged : List (Nat × List Nat)) (s : State),
      (activate_staged s type staged).progs = s.progs := by
  intro staged
  induction staged with
  | nil => intro s; rfl
  | cons x rest ih =>
    intro s
    obtain ⟨d, array⟩ := x
    simp only [activate_staged]
    rw [ih]
    rfl

/-- Once a program has been collected, the second walk takes the live programs
of the multi cgroups only. -/
theorem fill_effective_nonempty (s : State) (type : Nat) :
    ∀ (l arr : List Nat), arr ≠ [] →
      fill_effective s type l arr = arr ++ (l.map (fun a =>
        if allow_multi (s.flags a type) then live_progs (s.progs a type) else [])).flatten := by
  intro l
  induction l with
  | nil => intro arr _; simp [fill_effective]
  | cons p rest ih =>
    intro arr h
    rw [fill_effective_cons]
    have hne : arr ++ (if arr = [] ∨ allow_multi (s.flags p type) = true then
        live_progs (s.progs p type) else []) ≠ [] := by
      intro h0
      exact h (List.append_eq_nil.mp h0).1
    rw [ih _ hne]
    simp [h]

/-- C13, counterexample: in `replace_state` cgroup 1 holds the one program 9
under flags none and its parent holds program 7 under `BPF_F_ALLOW_MULTI`; the
attach of program 5 to cgroup 1 with flags none succeeds and leaves the list
`[5]`, but the compiled chain of cgroup 1 is then `[5, 7]`, not `[5]`. -/
theorem replace_never_append_counterexample :
    replace_state.progs 1 0 = [some 9] ∧ replace_state.flags 1 0 = 0 ∧
    (__cgroup_bpf_attach replace_state 1 5 0 0 true (fun _ => true)).1 = 0 ∧
    (__cgroup_bpf_attach replace_state 1 5 0 0 true (fun _ => true)).2.progs 1 0 = [some 5] ∧
    compute_effective_progs (__cgroup_bpf_attach replace_state 1 5 0 0 true (fun _ => true)).2
      1 0 true = Except.ok [5, 7] ∧
    compute_effective_progs (__cgroup_bpf_attach replace_state 1 5 0 0 true (fun _ => true)).2
      1 0 true ≠ Except.ok [5] := by
  refine ⟨rfl, rfl, by decide, by decide, rfl, ?_⟩
  intro h
  have h2 : (Except.ok [5, 7] : Except Int (List Nat)) = Except.ok [5] := h
  injection h2 with h3
  exact absurd h3 (by decide)

/-- C13 (amended): on a cgroup whose list for the attach type holds the one
program `Q` under flags none, a successful attach of program `P` with flags
none leaves the list with exactly one entry, holding `P`; `Q` is displaced and
released; and the compiled chain of the cgroup becomes `P` followed by the live
programs of those of its ancestors whose flags have `BPF_F_ALLOW_MULTI`,
nearest first, so it is `[P]` when no proper ancestor is multi. -/
theorem replace_never_append (s : State) (cgrp P Q type : Nat) (pl_ok : Bool)
    (arr_ok : Nat → Bool) (hlist : s.progs cgrp type = [some Q])
    (_hflags : s.flags cgrp type = 0)
    (hok : (__cgroup_bpf_attach s cgrp P type 0 pl_ok arr_ok).1 = 0) :
    (__cgroup_bpf_attach s cgrp P type 0 pl_ok arr_ok).2.progs cgrp type = [some P] ∧
    (__cgroup_bpf_attach s cgrp P type 0 pl_ok arr_ok).2.released = s.released ++ [some Q] ∧
    compute_effective_progs (__cgroup_bpf_attach s cgrp P type 0 pl_ok arr_ok).2 cgrp type true
      = Except.ok (P :: ((cgroup_path s cgrp).tail.map (fun a =>
          if allow_multi (s.flags a type) then live_progs (s.progs a type) else [])).flatten) ∧
    ((∀ a ∈ (cgroup_path s cgrp).tail, allow_multi (s.flags a type) = false) →
      compute_effective_progs (__cgroup_bpf_attach s cgrp P type 0 pl_ok arr_ok).2 cgrp type true
        = Except.ok [P]) := by
  rcases attach_cases s cgrp P type 0 pl_ok arr_ok with
    ⟨err, hne, he⟩ | ⟨progs1, idx, old_prog, alloc, hl, _, ⟨_, he⟩ | ⟨_, he⟩⟩
  · rw [he] at hok; exact absurd hok hne
  · rw [he] at hok
    have hne : ¬ ((-ENOMEM : Int) = 0) := by decide
    exact absurd hok hne
  · have hal : attach_list (s.progs cgrp type) P 0 pl_ok
        = Except.ok ([some P], 0, some Q, false) := by
      rw [hlist]; rfl
    rw [hal] at hl
    injection hl with hl
    simp only [Prod.mk.injEq] at hl
    obtain ⟨rfl, rfl, rfl, rfl⟩ := hl
    rw [he]
    generalize hA : attach_finish
      (activate_staged (set_flags (set_progs s cgrp type [some P]) cgrp type 0) type
        ((descendants_pre s cgrp).map (fun d => (d,
          fill_effective (set_flags (set_progs s cgrp type [some P]) cgrp type 0)
            type (cgroup_path s d) []))))
      (some Q) = sA
    have hApar : sA.parent = s.parent := by
      rw [← hA, attach_finish_parent, activate_staged_eq]; rfl
    have hAprogs : ∀ n t, sA.progs n t =
        if n = cgrp ∧ t = type then [some P] else s.progs n t := by
      intro n t
      rw [← hA, attach_finish_progs, activate_staged_eq]; rfl
    have hAflags : ∀ n t, sA.flags n t =
        if n = cgrp ∧ t = type then 0 else s.flags n t := by
      intro n t
      rw [← hA, attach_finish_flags, activate_staged_eq]; rfl
    have hArel : sA.released = s.released ++ [some Q] := by
      rw [← hA, attach_finish_released, activate_staged_eq]; rfl
    have hAp : sA.progs cgrp type = [some P] := by rw [hAprogs, if_pos ⟨rfl, rfl⟩]
    have hpath : cgroup_path sA cgrp = cgroup_path s cgrp :=
      cgroup_path_congr sA s cgrp (fun _ _ => by rw [hApar])
    have hchain : compute_effective_progs sA cgrp type true
        = Except.ok (P :: ((cgroup_path s cgrp).tail.map (fun a =>
            if allow_multi (s.flags a type) then live_progs (s.progs a type) else [])).flatten) := by
      rw [compute_effective_progs_ok, hpath, cgroup_path_cons, fill_effective_cons, hAp]
      simp only [true_or, if_true, List.nil_append, live_progs]
      rw [fill_effective_nonempty sA type _ [P] (by simp)]
      congr 1
      simp only [List.singleton_append, List.cons.injEq, true_and]
      congr 1
      apply List.map_congr_left
      intro a ha
      have hac : ¬ (a = cgrp ∧ type = type) := by
        intro h
        have := cgroup_path_tail_lt s cgrp a ha
        omega
      rw [hAprogs, hAflags, if_neg hac, if_neg hac]
    refine ⟨hAp, hArel, hchain, ?_⟩
    intro hno
    show compute_effective_progs sA cgrp type true = _
    rw [hchain]
    congr 2
    rw [List.flatten_eq_nil_iff]
    intro l hl
    obtain ⟨a, ha, rfl⟩ := List.mem_map.mp hl
    rw [hno a ha]
    rfl

/-- C13, witness: on `inherit_state` program 9 replaces program 7 at the
root. -/
theorem replace_never_append_witness :
    inherit_state.progs 0 0 = [some 7] ∧ inherit_state.flags 0 0 = 0 ∧
    (__cgroup_bpf_attach inherit_state 0 9 0 0 true (fun _ => true)).1 = 0 ∧
    (__cgroup_bpf_attach inherit_state 0 9 0 0 true (fun _ => true)).2.progs 0 0 = [some 9] ∧
    (__cgroup_bpf_attach inherit_state 0 9 0 0 true (fun _ => true)).2.released
      = inherit_state.released ++ [some 7] ∧
    compute_effective_progs (__cgroup_bpf_attach inherit_state 0 9 0 0 true (fun _ => true)).2
      0 0 true = Except.ok [9] :=
  have h := replace_never_append inherit_state 0 9 7 0 true (fun _ => true) rfl rfl (by decide)
  ⟨rfl, rfl, by decide, h.1, h.2.1, h.2.2.2 (by decide)⟩

/-! ## Capacity -/

theorem prog_list_length_append (l1 l2 : List (Option Nat)) :
    prog_list_length (l1 ++ l2) = prog_list_length l1 + prog_list_length l2 := by
  simp [prog_list_length_eq, live_progs_append]

theorem prog_list_length_set_le (l : List (Option Nat)) (v : Option Nat) :
    ∀ idx, prog_list_length (l.set idx v) ≤ prog_list_length l + 1 := by
  induction l with
  | nil => intro idx; simp [prog_list_length]
  | cons x t ih =>
    intro idx
    cases idx with
    | zero =>
      cases x <;> cases v <;> simp only [List.set_cons_zero, prog_list_length] <;> omega
    | succ i =>
      have := ih i
      cases x <;> simp [prog_list_length] <;> omega

theorem prog_list_length_set_none_le (l : List (Option Nat)) :
    ∀ idx, prog_list_length (l.set idx none) ≤ prog_list_length l := by
  induction l with
  | nil => intro idx; simp [prog_list_length]
  | cons x t ih =>
    intro idx
    cases idx with
    | zero => cases x <;> simp [prog_list_length]
    | succ i =>
      have := ih i
      cases x <;> simp [prog_list_length] <;> omega

/-- The list of a passing attach has at most one live program more. -/
theorem attach_list_length (progs : List (Option Nat)) (prog flags : Nat) (pl_ok : Bool)
    (progs1 : List (Option Nat)) (idx : Nat) (old_prog : Option Nat) (alloc : Bool)
    (h : attach_list progs prog flags pl_ok = Except.ok (progs1, idx, old_prog, alloc)) :
    prog_list_length progs1 ≤ prog_list_length progs + 1 := by
  unfold attach_list at h
  split at h
  · split at h
    · cases h
    · split at h
      · cases h
      · injection h with h
        simp only [Prod.mk.injEq] at h
        obtain ⟨rfl, rfl, rfl, rfl⟩ := h
        rw [prog_list_length_append]
        simp [prog_list_length]
  · split at h
    · split at h
      · cases h
      · injection h with h
        simp only [Prod.mk.injEq] at h
        obtain ⟨rfl, rfl, rfl, rfl⟩ := h
        simp [prog_list_length]
    · injection h with h
      simp only [Prod.mk.injEq] at h
      obtain ⟨rfl, rfl, rfl, rfl⟩ := h
      exact prog_list_length_set_le _ _ _

/-- The lists after an attach: those before the call, except that the list of
`(cgrp, type)` may be the list made by `attach_list`, when the checks have
passed. -/
theorem attach_progs (s : State) (cgrp prog type flags : Nat) (pl_ok : Bool)
    (arr_ok : Nat → Bool) :
    (__cgroup_bpf_attach s cgrp prog type flags pl_ok arr_ok).2.progs = s.progs ∨
    (prog_list_length (s.progs cgrp type) < BPF_CGROUP_MAX_PROGS ∧
      ∃ progs1 idx old_prog alloc,
        attach_list (s.progs cgrp type) prog flags pl_ok
          = Except.ok (progs1, idx, old_prog, alloc) ∧
        (__cgroup_bpf_attach s cgrp prog type flags pl_ok arr_ok).2.progs =
          fun n t => if n = cgrp ∧ t = type then progs1 else s.progs n t) := by
  by_cases h : (allow_override flags && allow_multi flags) = false ∧
      hierarchy_allows_attach s cgrp type flags = true ∧
      ¬ (s.progs cgrp type ≠ [] ∧ s.flags cgrp type ≠ flags) ∧
      prog_list_length (s.progs cgrp type) < BPF_CGROUP_MAX_PROGS
  · rcases attach_cases s cgrp prog type flags pl_ok arr_ok with
      ⟨err, _, he⟩ | ⟨progs1, idx, old_prog, alloc, hl, _, ⟨_, he⟩ | ⟨_, he⟩⟩
    · left; rw [he]
    · left; rw [he]; rfl
    · right
      refine ⟨h.2.2.2, progs1, idx, old_prog, alloc, hl, ?_⟩
      rw [he]
      show (attach_finish _ old_prog).progs = _
      rw [attach_finish_progs, activate_staged_eq]
      rfl
  · left
    rcases attach_err_checks s cgrp prog type flags pl_ok arr_ok h with he | he | he <;>
      rw [he]

theorem attach_progs_bound (s : State) (cgrp prog type flags : Nat) (pl_ok : Bool)
    (arr_ok : Nat → Bool)
    (hb : ∀ n t, prog_list_length (s.progs n t) ≤ BPF_CGROUP_MAX_PROGS) :
    ∀ n t, prog_list_length
      ((__cgroup_bpf_attach s cgrp prog type flags pl_ok arr_ok).2.progs n t)
        ≤ BPF_CGROUP_MAX_PROGS := by
  intro n t
  rcases attach_progs s cgrp prog type flags pl_ok arr_ok with he | ⟨hlt, progs1, idx, old_prog,
    alloc, hl, he⟩
  · rw [he]; exact hb n t
  · rw [he]
    by_cases hnt : n = cgrp ∧ t = type
    · simp only [if_pos hnt]
      have := attach_list_length _ _ _ _ _ _ _ _ hl
      omega
    · simp only [if_neg hnt]
      exact hb n t

theorem detach_progs_bound (s : State) (cgrp : Nat) (prog : Option Nat) (type : Nat)
    (arr_ok : Nat → Bool)
    (hb : ∀ n t, prog_list_length (s.progs n t) ≤ BPF_CGROUP_MAX_PROGS) :
    ∀ n t, prog_list_length ((__cgroup_bpf_detach s cgrp prog type arr_ok).2.progs n t)
      ≤ BPF_CGROUP_MAX_PROGS := by
  intro n t
  rcases detach_cases s cgrp prog type arr_ok with ⟨err, _, he⟩ | ⟨idx, old_prog, _, _, he⟩
  · rw [he]; exact hb n t
  · rw [he]
    show prog_list_length ((detach_finish _ cgrp type idx old_prog).progs n t) ≤ _
    rw [detach_finish_progs, activate_staged_eq]
    by_cases hnt : n = cgrp ∧ t = type
    · simp only [if_pos hnt, set_progs, and_self, if_true]
      rw [prog_list_length_eq, live_progs_set_none_eraseIdx, ← prog_list_length_eq]
      exact Nat.le_trans (prog_list_length_set_none_le _ _) (hb cgrp type)
    · simp only [if_neg hnt, set_progs]
      exact hb n t

theorem step_progs_bound (NR : Nat) (s : State) (op : Op)
    (hb : ∀ n t, prog_list_length (s.progs n t) ≤ BPF_CGROUP_MAX_PROGS) :
    ∀ n t, prog_list_length ((step NR s op).progs n t) ≤ BPF_CGROUP_MAX_PROGS := by
  have hcreate : ∀ (parent : Option (Fin s.nr)) (arr_ok : Nat → Bool),
      (cgroup_bpf_inherit (cgroup_create s parent) s.nr NR arr_ok).1 = 0 →
      ∀ n t, prog_list_length
        ((cgroup_bpf_inherit (cgroup_create s parent) s.nr NR arr_ok).2.progs n t)
          ≤ BPF_CGROUP_MAX_PROGS := by
    intro parent arr_ok h0 n t
    obtain ⟨_, _, hprogs, _, _⟩ :=
      cgroup_bpf_inherit_ok (cgroup_create s parent) s.nr NR arr_ok h0
    rw [hprogs]
    split
    · exact Nat.zero_le _
    · exact hb n t
  cases op with
  | attach cgrp prog type flags pl_ok arr_ok =>
    simp only [step]
    split
    · exact attach_progs_bound s cgrp prog type flags pl_ok arr_ok hb
    · exact hb
  | detach cgrp prog type arr_ok =>
    simp only [step]
    split
    · exact detach_progs_bound s cgrp prog type arr_ok hb
    · exact hb
  | create parent arr_ok =>
    cases parent with
    | none =>
      simp only [step]
      split
      · rename_i h0
        exact hcreate none arr_ok h0
      · exact hb
    | some p =>
      simp only [step]
      split
      · rename_i hp
        split
        · rename_i h0
          exact hcreate (some ⟨p, hp⟩) arr_ok h0
        · exact hb
      · exact hb

theorem run_progs_bound (NR : Nat) (ops : List Op) :
    ∀ s : State, (∀ n t, prog_list_length (s.progs n t) ≤ BPF_CGROUP_MAX_PROGS) →
      ∀ n t, prog_list_length ((run NR s ops).progs n t) ≤ BPF_CGROUP_MAX_PROGS := by
  induction ops with
  | nil => intro s h; exact h
  | cons op ops ih =>
    intro s h
    exact ih (step NR s op) (step_progs_bound NR s op h)

/-- C15: in every state reached from a state with an empty registry (all lists
empty, any tree) by a sequence of attach calls, detach calls, successful or
failed, and creations of cgroups, the number of live programs of the list of
every cgroup and attach type is at most 64 (`BPF_CGROUP_MAX_PROGS`). -/
theorem capacity_invariant (NR : Nat) (ops : List Op) (s : State)
    (hempty : ∀ n t, s.progs n t = []) (n t : Nat) :
    prog_list_length ((run NR s ops).progs n t) ≤ BPF_CGROUP_MAX_PROGS ∧
    BPF_CGROUP_MAX_PROGS = 64 :=
  ⟨run_progs_bound NR ops s (fun n t => by rw [hempty]; exact Nat.zero_le _) n t, rfl⟩

/-- C15, witness: two attaches and a detach from `root_state`. -/
theorem capacity_invariant_witness :
    (∀ n t, root_state.progs n t = []) ∧
    prog_list_length ((run 1 root_state
      [Op.attach 0 7 0 BPF_F_ALLOW_MULTI true (fun _ => true),
       Op.attach 0 9 0 BPF_F_ALLOW_MULTI true (fun _ => true),
       Op.detach 0 (some 7) 0 (fun _ => true)]).progs 0 0) ≤ BPF_CGROUP_MAX_PROGS ∧
    BPF_CGROUP_MAX_PROGS = 64 :=
  ⟨fun _ _ => rfl, capacity_invariant 1 _ root_state (fun _ _ => rfl) 0 0⟩

/-! ## Sequences of multi attaches -/

theorem hierarchy_walk_congr (s s2 : State) (type : Nat) :
    ∀ l : List Nat,
      (∀ a ∈ l, s2.progs a type = s.progs a type ∧ s2.flags a type = s.flags a type) →
      hierarchy_walk s2 type l = hierarchy_walk s type l := by
  intro l
  induction l with
  | nil => intro _; rfl
  | cons p rest ih =>
    intro h
    obtain ⟨e1, e2⟩ := h p (List.mem_cons_self _ _)
    simp only [hierarchy_walk, e1, e2, ih (fun a ha => h a (List.mem_cons_of_mem _ ha))]

/-- The answer of `hierarchy_allows_attach` for a cgroup does not depend on the
lists and flags of the cgroup itself. -/
theorem hierarchy_allows_attach_congr (s s2 : State) (cgrp type flags flags2 : Nat)
    (hpar : s2.parent = s.parent)
    (hreg : ∀ a, a ≠ cgrp →
      s2.progs a type = s.progs a type ∧ s2.flags a type = s.flags a type) :
    hierarchy_allows_attach s2 cgrp type flags2 = hierarchy_allows_attach s cgrp type flags := by
  unfold hierarchy_allows_attach
  rw [hpar, cgroup_path_congr s2 s cgrp (fun _ _ => by rw [hpar])]
  cases s.parent cgrp with
  | none => rfl
  | some p =>
    simp only []
    apply hierarchy_walk_congr
    intro a ha
    have := cgroup_path_tail_lt s cgrp a ha
    exact hreg a (by omega)

theorem prog_list_length_map_some (l : List Nat) :
    prog_list_length (l.map some) = l.length := by
  induction l with
  | nil => rfl
  | cons x t ih => simp [prog_list_length, ih]

/-- One successful multi attach with all allocations succeeding. -/
theorem attach_multi_step (s : State) (cgrp prog type flags : Nat) (L : List Nat)
    (hm : allow_multi flags = true) (ho : allow_override flags = false)
    (hh : hierarchy_allows_attach s cgrp type flags = true)
    (hl : s.progs cgrp type = L.map some)
    (hf : s.progs cgrp type = [] ∨ s.flags cgrp type = flags)
    (hnew : prog ∉ L) (hlen : L.length < 64) :
    (__cgroup_bpf_attach s cgrp prog type flags true (fun _ => true)).1 = 0 ∧
    (__cgroup_bpf_attach s cgrp prog type flags true (fun _ => true)).2.progs cgrp type
      = (L ++ [prog]).map some ∧
    (__cgroup_bpf_attach s cgrp prog type flags true (fun _ => true)).2.flags cgrp type
      = flags ∧
    hierarchy_allows_attach
      (__cgroup_bpf_attach s cgrp prog type flags true (fun _ => true)).2 cgrp type flags
        = true := by
  have h3 : ¬ (s.progs cgrp type ≠ [] ∧ s.flags cgrp type ≠ flags) := by
    rintro ⟨h1, h2⟩
    rcases hf with h | h
    · exact h1 h
    · exact h2 h
  have h4 : prog_list_length (s.progs cgrp type) < BPF_CGROUP_MAX_PROGS := by
    rw [hl, prog_list_length_map_some]; exact hlen
  have hmem : some prog ∉ s.progs cgrp type := by
    rw [hl]
    intro h
    obtain ⟨x, hx, hxe⟩ := List.mem_map.mp h
    injection hxe with hxe
    exact hnew (hxe ▸ hx)
  have hal : attach_list (s.progs cgrp type) prog flags true
      = Except.ok (s.progs cgrp type ++ [some prog], (s.progs cgrp type).length, none, true) := by
    unfold attach_list
    rw [if_pos hm, if_neg hmem]
    rfl
  have he := attach_checked s cgrp prog type flags true (fun _ => true)
    (by rw [ho]; rfl) hh h3 h4
  rw [hal] at he
  simp only [] at he
  rw [stage_effective_succeed _ _ _ _ (fun _ _ => rfl)] at he
  simp only [] at he
  rw [he]
  refine ⟨rfl, ?_, ?_, ?_⟩
  · show (attach_finish _ none).progs cgrp type = _
    rw [attach_finish_progs, activate_staged_eq]
    simp [set_flags, set_progs, hl]
  · show (attach_finish _ none).flags cgrp type = _
    rw [attach_finish_flags, activate_staged_eq]
    simp [set_flags]
  · rw [← hh]
    apply hierarchy_allows_attach_congr
    · show (attach_finish _ none).parent = _
      rw [attach_finish_parent, activate_staged_eq]
      rfl
    · intro a ha
      have hne : ¬ (a = cgrp ∧ type = type) := fun h => ha h.1
      constructor
      · show (attach_finish _ none).progs a type = _
        rw [attach_finish_progs, activate_staged_eq]
        show (if a = cgrp ∧ type = type then _ else _) = _
        rw [if_neg hne]
      · show (attach_finish _ none).flags a type = _
        rw [attach_finish_flags, activate_staged_eq]
        show (if a = cgrp ∧ type = type then _ else _) = _
        rw [if_neg hne]
        rfl

/-- Multi attaches of distinct programs up to the one that finds the list
full: all but the last succeed and append, the last returns `-E2BIG`. -/
theorem attach_seq_overflow (cgrp type flags : Nat)
    (hm : allow_multi flags = true) (ho : allow_override flags = false) :
    ∀ (ps : List Nat) (s : State) (L : List Nat),
      hierarchy_allows_attach s cgrp type flags = true →
      s.progs cgrp type = L.map some →
      (s.progs cgrp type = [] ∨ s.flags cgrp type = flags) →
      (L ++ ps).Nodup → L.length + ps.length = 65 → ps ≠ [] →
      (attach_seq s cgrp type flags ps).1 = List.replicate (ps.length - 1) 0 ++ [-E2BIG] ∧
      (attach_seq s cgrp type flags ps).2.progs cgrp type = (L ++ ps.dropLast).map some := by
  intro ps
  induction ps with
  | nil => intro s L _ _ _ _ _ hne; exact absurd rfl hne
  | cons p rest ih =>
    intro s L hh hl hf hnd hlen _
    by_cases hrest : rest = []
    · subst hrest
      have h64 : L.length = 64 := by simpa using hlen
      have h3 : ¬ (s.progs cgrp type ≠ [] ∧ s.flags cgrp type ≠ flags) := by
        rintro ⟨h1, h2⟩
        rcases hf with h | h
        · exact h1 h
        · exact h2 h
      have he := attach_err_full s cgrp p type flags true (fun _ => true)
        (by rw [ho]; rfl) hh h3
        (by rw [hl, prog_list_length_map_some, h64]; decide)
      simp only [attach_seq, he]
      refine ⟨rfl, ?_⟩
      simp [hl]
    · have hlt : L.length < 64 := by
        have : rest.length ≠ 0 := fun h => hrest (List.length_eq_zero.mp h)
        simp only [List.length_cons] at hlen
        omega
      have hnew : p ∉ L := by
        intro hp
        have := List.nodup_append.mp hnd
        exact this.2.2 hp (List.mem_cons_self _ _)
      obtain ⟨e1, e2, e3, e4⟩ := attach_multi_step s cgrp p type flags L hm ho hh hl hf hnew hlt
      have hnd2 : ((L ++ [p]) ++ rest).Nodup := by simpa using hnd
      have hlen2 : (L ++ [p]).length + rest.length = 65 := by
        simp only [List.length_append, List.length_cons, List.length_nil] at hlen ⊢
        omega
      obtain ⟨i1, i2⟩ := ih _ (L ++ [p]) e4 e2 (Or.inr e3) hnd2 hlen2 hrest
      simp only [attach_seq, e1, i1, i2]
      constructor
      · have : rest.length - 1 + 1 = rest.length := by
          have : rest.length ≠ 0 := fun h => hrest (List.length_eq_zero.mp h)
          omega
        simp only [List.length_cons, Nat.add_sub_cancel]
        rw [← this, List.replicate_succ]
        simp
      · rw [List.dropLast_cons_of_ne_nil hrest]
        simp

/-- C16: attaching 65 pairwise distinct programs one after another with
`BPF_F_ALLOW_MULTI` to a cgroup whose list is empty, the hierarchy allowing
the attach and no allocation failing, returns 0 for the first 64 programs and
`-E2BIG` for the 65th, and the list of the cgroup is then the first 64
programs in the order of the calls. More generally a successful attach with
`BPF_F_ALLOW_MULTI` appends the program at the end of the list and keeps the
entries that were there. -/
theorem scenario_d :
    (∀ (s : State) (cgrp type flags : Nat) (ps : List Nat),
      allow_multi flags = true → allow_override flags = false →
      hierarchy_allows_attach s cgrp type flags = true →
      s.progs cgrp type = [] → ps.Nodup → ps.length = 65 →
      (attach_seq s cgrp type flags ps).1 = List.replicate 64 0 ++ [-E2BIG] ∧
      (attach_seq s cgrp type flags ps).2.progs cgrp type = (ps.take 64).map some) ∧
    (∀ (s : State) (cgrp prog type flags : Nat) (pl_ok : Bool) (arr_ok : Nat → Bool),
      allow_multi flags = true →
      (__cgroup_bpf_attach s cgrp prog type flags pl_ok arr_ok).1 = 0 →
      (__cgroup_bpf_attach s cgrp prog type flags pl_ok arr_ok).2.progs cgrp type
        = s.progs cgrp type ++ [some prog]) := by
  constructor
  · intro s cgrp type flags ps hm ho hh hl hnd hlen
    have hne : ps ≠ [] := by
      intro h
      rw [h] at hlen
      cases hlen
    obtain ⟨h1, h2⟩ := attach_seq_overflow cgrp type flags hm ho ps s [] hh
      (by rw [hl]; rfl) (Or.inl hl) (by simpa using hnd) (by simpa using hlen) hne
    rw [hlen] at h1
    refine ⟨h1, ?_⟩
    rw [h2, List.dropLast_eq_take, hlen]
    rfl
  · intro s cgrp prog type flags pl_ok arr_ok hm hok
    rcases attach_cases s cgrp prog type flags pl_ok arr_ok with
      ⟨err, hne, he⟩ | ⟨progs1, idx, old_prog, alloc, hl, _, ⟨_, he⟩ | ⟨_, he⟩⟩
    · rw [he] at hok; exact absurd hok hne
    · rw [he] at hok
      have hne : ¬ ((-ENOMEM : Int) = 0) := by decide
      exact absurd hok hne
    · obtain ⟨hp1, _, _⟩ := attach_list_new _ _ _ _ _ _ _ _ hl (Or.inl hm)
      rw [he]
      show (attach_finish _ old_prog).progs cgrp type = _
      rw [attach_finish_progs, activate_staged_eq, hp1]
      simp [set_flags, set_progs]

/-- C16, witness: the programs 0, ..., 64 attached to the root of `root_state`,
and program 9 attached to the root of `multi_parent_state`, after program 7. -/
theorem scenario_d_witness :
    allow_multi BPF_F_ALLOW_MULTI = true ∧ allow_override BPF_F_ALLOW_MULTI = false ∧
    hierarchy_allows_attach root_state 0 0 BPF_F_ALLOW_MULTI = true ∧
    root_state.progs 0 0 = [] ∧ (List.range 65).Nodup ∧ (List.range 65).length = 65 ∧
    (attach_seq root_state 0 0 BPF_F_ALLOW_MULTI (List.range 65)).1
      = List.replicate 64 0 ++ [-E2BIG] ∧
    (attach_seq root_state 0 0 BPF_F_ALLOW_MULTI (List.range 65)).2.progs 0 0
      = ((List.range 65).take 64).map some ∧
    (__cgroup_bpf_attach multi_parent_state 0 9 0 BPF_F_ALLOW_MULTI true (fun _ => true)).1 = 0 ∧
    (__cgroup_bpf_attach multi_parent_state 0 9 0 BPF_F_ALLOW_MULTI true
      (fun _ => true)).2.progs 0 0 = multi_parent_state.progs 0 0 ++ [some 9] :=
  have h := scenario_d.1 root_state 0 0 BPF_F_ALLOW_MULTI (List.range 65) rfl rfl rfl rfl
    (List.nodup_range 65) (List.length_range 65)
  ⟨rfl, rfl, rfl, rfl, List.nodup_range 65, List.length_range 65, h.1, h.2, by decide,
    scenario_d.2 multi_parent_state 0 9 0 BPF_F_ALLOW_MULTI true (fun _ => true) rfl
      (by decide)⟩

/-! ## More on the outcomes of detach -/

/-- A detach that passes its checks and finds its entry goes on with the
recomputation. -/
theorem detach_checked (s : State) (cgrp : Nat) (prog : Option Nat) (type : Nat)
    (arr_ok : Nat → Bool) (idx : Nat) (old_prog : Option Nat)
    (h1 : ¬ (allow_multi (s.flags cgrp type) = true ∧ prog = none))
    (h2 : ¬ (¬ allow_multi (s.flags cgrp type) = true ∧ s.progs cgrp type = []))
    (hf : detach_find (s.progs cgrp type) (s.flags cgrp type) prog = some (idx, old_prog)) :
    (∀ d ∈ descendants_pre s cgrp, arr_ok d = true) ∧
      (__cgroup_bpf_detach s cgrp prog type arr_ok).1 = 0 ∨
    (∃ d ∈ descendants_pre s cgrp, arr_ok d = false) ∧
      __cgroup_bpf_detach s cgrp prog type arr_ok = (-ENOMEM, s) := by
  have hdesc : descendants_pre (set_progs s cgrp type ((s.progs cgrp type).set idx none)) cgrp
      = descendants_pre s cgrp :=
    descendants_pre_congr (set_progs s cgrp type ((s.progs cgrp type).set idx none)) s
      rfl rfl cgrp
  rcases all_or_some_fail arr_ok (descendants_pre s cgrp) with hall | hsome
  · left
    refine ⟨hall, ?_⟩
    rw [detach_succeeds s cgrp prog type arr_ok idx old_prog h1 h2 hf hall]
  · right
    refine ⟨hsome, ?_⟩
    unfold __cgroup_bpf_detach
    simp only []
    rw [if_neg h1, if_neg h2, hf]
    simp only [hdesc]
    rw [stage_effective_fail _ _ _ _ hsome]
    simp only []
    rw [set_progs_restore s cgrp type]
    simp only [set_progs, and_self, if_true]
    exact detach_find_restore _ _ _ _ _ hf

theorem detach_err_empty (s : State) (cgrp : Nat) (prog : Option Nat) (type : Nat)
    (arr_ok : Nat → Bool) (hm : allow_multi (s.flags cgrp type) = false)
    (hl : s.progs cgrp type = []) :
    __cgroup_bpf_detach s cgrp prog type arr_ok = (-ENOENT, s) := by
  unfold __cgroup_bpf_detach
  simp only []
  rw [if_neg (fun h => by rw [hm] at h; cases h.1), if_pos ⟨by rw [hm]; decide, hl⟩]

/-- C21: on a cgroup whose flags lack `BPF_F_ALLOW_MULTI`, a detach returns
`-ENOENT` if and only if the list of the cgroup for the attach type is empty,
whatever the outcome of the allocations is; and on an empty list the call
leaves the whole state unchanged. -/
theorem nonmulti_detach_empty (s : State) (cgrp : Nat) (prog : Option Nat) (type : Nat)
    (arr_ok : Nat → Bool) (hmulti : allow_multi (s.flags cgrp type) = false) :
    ((__cgroup_bpf_detach s cgrp prog type arr_ok).1 = -ENOENT ↔ s.progs cgrp type = []) ∧
    (s.progs cgrp type = [] → __cgroup_bpf_detach s cgrp prog type arr_ok = (-ENOENT, s)) := by
  refine ⟨⟨?_, fun hl => by rw [detach_err_empty s cgrp prog type arr_ok hmulti hl]⟩,
    detach_err_empty s cgrp prog type arr_ok hmulti⟩
  intro he
  by_contra hne
  have hf : detach_find (s.progs cgrp type) (s.flags cgrp type) prog
      = some (0, (s.progs cgrp type).head?.join) := by
    unfold detach_find
    rw [hmulti]
    rfl
  rcases detach_checked s cgrp prog type arr_ok 0 _
    (fun h => by rw [hmulti] at h; cases h.1) (fun h => hne h.2) hf with ⟨_, h0⟩ | ⟨_, h2⟩
  · rw [h0] at he
    have hne0 : ¬ ((0 : Int) = -ENOENT) := by decide
    exact hne0 he
  · rw [h2] at he
    have hne2 : ¬ ((-ENOMEM : Int) = -ENOENT) := by decide
    exact hne2 he

/-- C21, witness: the child of `inherit_state` has nothing attached and no
flags. -/
theorem nonmulti_detach_empty_witness :
    allow_multi (inherit_state.flags 1 0) = false ∧ inherit_state.progs 1 0 = [] ∧
    ((__cgroup_bpf_detach inherit_state 1 none 0 (fun _ => true)).1 = -ENOENT ↔
      inherit_state.progs 1 0 = []) ∧
    __cgroup_bpf_detach inherit_state 1 none 0 (fun _ => true) = (-ENOENT, inherit_state) :=
  ⟨rfl, rfl, (nonmulti_detach_empty inherit_state 1 none 0 (fun _ => true) rfl).1,
    (nonmulti_detach_empty inherit_state 1 none 0 (fun _ => true) rfl).2 rfl⟩

/-- C22: after a successful detach, if the list of the cgroup for the attach
type has become empty its flags word is 0, and if the list is still not empty
its flags word is the one before the call. -/
theorem flags_reset (s : State) (cgrp : Nat) (prog : Option Nat) (type : Nat)
    (arr_ok : Nat → Bool) (hok : (__cgroup_bpf_detach s cgrp prog type arr_ok).1 = 0) :
    ((__cgroup_bpf_detach s cgrp prog type arr_ok).2.progs cgrp type = [] →
      (__cgroup_bpf_detach s cgrp prog type arr_ok).2.flags cgrp type = 0) ∧
    ((__cgroup_bpf_detach s cgrp prog type arr_ok).2.progs cgrp type ≠ [] →
      (__cgroup_bpf_detach s cgrp prog type arr_ok).2.flags cgrp type = s.flags cgrp type) := by
  rcases detach_cases s cgrp prog type arr_ok with ⟨err, hne, he⟩ | ⟨idx, old_prog, _, _, he⟩
  · rw [he] at hok
    exact absurd hok hne
  · rw [he]
    have hp : ∀ x : State, (detach_finish x cgrp type idx old_prog).progs cgrp type
        = (x.progs cgrp type).eraseIdx idx := by
      intro x
      rw [detach_finish_progs]
      simp
    have hf : ∀ x : State, (detach_finish x cgrp type idx old_prog).flags cgrp type
        = if (x.progs cgrp type).eraseIdx idx = [] then 0 else x.flags cgrp type := by
      intro x
      rw [detach_finish_flags]
      by_cases h : (x.progs cgrp type).eraseIdx idx = []
      · simp [h]
      · simp [h]
    constructor
    · intro hnil
      change (detach_finish _ cgrp type idx old_prog).progs cgrp type = [] at hnil
      show (detach_finish _ cgrp type idx old_prog).flags cgrp type = 0
      rw [hp] at hnil
      rw [hf, if_pos hnil]
    · intro hnn
      change (detach_finish _ cgrp type idx old_prog).progs cgrp type ≠ [] at hnn
      show (detach_finish _ cgrp type idx old_prog).flags cgrp type = _
      rw [hp] at hnn
      rw [hf, if_neg hnn, activate_staged_eq]
      rfl

/-- C22, witness: the detach of program 7 from the root of
`multi_parent_state` empties the list. -/
theorem flags_reset_witness :
    (__cgroup_bpf_detach multi_parent_state 0 (some 7) 0 (fun _ => true)).1 = 0 ∧
    (__cgroup_bpf_detach multi_parent_state 0 (some 7) 0 (fun _ => true)).2.progs 0 0 = [] ∧
    (__cgroup_bpf_detach multi_parent_state 0 (some 7) 0 (fun _ => true)).2.flags 0 0 = 0 :=
  ⟨by decide, by decide,
    (flags_reset multi_parent_state 0 (some 7) 0 (fun _ => true) (by decide)).1 (by decide)⟩

/-! ## compute_effective_progs as a function of the registry -/

/-- C28: two successful calls of `compute_effective_progs` for the same cgroup
and attach type on the same state return the same programs in the same order,
whatever the allocations are; the result depends only on the parent links and
on the lists and flags of the cgroups on the walk to the root, not on the
published chains; and the calls made in a row by the recomputation loop all
see the same state. The embedding of `compute_effective_progs` returns the
array and no state: the source function writes nothing but `*array`. -/
theorem idempotent_recompilation :
    (∀ (s : State) (n type : Nat) (ok1 ok2 : Bool) (a1 a2 : List Nat),
      compute_effective_progs s n type ok1 = Except.ok a1 →
      compute_effective_progs s n type ok2 = Except.ok a2 → a1 = a2) ∧
    (∀ (s s2 : State) (n type : Nat) (alloc_ok : Bool), s2.parent = s.parent →
      (∀ a ∈ cgroup_path s n,
        s2.progs a type = s.progs a type ∧ s2.flags a type = s.flags a type) →
      compute_effective_progs s2 n type alloc_ok = compute_effective_progs s n type alloc_ok) ∧
    (∀ (s : State) (type : Nat) (arr_ok : Nat → Bool) (l : List Nat)
      (staged : List (Nat × List Nat)),
      stage_effective s type arr_ok l = Except.ok staged →
      staged.map Prod.fst = l ∧
      ∀ x ∈ staged, compute_effective_progs s x.1 type true = Except.ok x.2) := by
  refine ⟨?_, ?_, ?_⟩
  · intro s n type ok1 ok2 a1 a2 h1 h2
    cases ok1 with
    | false => rw [compute_effective_progs_fail] at h1; cases h1
    | true =>
      cases ok2 with
      | false => rw [compute_effective_progs_fail] at h2; cases h2
      | true =>
        rw [h1] at h2
        injection h2
  · intro s s2 n type alloc_ok hpar hreg
    cases alloc_ok with
    | false => rfl
    | true =>
      rw [compute_effective_progs_ok, compute_effective_progs_ok,
        cgroup_path_congr s2 s n (fun _ _ => by rw [hpar])]
      congr 1
      apply fill_effective_congr
      intro p hp
      obtain ⟨e1, e2⟩ := hreg p hp
      rw [e1, e2]
      exact ⟨rfl, Or.inl rfl⟩
  · intro s type arr_ok l staged h
    rw [stage_effective_eq] at h
    split at h
    · injection h with h
      subst h
      constructor
      · rw [List.map_map]
        exact List.map_id _
      · intro x hx
        obtain ⟨d, _, rfl⟩ := List.mem_map.mp hx
        rfl
    · cases h

/-- C28, witness: the chain of cgroup 1 of `order_state`, computed twice, and
computed once more after the published chain of cgroup 1 has been exchanged. -/
theorem idempotent_recompilation_witness :
    compute_effective_progs order_state 1 0 true = Except.ok [9, 7] ∧
    ([9, 7] : List Nat) = [9, 7] ∧
    compute_effective_progs (activate_effective_progs order_state 1 0 [3]) 1 0 true
      = compute_effective_progs order_state 1 0 true :=
  ⟨rfl, idempotent_recompilation.1 order_state 1 0 true true [9, 7] [9, 7] rfl rfl,
    idempotent_recompilation.2.1 order_state (activate_effective_progs order_state 1 0 [3])
      1 0 true rfl (fun _ _ => ⟨rfl, rfl⟩)⟩

/-! ## hierarchy_allows_attach -/

theorem hierarchy_allows_attach_eq_walk (s : State) (cgrp type flags : Nat) :
    hierarchy_allows_attach s cgrp type flags
      = hierarchy_walk s type (cgroup_path s cgrp).tail := by
  unfold hierarchy_allows_attach
  cases h : s.parent cgrp with
  | none => rw [cgroup_path_root s cgrp h]; rfl
  | some p => rfl

theorem hierarchy_walk_skip (s : State) (type : Nat) :
    ∀ (pre rest : List Nat),
      (∀ b ∈ pre, allow_multi (s.flags b type) = false ∧
        prog_list_length (s.progs b type) ≠ 1) →
      hierarchy_walk s type (pre ++ rest) = hierarchy_walk s type rest := by
  intro pre
  induction pre with
  | nil => intro rest _; rfl
  | cons b pre ih =>
    intro rest h
    obtain ⟨h1, h2⟩ := h b (List.mem_cons_self _ _)
    simp only [List.cons_append, hierarchy_walk, h1, h2]
    exact ih rest (fun c hc => h c (List.mem_cons_of_mem _ hc))

/-- C29: `hierarchy_allows_attach` returns true for a cgroup without parent;
otherwise it walks the proper ancestors from the parent upward, skipping those
that have neither `BPF_F_ALLOW_MULTI` nor exactly one live program, and the
first other ancestor decides: true if it has `BPF_F_ALLOW_MULTI`, else (it has
exactly one live program) true exactly when it has `BPF_F_ALLOW_OVERRIDE`; if
all ancestors are skipped the result is true. The result depends neither on
the flags of the call nor on the lists and flags of the cgroup itself. -/
theorem hierarchy_characterisation :
    (∀ (s : State) (cgrp type flags : Nat), s.parent cgrp = none →
      hierarchy_allows_attach s cgrp type flags = true) ∧
    (∀ (s : State) (cgrp type flags a : Nat) (pre post : List Nat),
      (cgroup_path s cgrp).tail = pre ++ a :: post →
      (∀ b ∈ pre, allow_multi (s.flags b type) = false ∧
        prog_list_length (s.progs b type) ≠ 1) →
      (allow_multi (s.flags a type) = true →
        hierarchy_allows_attach s cgrp type flags = true) ∧
      (allow_multi (s.flags a type) = false → prog_list_length (s.progs a type) = 1 →
        hierarchy_allows_attach s cgrp type flags = allow_override (s.flags a type))) ∧
    (∀ (s : State) (cgrp type flags : Nat),
      (∀ b ∈ (cgroup_path s cgrp).tail, allow_multi (s.flags b type) = false ∧
        prog_list_length (s.progs b type) ≠ 1) →
      hierarchy_allows_attach s cgrp type flags = true) ∧
    (∀ (s s2 : State) (cgrp type flags flags2 : Nat), s2.parent = s.parent →
      (∀ a, a ≠ cgrp → s2.progs a type = s.progs a type ∧ s2.flags a type = s.flags a type) →
      hierarchy_allows_attach s2 cgrp type flags2
        = hierarchy_allows_attach s cgrp type flags) := by
  refine ⟨?_, ?_, ?_, ?_⟩
  · intro s cgrp type flags h
    unfold hierarchy_allows_attach
    rw [h]
  · intro s cgrp type flags a pre post hpath hpre
    rw [hierarchy_allows_attach_eq_walk, hpath, hierarchy_walk_skip s type pre _ hpre]
    constructor
    · intro hm
      simp [hierarchy_walk, hm]
    · intro hm hc
      simp [hierarchy_walk, hm, hc]
  · intro s cgrp type flags h
    rw [hierarchy_allows_attach_eq_walk]
    have := hierarchy_walk_skip s type (cgroup_path s cgrp).tail [] h
    rw [List.append_nil] at this
    rw [this]
    rfl
  · intro s s2 cgrp type flags flags2 hpar hreg
    exact hierarchy_allows_attach_congr s s2 cgrp type flags flags2 hpar hreg

/-- C29, witness: the root of `inherit_state` has no parent; its child is
decided by the root, which has one program and no flags. -/
theorem hierarchy_characterisation_witness :
    inherit_state.parent 0 = none ∧
    hierarchy_allows_attach inherit_state 0 0 BPF_F_ALLOW_MULTI = true ∧
    (cgroup_path inherit_state 1).tail = [] ++ 0 :: [] ∧
    allow_multi (inherit_state.flags 0 0) = false ∧
    prog_list_length (inherit_state.progs 0 0) = 1 ∧
    hierarchy_allows_attach inherit_state 1 0 BPF_F_ALLOW_MULTI
      = allow_override (inherit_state.flags 0 0) :=
  ⟨rfl, hierarchy_characterisation.1 inherit_state 0 0 BPF_F_ALLOW_MULTI rfl, rfl, rfl, rfl,
    (hierarchy_characterisation.2.1 inherit_state 1 0 BPF_F_ALLOW_MULTI 0 [] [] rfl
      (fun _ h => by cases h)).2 rfl rfl⟩

/-! ## The frame of attach and detach -/

theorem activate_staged_effective_frame (type : Nat) :
    ∀ (staged : List (Nat × List Nat)) (s : State) (m t : Nat),
      ¬ (m ∈ staged.map Prod.fst ∧ t = type) →
      (activate_staged s type staged).effective m t = s.effective m t := by
  intro staged
  induction staged with
  | nil => intro s m t _; rfl
  | cons x rest ih =>
    intro s m t h
    obtain ⟨d, array⟩ := x
    simp only [activate_staged]
    rw [ih]
    · simp only [activate_effective_progs]
      rw [if_neg]
      rintro ⟨rfl, rfl⟩
      exact h ⟨by simp, rfl⟩
    · rintro ⟨h1, h2⟩
      exact h ⟨by simp [h1], h2⟩

/-- The frame of an attach call. -/
theorem attach_frame (s : State) (cgrp prog type flags : Nat) (pl_ok : Bool)
    (arr_ok : Nat → Bool) :
    (__cgroup_bpf_attach s cgrp prog type flags pl_ok arr_ok).2.nr = s.nr ∧
    (__cgroup_bpf_attach s cgrp prog type flags pl_ok arr_ok).2.parent = s.parent ∧
    (∀ m t, ¬ (m = cgrp ∧ t = type) →
      (__cgroup_bpf_attach s cgrp prog type flags pl_ok arr_ok).2.progs m t = s.progs m t ∧
      (__cgroup_bpf_attach s cgrp prog type flags pl_ok arr_ok).2.flags m t = s.flags m t) ∧
    (∀ m t, ¬ (m ∈ descendants_pre s cgrp ∧ t = type) →
      (__cgroup_bpf_attach s cgrp prog type flags pl_ok arr_ok).2.effective m t
        = s.effective m t) := by
  rcases attach_cases s cgrp prog type flags pl_ok arr_ok with
    ⟨err, _, he⟩ | ⟨progs1, idx, old_prog, alloc, _, _, ⟨_, he⟩ | ⟨_, he⟩⟩
  · rw [he]
    exact ⟨rfl, rfl, fun _ _ _ => ⟨rfl, rfl⟩, fun _ _ _ => rfl⟩
  · rw [he]
    refine ⟨rfl, rfl, fun m t h => ⟨rfl, ?_⟩, fun _ _ _ => rfl⟩
    show (if m = cgrp ∧ t = type then flags else s.flags m t) = _
    rw [if_neg h]
  · rw [he]
    refine ⟨?_, ?_, fun m t h => ⟨?_, ?_⟩, fun m t h => ?_⟩
    · show (attach_finish _ old_prog).nr = _
      rw [attach_finish_nr, activate_staged_eq]; rfl
    · show (attach_finish _ old_prog).parent = _
      rw [attach_finish_parent, activate_staged_eq]; rfl
    · show (attach_finish _ old_prog).progs m t = _
      rw [attach_finish_progs, activate_staged_eq]
      show (if m = cgrp ∧ t = type then progs1 else s.progs m t) = _
      rw [if_neg h]
    · show (attach_finish _ old_prog).flags m t = _
      rw [attach_finish_flags, activate_staged_eq]
      show (if m = cgrp ∧ t = type then flags else s.flags m t) = _
      rw [if_neg h]
    · show (attach_finish _ old_prog).effective m t = _
      rw [attach_finish_effective, activate_staged_eq]
      show (if m ∈ descendants_pre s cgrp ∧ t = type then _ else s.effective m t) = _
      rw [if_neg h]

/-- The frame of a detach call. -/
theorem detach_frame (s : State) (cgrp : Nat) (prog : Option Nat) (type : Nat)
    (arr_ok : Nat → Bool) :
    (__cgroup_bpf_detach s cgrp prog type arr_ok).2.nr = s.nr ∧
    (__cgroup_bpf_detach s cgrp prog type arr_ok).2.parent = s.parent ∧
    (∀ m t, ¬ (m = cgrp ∧ t = type) →
      (__cgroup_bpf_detach s cgrp prog type arr_ok).2.progs m t = s.progs m t ∧
      (__cgroup_bpf_detach s cgrp prog type arr_ok).2.flags m t = s.flags m t) ∧
    (∀ m t, ¬ (m ∈ descendants_pre s cgrp ∧ t = type) →
      (__cgroup_bpf_detach s cgrp prog type arr_ok).2.effective m t = s.effective m t) := by
  rcases detach_cases s cgrp prog type arr_ok with ⟨err, _, he⟩ | ⟨idx, old_prog, _, _, he⟩
  · rw [he]
    exact ⟨rfl, rfl, fun _ _ _ => ⟨rfl, rfl⟩, fun _ _ _ => rfl⟩
  · rw [he]
    refine ⟨?_, ?_, fun m t h => ⟨?_, ?_⟩, fun m t h => ?_⟩
    · show (detach_finish _ cgrp type idx old_prog).nr = _
      rw [detach_finish_nr, activate_staged_eq]; rfl
    · show (detach_finish _ cgrp type idx old_prog).parent = _
      rw [detach_finish_parent, activate_staged_eq]; rfl
    · show (detach_finish _ cgrp type idx old_prog).progs m t = _
      rw [detach_finish_progs, activate_staged_eq]
      show (if m = cgrp ∧ t = type then _ else
        (if m = cgrp ∧ t = type then _ else s.progs m t)) = _
      rw [if_neg h, if_neg h]
    · show (detach_finish _ cgrp type idx old_prog).flags m t = _
      rw [detach_finish_flags, activate_staged_eq]
      show (if _ ∧ m = cgrp ∧ t = type then 0 else s.flags m t) = _
      rw [if_neg (fun h2 => h h2.2)]
    · show (detach_finish _ cgrp type idx old_prog).effective m t = _
      rw [detach_finish_effective, activate_staged_eq]
      show (if m ∈ descendants_pre s cgrp ∧ t = type then _ else s.effective m t) = _
      rw [if_neg h]

/-- C30: an attach or a detach call on cgroup `cgrp` for attach type `type`,
successful or not, keeps the tree, changes no list and no flags word other
than those of `(cgrp, type)`, and changes no published chain other than those
of the cgroups of the subtree of `cgrp` for `type`: the lists, flags and
published chains of every cgroup outside of the subtree, and of every other
attach type on every cgroup, are the ones before the call. The subtree of
`cgrp` is made of the cgroups whose walk to the root meets `cgrp`. -/
theorem mutation_frame :
    (∀ (s : State) (cgrp prog type flags : Nat) (pl_ok : Bool) (arr_ok : Nat → Bool),
      (∀ m t, ¬ (m = cgrp ∧ t = type) →
        (__cgroup_bpf_attach s cgrp prog type flags pl_ok arr_ok).2.progs m t = s.progs m t ∧
        (__cgroup_bpf_attach s cgrp prog type flags pl_ok arr_ok).2.flags m t = s.flags m t) ∧
      (∀ m t, ¬ (m ∈ descendants_pre s cgrp ∧ t = type) →
        (__cgroup_bpf_attach s cgrp prog type flags pl_ok arr_ok).2.effective m t
          = s.effective m t)) ∧
    (∀ (s : State) (cgrp : Nat) (prog : Option Nat) (type : Nat) (arr_ok : Nat → Bool),
      (∀ m t, ¬ (m = cgrp ∧ t = type) →
        (__cgroup_bpf_detach s cgrp prog type arr_ok).2.progs m t = s.progs m t ∧
        (__cgroup_bpf_detach s cgrp prog type arr_ok).2.flags m t = s.flags m t) ∧
      (∀ m t, ¬ (m ∈ descendants_pre s cgrp ∧ t = type) →
        (__cgroup_bpf_detach s cgrp prog type arr_ok).2.effective m t = s.effective m t)) ∧
    (∀ (s : State) (cgrp m : Nat), cgrp < s.nr → m < s.nr →
      (m ∈ descendants_pre s cgrp ↔ cgrp ∈ cgroup_path s m)) :=
  ⟨fun s cgrp prog type flags pl_ok arr_ok =>
      (attach_frame s cgrp prog type flags pl_ok arr_ok).2.2,
    fun s cgrp prog type arr_ok => (detach_frame s cgrp prog type arr_ok).2.2,
    fun s cgrp m hc hm => mem_descendants_pre s cgrp m hc hm⟩

/-- C30, witness: program 9 is attached to cgroup 1 of `multi_parent_state`
and program 7 is detached from its root: the attach leaves the root as it
was, and both leave the other attach types as they were. -/
theorem mutation_frame_witness :
    (__cgroup_bpf_attach multi_parent_state 1 9 0 BPF_F_ALLOW_MULTI true (fun _ => true)).1 = 0 ∧
    ¬ (0 = 1 ∧ 0 = 0) ∧ ¬ (0 ∈ descendants_pre multi_parent_state 1 ∧ 0 = 0) ∧
    (__cgroup_bpf_attach multi_parent_state 1 9 0 BPF_F_ALLOW_MULTI true
      (fun _ => true)).2.progs 0 0 = multi_parent_state.progs 0 0 ∧
    (__cgroup_bpf_attach multi_parent_state 1 9 0 BPF_F_ALLOW_MULTI true
      (fun _ => true)).2.effective 0 0 = multi_parent_state.effective 0 0 ∧
    (__cgroup_bpf_detach multi_parent_state 0 (some 7) 0 (fun _ => true)).1 = 0 ∧
    (__cgroup_bpf_detach multi_parent_state 0 (some 7) 0 (fun _ => true)).2.effective 1 1
      = multi_parent_state.effective 1 1 ∧
    (1 ∈ descendants_pre multi_parent_state 0 ↔ 0 ∈ cgroup_path multi_parent_state 1) :=
  ⟨by decide, by decide, by decide,
    ((mutation_frame.1 multi_parent_state 1 9 0 BPF_F_ALLOW_MULTI true (fun _ => true)).1
      0 0 (by decide)).1,
    (mutation_frame.1 multi_parent_state 1 9 0 BPF_F_ALLOW_MULTI true (fun _ => true)).2
      0 0 (by decide),
    by decide,
    (mutation_frame.2.1 multi_parent_state 0 (some 7) 0 (fun _ => true)).2 1 1 (by decide),
    mutation_frame.2.2 multi_parent_state 0 1 (by decide) (by decide)⟩

/-! ## __cgroup_bpf_run_filter -/

theorem run_filter_values (s : State) (run_array : Option (List Nat) → Nat)
    (sk : Option sock) (type : Nat) :
    __cgroup_bpf_run_filter s run_array sk type = 0 ∨
    __cgroup_bpf_run_filter s run_array sk type = -EPERM := by
  unfold __cgroup_bpf_run_filter
  cases sk with
  | none => exact Or.inl rfl
  | some sk =>
    simp only []
    split
    · exact Or.inl rfl
    · split
      · exact Or.inl rfl
      · cases sk.skcg with
        | none => exact Or.inl rfl
        | some cgrp =>
          simp only []
          split
          · exact Or.inl rfl
          · exact Or.inr rfl

/-- The value of `__cgroup_bpf_run_filter` for a full socket of family
`AF_INET` or `AF_INET6` that has a cgroup. -/
theorem run_filter_main (s : State) (run_array : Option (List Nat) → Nat) (type cgrp : Nat)
    (sk : sock) (hfull : sk.fullsock = true)
    (hfam : sk.sk_family = AF_INET ∨ sk.sk_family = AF_INET6) (hcg : sk.skcg = some cgrp) :
    __cgroup_bpf_run_filter s run_array (some sk) type
      = if run_array (s.effective cgrp type) = 1 then 0 else -EPERM := by
  unfold __cgroup_bpf_run_filter
  simp only []
  rw [if_neg (by rw [hfull]; decide), if_neg (fun h => by
    rcases hfam with h1 | h1
    · exact h.1 h1
    · exact h.2 h1), hcg]

/-- The cases in which `__cgroup_bpf_run_filter` does nothing. -/
theorem run_filter_skip (s : State) (run_array : Option (List Nat) → Nat) (type : Nat)
    (sk : Option sock)
    (h : sk = none ∨ ∃ k, sk = some k ∧ (k.fullsock = false ∨
      (k.sk_family ≠ AF_INET ∧ k.sk_family ≠ AF_INET6) ∨ k.skcg = none)) :
    __cgroup_bpf_run_filter s run_array sk type = 0 := by
  unfold __cgroup_bpf_run_filter
  rcases h with rfl | ⟨k, rfl, hk⟩
  · rfl
  · simp only []
    split
    · rfl
    · split
      · rfl
      · rename_i h1 h2
        rcases hk with hk | hk | hk
        · rw [hk] at h1
          exact absurd rfl h1
        · exact absurd hk h2
        · rw [hk]

theorem BPF_PROG_RUN_ARRAY_eq_one (chain : List Nat) (func : Nat → Nat) :
    BPF_PROG_RUN_ARRAY (some chain) func = 1 ↔ ∀ prog ∈ chain, func prog = 1 := by
  unfold BPF_PROG_RUN_ARRAY
  simp only []
  split
  · rename_i h
    simp only [true_iff]
    intro prog hp
    have := List.all_eq_true.mp h prog hp
    simpa using this
  · rename_i h
    constructor
    · intro h0
      cases h0
    · intro hall
      exfalso
      apply h
      rw [List.all_eq_true]
      intro prog hp
      simp [hall prog hp]

/-- C23: `__cgroup_bpf_run_filter` returns only 0 or `-EPERM`, whatever
`BPF_PROG_RUN_ARRAY` computes. For a full socket of family `AF_INET` or
`AF_INET6` that has a cgroup it returns 0 if the value of
`BPF_PROG_RUN_ARRAY` on the published chain of that cgroup is 1 and `-EPERM`
otherwise; with the macro as modelled, it returns `-EPERM` exactly when a
program of the published chain returned a value other than 1, and 0 exactly
when all of them returned 1. With no socket, a socket that is not full,
another family or no cgroup it returns 0 whatever the programs would return:
none is run. -/
theorem run_filter_verdict :
    (∀ (s : State) (run_array : Option (List Nat) → Nat) (sk : Option sock) (type : Nat),
      __cgroup_bpf_run_filter s run_array sk type = 0 ∨
      __cgroup_bpf_run_filter s run_array sk type = -EPERM) ∧
    (∀ (s : State) (run_array : Option (List Nat) → Nat) (type cgrp : Nat) (sk : sock),
      sk.fullsock = true → (sk.sk_family = AF_INET ∨ sk.sk_family = AF_INET6) →
      sk.skcg = some cgrp →
      __cgroup_bpf_run_filter s run_array (some sk) type
        = if run_array (s.effective cgrp type) = 1 then 0 else -EPERM) ∧
    (∀ (s : State) (func : Nat → Nat) (type cgrp : Nat) (sk : sock) (chain : List Nat),
      sk.fullsock = true → (sk.sk_family = AF_INET ∨ sk.sk_family = AF_INET6) →
      sk.skcg = some cgrp → s.effective cgrp type = some chain →
      (__cgroup_bpf_run_filter s (fun array => BPF_PROG_RUN_ARRAY array func) (some sk) type
          = -EPERM ↔ ∃ prog ∈ chain, func prog ≠ 1) ∧
      (__cgroup_bpf_run_filter s (fun array => BPF_PROG_RUN_ARRAY array func) (some sk) type
          = 0 ↔ ∀ prog ∈ chain, func prog = 1)) ∧
    (∀ (s : State) (run_array : Option (List Nat) → Nat) (type : Nat) (sk : Option sock),
      (sk = none ∨ ∃ k, sk = some k ∧ (k.fullsock = false ∨
        (k.sk_family ≠ AF_INET ∧ k.sk_family ≠ AF_INET6) ∨ k.skcg = none)) →
      __cgroup_bpf_run_filter s run_array sk type = 0) := by
  refine ⟨run_filter_values, run_filter_main, ?_, run_filter_skip⟩
  intro s func type cgrp sk chain hfull hfam hcg heff
  rw [run_filter_main s _ type cgrp sk hfull hfam hcg]
  simp only [heff]
  have hne : ¬ ((0 : Int) = -EPERM) := by decide
  have hne2 : ¬ ((-EPERM : Int) = 0) := by decide
  by_cases h1 : BPF_PROG_RUN_ARRAY (some chain) func = 1
  · rw [if_pos h1]
    have hall := (BPF_PROG_RUN_ARRAY_eq_one chain func).mp h1
    constructor
    · constructor
      · intro h; exact absurd h hne
      · rintro ⟨prog, hp, hf⟩
        exact absurd (hall prog hp) hf
    · exact ⟨fun _ => hall, fun _ => rfl⟩
  · rw [if_neg h1]
    have hnall : ¬ ∀ prog ∈ chain, func prog = 1 :=
      fun h => h1 ((BPF_PROG_RUN_ARRAY_eq_one chain func).mpr h)
    constructor
    · constructor
      · intro _
        push_neg at hnall
        exact hnall
      · intro _; rfl
    · constructor
      · intro h; exact absurd h hne2
      · intro h; exact absurd h hnall

/-- C23, witness: a full `AF_INET` socket in cgroup 1 of `inherit_state`, whose
published chain is `[7]`: denied when program 7 returns 0, allowed when it
returns 1; and a socket without cgroup. -/
theorem run_filter_verdict_witness :
    (∃ prog ∈ [7], (fun _ => 0) prog ≠ 1) ∧
    __cgroup_bpf_run_filter inherit_state (fun array => BPF_PROG_RUN_ARRAY array (fun _ => 0))
      (some { fullsock := true, sk_family := AF_INET, skcg := some 1 }) 0 = -EPERM ∧
    __cgroup_bpf_run_filter inherit_state (fun array => BPF_PROG_RUN_ARRAY array (fun _ => 1))
      (some { fullsock := true, sk_family := AF_INET, skcg := some 1 }) 0 = 0 ∧
    __cgroup_bpf_run_filter inherit_state (fun array => BPF_PROG_RUN_ARRAY array (fun _ => 0))
      (some { fullsock := true, sk_family := AF_INET, skcg := none }) 0 = 0 :=
  ⟨⟨7, by decide, by decide⟩,
    ((run_filter_verdict.2.2.1 inherit_state (fun _ => 0) 0 1
      { fullsock := true, sk_family := AF_INET, skcg := some 1 } [7] rfl (Or.inl rfl) rfl
      rfl).1).mpr ⟨7, by decide, by decide⟩,
    ((run_filter_verdict.2.2.1 inherit_state (fun _ => 1) 0 1
      { fullsock := true, sk_family := AF_INET, skcg := some 1 } [7] rfl (Or.inl rfl) rfl
      rfl).2).mpr (fun _ _ => rfl),
    run_filter_verdict.2.2.2 inherit_state _ 0 _
      (Or.inr ⟨_, rfl, Or.inr (Or.inr rfl)⟩)⟩

/-- C24: for a cgroup whose published chain for the attach type is empty,
`__cgroup_bpf_run_filter` returns 0 for every socket of that cgroup and every
packet, that is whatever the programs would return, with
`BPF_PROG_RUN_ARRAY` as modelled (an empty chain is a pass-through). -/
theorem empty_chain_passes (s : State) (func : Nat → Nat) (type cgrp : Nat) (sk : sock)
    (hcg : sk.skcg = some cgrp) (hempty : s.effective cgrp type = some []) :
    __cgroup_bpf_run_filter s (fun array => BPF_PROG_RUN_ARRAY array func) (some sk) type
      = 0 := by
  rcases run_filter_values s (fun array => BPF_PROG_RUN_ARRAY array func) (some sk) type with
    h | h
  · exact h
  · exfalso
    unfold __cgroup_bpf_run_filter at h
    simp only [hcg, hempty] at h
    split at h
    · revert h; decide
    · split at h
      · revert h; decide
      · have h1 : BPF_PROG_RUN_ARRAY (some []) func = 1 := rfl
        rw [if_pos h1] at h
        revert h
        decide

/-- C24, witness: a full `AF_INET6` socket in the root of `root_state`, whose
published chain is empty, and programs that would all return 0. -/
theorem empty_chain_passes_witness :
    root_state.effective 0 0 = some [] ∧
    __cgroup_bpf_run_filter root_state (fun array => BPF_PROG_RUN_ARRAY array (fun _ => 0))
      (some { fullsock := true, sk_family := AF_INET6, skcg := some 0 }) 0 = 0 :=
  ⟨rfl, empty_chain_passes root_state (fun _ => 0) 0 0
    { fullsock := true, sk_family := AF_INET6, skcg := some 0 } rfl rfl⟩

/-! ## cls_bpf_classify -/

/-- The loop goes through the integrated programs that map to
`TC_ACT_UNSPEC` and runs each of them. -/
theorem classify_loop_unspec (bpf_prog_run : Nat → Nat → Int × Nat)
    (tcf_exts_exec : Nat → tcf_result → Int × tcf_result) :
    ∀ (pre rest : List cls_bpf_prog) (st : classify_state),
      (∀ q ∈ pre, q.exts_integrated = true ∧
        cls_bpf_exec_opcode (bpf_prog_run q.filter q.res.classid).1 = TC_ACT_UNSPEC) →
      ∃ st2 : classify_state,
        classify_loop bpf_prog_run tcf_exts_exec (pre ++ rest) st
          = classify_loop bpf_prog_run tcf_exts_exec rest st2 ∧
        st2.ran = st.ran ++ pre.map cls_bpf_prog.filter ∧
        (pre = [] → st2 = st) ∧ (pre ≠ [] → st2.ret = TC_ACT_UNSPEC) := by
  intro pre
  induction pre with
  | nil =>
    intro rest st _
    exact ⟨st, rfl, by simp, fun _ => rfl, fun h => absurd rfl h⟩
  | cons q pre ih =>
    intro rest st h
    obtain ⟨hq1, hq2⟩ := h q (List.mem_cons_self _ _)
    obtain ⟨st2, e1, e2, e3, e4⟩ := ih rest
      { ret := cls_bpf_exec_opcode (bpf_prog_run q.filter q.res.classid).1,
        res := { class_ := 0,
                 classid := TC_H_MAJ q.res.classid ||| (bpf_prog_run q.filter q.res.classid).2 },
        tc_classid := (bpf_prog_run q.filter q.res.classid).2,
        ran := st.ran ++ [q.filter] }
      (fun c hc => h c (List.mem_cons_of_mem _ hc))
    refine ⟨st2, ?_, ?_, fun h0 => absurd h0 (List.cons_ne_nil _ _), fun _ => ?_⟩
    · rw [← e1]
      simp only [List.cons_append, classify_loop, hq1, hq2, if_true]
      rfl
    · rw [e2]
      simp
    · by_cases hp : pre = []
      · rw [e3 hp]
        exact hq2
      · exact e4 hp

/-- C25, counterexample: for a packet whose MAC header is not set,
`cls_bpf_classify` on the list made of the integrated program
`integrated_prog`, which returns `TC_ACT_OK`, returns -1 and runs no program,
whereas `cls_bpf_exec_opcode` maps the result of the program to `TC_ACT_OK`,
which is not `TC_ACT_UNSPEC`. -/
theorem integrated_mode_counterexample :
    integrated_prog.exts_integrated = true ∧
    cls_bpf_exec_opcode ((fun _ tc => (TC_ACT_OK, tc)) integrated_prog.filter
      integrated_prog.res.classid : Int × Nat).1 = TC_ACT_OK ∧
    TC_ACT_OK ≠ TC_ACT_UNSPEC ∧
    (cls_bpf_classify false (fun _ tc => (TC_ACT_OK, tc)) (fun _ r => (0, r))
      [integrated_prog] { class_ := 0, classid := 0 } 0).ret = -1 ∧
    (cls_bpf_classify false (fun _ tc => (TC_ACT_OK, tc)) (fun _ r => (0, r))
      [integrated_prog] { class_ := 0, classid := 0 } 0).ran = [] := by
  refine ⟨rfl, by decide, by decide, by decide, by decide⟩

/-- C25 (amended): for a packet whose MAC header is set, `cls_bpf_classify`
runs the integrated programs in list order; its verdict is
`cls_bpf_exec_opcode` of the result of the first program for which this is not
`TC_ACT_UNSPEC`, and the programs run are those up to that one; if every
program maps to `TC_ACT_UNSPEC` (or the list is empty) all are run and the
verdict is `TC_ACT_UNSPEC`, which is -1. For a packet whose MAC header is not
set the verdict is -1 and no program is run. -/
theorem integrated_mode :
    (∀ (bpf_prog_run : Nat → Nat → Int × Nat)
      (tcf_exts_exec : Nat → tcf_result → Int × tcf_result)
      (pre post : List cls_bpf_prog) (p : cls_bpf_prog) (res : tcf_result) (tc_classid : Nat),
      (∀ q ∈ pre, q.exts_integrated = true ∧
        cls_bpf_exec_opcode (bpf_prog_run q.filter q.res.classid).1 = TC_ACT_UNSPEC) →
      p.exts_integrated = true →
      cls_bpf_exec_opcode (bpf_prog_run p.filter p.res.classid).1 ≠ TC_ACT_UNSPEC →
      (cls_bpf_classify true bpf_prog_run tcf_exts_exec (pre ++ p :: post) res tc_classid).ret
        = cls_bpf_exec_opcode (bpf_prog_run p.filter p.res.classid).1 ∧
      (cls_bpf_classify true bpf_prog_run tcf_exts_exec (pre ++ p :: post) res tc_classid).ran
        = (pre ++ [p]).map cls_bpf_prog.filter) ∧
    (∀ (bpf_prog_run : Nat → Nat → Int × Nat)
      (tcf_exts_exec : Nat → tcf_result → Int × tcf_result)
      (plist : List cls_bpf_prog) (res : tcf_result) (tc_classid : Nat),
      (∀ q ∈ plist, q.exts_integrated = true ∧
        cls_bpf_exec_opcode (bpf_prog_run q.filter q.res.classid).1 = TC_ACT_UNSPEC) →
      (cls_bpf_classify true bpf_prog_run tcf_exts_exec plist res tc_classid).ret
        = TC_ACT_UNSPEC ∧
      (cls_bpf_classify true bpf_prog_run tcf_exts_exec plist res tc_classid).ran
        = plist.map cls_bpf_prog.filter) ∧
    TC_ACT_UNSPEC = -1 ∧
    (∀ (bpf_prog_run : Nat → Nat → Int × Nat)
      (tcf_exts_exec : Nat → tcf_result → Int × tcf_result)
      (plist : List cls_bpf_prog) (res : tcf_result) (tc_classid : Nat),
      cls_bpf_classify false bpf_prog_run tcf_exts_exec plist res tc_classid
        = { ret := -1, res := res, tc_classid := tc_classid, ran := [] }) := by
  refine ⟨?_, ?_, rfl, fun _ _ _ _ _ => rfl⟩
  · intro bpf_prog_run tcf_exts_exec pre post p res tc_classid hpre hp1 hp2
    obtain ⟨st2, e1, e2, _, _⟩ := classify_loop_unspec bpf_prog_run tcf_exts_exec pre
      (p :: post) { ret := -1, res := res, tc_classid := tc_classid, ran := [] } hpre
    have hc : cls_bpf_classify true bpf_prog_run tcf_exts_exec (pre ++ p :: post) res tc_classid
        = classify_loop bpf_prog_run tcf_exts_exec (p :: post) st2 := by
      rw [← e1]
      rfl
    rw [hc]
    simp only [classify_loop, hp1, hp2, if_true, if_false, e2]
    simp
  · intro bpf_prog_run tcf_exts_exec plist res tc_classid hall
    obtain ⟨st2, e1, e2, e3, e4⟩ := classify_loop_unspec bpf_prog_run tcf_exts_exec plist
      [] { ret := -1, res := res, tc_classid := tc_classid, ran := [] } hall
    have hc : cls_bpf_classify true bpf_prog_run tcf_exts_exec plist res tc_classid = st2 := by
      have : cls_bpf_classify true bpf_prog_run tcf_exts_exec plist res tc_classid
          = classify_loop bpf_prog_run tcf_exts_exec (plist ++ [])
              { ret := -1, res := res, tc_classid := tc_classid, ran := [] } := by
        rw [List.append_nil]
        rfl
      rw [this, e1]
      rfl
    rw [hc]
    refine ⟨?_, by rw [e2]; simp⟩
    by_cases hp : plist = []
    · rw [e3 hp]
      rfl
    · exact e4 hp

/-- C25, witness: the program `integrated_prog` returns `TC_ACT_SHOT` and is
followed by a program that is not run; and the same program returning 1, which
maps to `TC_ACT_UNSPEC`. -/
theorem integrated_mode_witness :
    integrated_prog.exts_integrated = true ∧
    cls_bpf_exec_opcode ((fun _ tc => (TC_ACT_SHOT, tc)) integrated_prog.filter
      integrated_prog.res.classid : Int × Nat).1 ≠ TC_ACT_UNSPEC ∧
    (cls_bpf_classify true (fun _ tc => (TC_ACT_SHOT, tc)) (fun _ r => (0, r))
      ([] ++ integrated_prog :: [classic_prog]) { class_ := 0, classid := 0 } 0).ret
        = TC_ACT_SHOT ∧
    (cls_bpf_classify true (fun _ tc => (TC_ACT_SHOT, tc)) (fun _ r => (0, r))
      ([] ++ integrated_prog :: [classic_prog]) { class_ := 0, classid := 0 } 0).ran = [1] ∧
    (cls_bpf_classify true (fun _ tc => (1, tc)) (fun _ r => (0, r))
      [integrated_prog] { class_ := 0, classid := 0 } 0).ret = TC_ACT_UNSPEC :=
  have h := integrated_mode.1 (fun _ tc => (TC_ACT_SHOT, tc)) (fun _ r => (0, r)) []
    [classic_prog] integrated_prog { class_ := 0, classid := 0 } 0
    (fun _ hq => by cases hq) rfl (by decide)
  ⟨rfl, by decide, h.1, h.2,
    (integrated_mode.2.1 (fun _ tc => (1, tc)) (fun _ r => (0, r)) [integrated_prog]
      { class_ := 0, classid := 0 } 0 (fun q hq => by
        rw [List.mem_singleton] at hq
        subst hq
        exact ⟨rfl, by decide⟩)).1⟩

/-- The verdict and the result of the loop do not depend on the `tc_classid`
found in the packet nor on the programs run before. -/
theorem classify_loop_ret_res (bpf_prog_run : Nat → Nat → Int × Nat)
    (tcf_exts_exec : Nat → tcf_result → Int × tcf_result) :
    ∀ (plist : List cls_bpf_prog) (st st2 : classify_state),
      st.ret = st2.ret → st.res = st2.res →
      (classify_loop bpf_prog_run tcf_exts_exec plist st).ret
        = (classify_loop bpf_prog_run tcf_exts_exec plist st2).ret ∧
      (classify_loop bpf_prog_run tcf_exts_exec plist st).res
        = (classify_loop bpf_prog_run tcf_exts_exec plist st2).res := by
  intro plist
  induction plist with
  | nil => intro st st2 h1 h2; exact ⟨h1, h2⟩
  | cons p rest ih =>
    intro st st2 h1 h2
    simp only [classify_loop]
    by_cases hi : p.exts_integrated = true
    · simp only [if_pos hi]
      by_cases hu : cls_bpf_exec_opcode (bpf_prog_run p.filter p.res.classid).1 = TC_ACT_UNSPEC
      · simp only [if_pos hu]
        exact ih _ _ rfl rfl
      · simp only [if_neg hu]
        exact ⟨trivial, trivial⟩
    · simp only [if_neg hi]
      by_cases h0 : (bpf_prog_run p.filter p.res.classid).1 = 0
      · simp only [if_pos h0]
        exact ih _ _ h1 h2
      · simp only [if_neg h0]
        split <;> split <;> first | exact ih _ _ rfl rfl | exact ⟨rfl, rfl⟩

/-- C26: for a classic-mode program `p` met by the loop of `cls_bpf_classify`
in the state `st`, with `r` the result of the program: if `r` is 0 the loop
goes on to the next program with the verdict and the result untouched, so the
verdict and the result of the call are those the rest of the list gives from
`st`; otherwise the result is set to the configured result of the program if
`r` is -1, and to class 0 and class identifier `r` (as a `u32`) if not, and
`tcf_exts_exec` is called: if its verdict is not negative the loop stops with
that verdict and the result it leaves, and if it is negative the loop goes on
to the next program with them. -/
theorem classic_mode (bpf_prog_run : Nat → Nat → Int × Nat)
    (tcf_exts_exec : Nat → tcf_result → Int × tcf_result) (p : cls_bpf_prog)
    (rest : List cls_bpf_prog) (st : classify_state) (hclassic : p.exts_integrated = false) :
    ((bpf_prog_run p.filter p.res.classid).1 = 0 →
      classify_loop bpf_prog_run tcf_exts_exec (p :: rest) st
        = classify_loop bpf_prog_run tcf_exts_exec rest
            { ret := st.ret, res := st.res,
              tc_classid := (bpf_prog_run p.filter p.res.classid).2,
              ran := st.ran ++ [p.filter] } ∧
      (classify_loop bpf_prog_run tcf_exts_exec (p :: rest) st).ret
        = (classify_loop bpf_prog_run tcf_exts_exec rest st).ret ∧
      (classify_loop bpf_prog_run tcf_exts_exec (p :: rest) st).res
        = (classify_loop bpf_prog_run tcf_exts_exec rest st).res) ∧
    (∀ res1 : tcf_result, (bpf_prog_run p.filter p.res.classid).1 ≠ 0 →
      ((bpf_prog_run p.filter p.res.classid).1 = -1 → res1 = p.res) →
      ((bpf_prog_run p.filter p.res.classid).1 ≠ -1 → res1 =
        { class_ := 0,
          classid := ((bpf_prog_run p.filter p.res.classid).1 % 2 ^ 32).toNat }) →
      (0 ≤ (tcf_exts_exec p.exts res1).1 →
        classify_loop bpf_prog_run tcf_exts_exec (p :: rest) st
          = { ret := (tcf_exts_exec p.exts res1).1, res := (tcf_exts_exec p.exts res1).2,
              tc_classid := (bpf_prog_run p.filter p.res.classid).2,
              ran := st.ran ++ [p.filter] }) ∧
      ((tcf_exts_exec p.exts res1).1 < 0 →
        classify_loop bpf_prog_run tcf_exts_exec (p :: rest) st
          = classify_loop bpf_prog_run tcf_exts_exec rest
              { ret := (tcf_exts_exec p.exts res1).1, res := (tcf_exts_exec p.exts res1).2,
                tc_classid := (bpf_prog_run p.filter p.res.classid).2,
                ran := st.ran ++ [p.filter] })) := by
  constructor
  · intro h0
    have hstep : classify_loop bpf_prog_run tcf_exts_exec (p :: rest) st
        = classify_loop bpf_prog_run tcf_exts_exec rest
            { ret := st.ret, res := st.res,
              tc_classid := (bpf_prog_run p.filter p.res.classid).2,
              ran := st.ran ++ [p.filter] } := by
      simp only [classify_loop, hclassic, h0, if_true]
      rfl
    refine ⟨hstep, ?_⟩
    rw [hstep]
    exact classify_loop_ret_res bpf_prog_run tcf_exts_exec rest _ st rfl rfl
  · intro res1 hne h1 h2
    have hres : res1 = (if (bpf_prog_run p.filter p.res.classid).1 ≠ -1 then
        ({ class_ := 0,
           classid := ((bpf_prog_run p.filter p.res.classid).1 % 2 ^ 32).toNat } : tcf_result)
        else p.res) := by
      by_cases h : (bpf_prog_run p.filter p.res.classid).1 = -1
      · rw [if_neg (fun hn => hn h)]
        exact h1 h
      · rw [if_pos h]
        exact h2 h
    subst hres
    constructor
    · intro hv
      simp only [classify_loop, hclassic, hne, if_false, not_lt.mpr hv]
      rfl
    · intro hv
      simp only [classify_loop, hclassic, hne, if_false, hv, if_true]
      rfl

/-- C26, witness: the classic program `classic_prog` returning 0, and
returning -1 with an extension stage that accepts. -/
theorem classic_mode_witness :
    classic_prog.exts_integrated = false ∧
    (classify_loop (fun _ tc => (0, tc)) (fun _ r => (0, r)) (classic_prog :: [])
      { ret := -1, res := { class_ := 0, classid := 0 }, tc_classid := 0, ran := [] }).ret
        = -1 ∧
    classify_loop (fun _ tc => (-1, tc)) (fun _ r => (0, r)) (classic_prog :: [])
      { ret := -1, res := { class_ := 0, classid := 0 }, tc_classid := 0, ran := [] }
        = { ret := 0, res := { class_ := 5, classid := 6 }, tc_classid := 6, ran := [2] } :=
  ⟨rfl,
    ((classic_mode (fun _ tc => (0, tc)) (fun _ r => (0, r)) classic_prog []
      { ret := -1, res := { class_ := 0, classid := 0 }, tc_classid := 0, ran := [] }
      rfl).1 rfl).2.1,
    ((classic_mode (fun _ tc => (-1, tc)) (fun _ r => (0, r)) classic_prog []
      { ret := -1, res := { class_ := 0, classid := 0 }, tc_classid := 0, ran := [] }
      rfl).2 classic_prog.res (by decide) (fun _ => rfl) (fun h => absurd rfl h)).1
      (by decide)⟩

/-! ## Failed checks leave the state as it was -/

/-- C31: a call of `__cgroup_bpf_attach` that returns `-EINVAL`, `-EPERM` or
`-E2BIG`, and a call of `__cgroup_bpf_detach` that returns `-EINVAL` or
`-ENOENT`, leaves the whole state as it was before the call: every list, every
flags word and every published array. -/
theorem validation_atomic (s : State) (cgrp prog type flags : Nat) (dprog : Option Nat)
    (pl_ok : Bool) (arr_ok : Nat → Bool) :
    (((__cgroup_bpf_attach s cgrp prog type flags pl_ok arr_ok).1 = -EINVAL ∨
      (__cgroup_bpf_attach s cgrp prog type flags pl_ok arr_ok).1 = -EPERM ∨
      (__cgroup_bpf_attach s cgrp prog type flags pl_ok arr_ok).1 = -E2BIG) →
      (__cgroup_bpf_attach s cgrp prog type flags pl_ok arr_ok).2 = s ∧
      (__cgroup_bpf_attach s cgrp prog type flags pl_ok arr_ok).2.progs = s.progs ∧
      (__cgroup_bpf_attach s cgrp prog type flags pl_ok arr_ok).2.flags = s.flags ∧
      (__cgroup_bpf_attach s cgrp prog type flags pl_ok arr_ok).2.effective = s.effective) ∧
    (((__cgroup_bpf_detach s cgrp dprog type arr_ok).1 = -EINVAL ∨
      (__cgroup_bpf_detach s cgrp dprog type arr_ok).1 = -ENOENT) →
      (__cgroup_bpf_detach s cgrp dprog type arr_ok).2 = s ∧
      (__cgroup_bpf_detach s cgrp dprog type arr_ok).2.progs = s.progs ∧
      (__cgroup_bpf_detach s cgrp dprog type arr_ok).2.flags = s.flags ∧
      (__cgroup_bpf_detach s cgrp dprog type arr_ok).2.effective = s.effective) := by
  have h1 : ¬ ((-ENOMEM : Int) = -EINVAL) := by decide
  have h2 : ¬ ((-ENOMEM : Int) = -EPERM) := by decide
  have h3 : ¬ ((-ENOMEM : Int) = -E2BIG) := by decide
  have h4 : ¬ ((0 : Int) = -EINVAL) := by decide
  have h5 : ¬ ((0 : Int) = -EPERM) := by decide
  have h6 : ¬ ((0 : Int) = -E2BIG) := by decide
  have h7 : ¬ ((0 : Int) = -ENOENT) := by decide
  constructor
  · intro h
    rcases attach_cases s cgrp prog type flags pl_ok arr_ok with
      ⟨err, _, he⟩ | ⟨progs1, idx, old_prog, alloc, _, _, ⟨_, he⟩ | ⟨_, he⟩⟩
    · rw [he]; exact ⟨rfl, rfl, rfl, rfl⟩
    · rw [he] at h
      rcases h with h | h | h
      · exact absurd h h1
      · exact absurd h h2
      · exact absurd h h3
    · rw [he] at h
      rcases h with h | h | h
      · exact absurd h h4
      · exact absurd h h5
      · exact absurd h h6
  · intro h
    rcases detach_cases s cgrp dprog type arr_ok with ⟨err, _, he⟩ | ⟨idx, old_prog, _, _, he⟩
    · rw [he]; exact ⟨rfl, rfl, rfl, rfl⟩
    · rw [he] at h
      rcases h with h | h
      · exact absurd h h4
      · exact absurd h h7

/-- C31, witness: on `inherit_state` an attach to the child 1 is refused with
`-EPERM` (the root holds a program that cannot be overridden) and a detach from
the child 1 is refused with `-ENOENT`; both leave the state as it was. -/
theorem validation_atomic_witness :
    (__cgroup_bpf_attach inherit_state 1 9 0 0 true (fun _ => true)).1 = -EPERM ∧
    (__cgroup_bpf_detach inherit_state 1 none 0 (fun _ => true)).1 = -ENOENT ∧
    (__cgroup_bpf_attach inherit_state 1 9 0 0 true (fun _ => true)).2 = inherit_state ∧
    (__cgroup_bpf_detach inherit_state 1 none 0 (fun _ => true)).2 = inherit_state :=
  ⟨by decide, by decide,
    ((validation_atomic inherit_state 1 9 0 0 none true (fun _ => true)).1
      (Or.inr (Or.inl (by decide)))).1,
    ((validation_atomic inherit_state 1 9 0 0 none true (fun _ => true)).2
      (Or.inr (by decide))).1⟩

/-! ## The counting walk and the filling walk -/

theorem count_effective_eq (s : State) (type : Nat) :
    ∀ (l : List Nat) (arr : List Nat),
      count_effective s type l arr.length = (fill_effective s type l arr).length := by
  intro l
  induction l with
  | nil => intro arr; rfl
  | cons p rest ih =>
    intro arr
    simp only [count_effective, fill_effective]
    by_cases h : arr.length = 0 ∨ allow_multi (s.flags p type) = true
    · rw [if_pos h, if_pos h, ← ih, List.length_append, prog_list_length_eq]
    · rw [if_neg h, if_neg h, ih]

theorem count_effective_ge (s : State) (type : Nat) :
    ∀ (l : List Nat) (cnt : Nat), cnt ≤ count_effective s type l cnt := by
  intro l
  induction l with
  | nil => intro cnt; exact Nat.le_refl _
  | cons p rest ih =>
    intro cnt
    simp only [count_effective]
    split
    · exact Nat.le_trans (Nat.le_add_right _ _) (ih _)
    · exact ih _

theorem set_append_length (a : List (Option Nat)) (x y : Option Nat) (b : List (Option Nat)) :
    (a ++ x :: b).set a.length y = a ++ y :: b := by
  induction a with
  | nil => rfl
  | cons z a ih => simp only [List.cons_append, List.length_cons, List.set_cons_succ, ih]

theorem populate_list_eq :
    ∀ (pl : List (Option Nat)) (arr : List Nat) (k : Nat), prog_list_length pl ≤ k →
      populate_list pl (arr.map some ++ List.replicate k none) arr.length =
        some ((arr ++ live_progs pl).map some ++ List.replicate (k - prog_list_length pl) none,
          arr.length + prog_list_length pl) := by
  intro pl
  induction pl with
  | nil => intro arr k _; simp [populate_list, live_progs, prog_list_length]
  | cons x head ih =>
    intro arr k hk
    cases x with
    | none =>
      simp only [populate_list, live_progs, prog_list_length] at hk ⊢
      exact ih arr k hk
    | some prog =>
      simp only [prog_list_length] at hk
      obtain ⟨k1, rfl⟩ : ∃ k1, k = k1 + 1 := ⟨k - 1, by omega⟩
      have hlen : arr.length < (arr.map some ++ List.replicate (k1 + 1) none).length := by
        simp
      simp only [populate_list, live_progs, prog_list_length]
      rw [if_pos hlen]
      have hset : (arr.map some ++ List.replicate (k1 + 1) none).set arr.length (some prog)
          = (arr ++ [prog]).map some ++ List.replicate k1 none := by
        have := set_append_length (arr.map some) none (some prog) (List.replicate k1 none)
        rw [List.length_map] at this
        rw [List.replicate_succ, this]
        simp
      rw [hset]
      have := ih (arr ++ [prog]) k1 (by omega)
      rw [List.length_append, List.length_singleton] at this
      rw [this]
      have e1 : k1 + 1 - (prog_list_length head + 1) = k1 - prog_list_length head := by omega
      have e2 : arr.length + 1 + prog_list_length head
          = arr.length + (prog_list_length head + 1) := by omega
      rw [e1, e2, List.append_assoc]
      rfl

theorem populate_array_eq (s : State) (type : Nat) :
    ∀ (l : List Nat) (arr : List Nat) (k m : Nat),
      k + arr.length = count_effective s type l arr.length + m →
      populate_array s type l (arr.map some ++ List.replicate k none) arr.length =
        some ((fill_effective s type l arr).map some ++ List.replicate m none,
          count_effective s type l arr.length) := by
  intro l
  induction l with
  | nil =>
    intro arr k m h
    simp only [count_effective] at h
    have : k = m := by omega
    subst this
    rfl
  | cons p rest ih =>
    intro arr k m h
    simp only [count_effective, fill_effective, populate_array] at h ⊢
    by_cases hc : arr.length = 0 ∨ allow_multi (s.flags p type) = true
    · rw [if_pos hc] at h
      rw [if_pos hc, if_pos hc, if_pos hc]
      have hge := count_effective_ge s type rest (arr.length + prog_list_length (s.progs p type))
      rw [populate_list_eq (s.progs p type) arr k (by omega)]
      simp only []
      have := ih (arr ++ live_progs (s.progs p type)) (k - prog_list_length (s.progs p type)) m
        (by rw [List.length_append, ← prog_list_length_eq]; omega)
      rw [List.length_append, ← prog_list_length_eq] at this
      exact this
    · rw [if_neg hc] at h
      rw [if_neg hc, if_neg hc, if_neg hc]
      exact ih arr k m h

/-- C33: in `compute_effective_progs`, for every state, cgroup and attach
type, the number `cnt` of the counting walk is the number of programs that the
filling walk writes; on an array of `cnt` zeroed entries every write of the
filling walk falls inside the array, the final write index is `cnt`, and the
array holds exactly the programs of the chain, with no entry left unwritten. -/
theorem count_agrees_with_fill (s : State) (cgrp type : Nat) :
    count_effective s type (cgroup_path s cgrp) 0
      = (fill_effective s type (cgroup_path s cgrp) []).length ∧
    compute_effective_array s cgrp type
      = some ((fill_effective s type (cgroup_path s cgrp) []).map some,
          count_effective s type (cgroup_path s cgrp) 0) ∧
    compute_effective_progs s cgrp type true
      = Except.ok (fill_effective s type (cgroup_path s cgrp) []) := by
  refine ⟨count_effective_eq s type _ [], ?_, compute_effective_progs_ok s cgrp type⟩
  have := populate_array_eq s type (cgroup_path s cgrp) [] 
    (count_effective s type (cgroup_path s cgrp) 0) 0 (by simp)
  simpa [compute_effective_array] using this

/-! ## cls_bpf_exec_opcode -/

/-- C38: for every integer `code`, `cls_bpf_exec_opcode code` is `code` when
`code` is one of `TC_ACT_OK`, `TC_ACT_SHOT`, `TC_ACT_STOLEN`,
`TC_ACT_REDIRECT`, `TC_ACT_UNSPEC`, and `TC_ACT_UNSPEC` otherwise; its value is
always one of the five codes, and applying it twice is applying it once. -/
theorem opcode_mapping (code : Int) :
    ((code = TC_ACT_OK ∨ code = TC_ACT_SHOT ∨ code = TC_ACT_STOLEN ∨
        code = TC_ACT_REDIRECT ∨ code = TC_ACT_UNSPEC) → cls_bpf_exec_opcode code = code) ∧
    (¬ (code = TC_ACT_OK ∨ code = TC_ACT_SHOT ∨ code = TC_ACT_STOLEN ∨
        code = TC_ACT_REDIRECT ∨ code = TC_ACT_UNSPEC) →
      cls_bpf_exec_opcode code = TC_ACT_UNSPEC) ∧
    (cls_bpf_exec_opcode code = TC_ACT_OK ∨ cls_bpf_exec_opcode code = TC_ACT_SHOT ∨
      cls_bpf_exec_opcode code = TC_ACT_STOLEN ∨ cls_bpf_exec_opcode code = TC_ACT_REDIRECT ∨
      cls_bpf_exec_opcode code = TC_ACT_UNSPEC) ∧
    cls_bpf_exec_opcode (cls_bpf_exec_opcode code) = cls_bpf_exec_opcode code := by
  have hin : (code = TC_ACT_OK ∨ code = TC_ACT_SHOT ∨ code = TC_ACT_STOLEN ∨
      code = TC_ACT_REDIRECT ∨ code = TC_ACT_UNSPEC) → cls_bpf_exec_opcode code = code := by
    intro h
    unfold cls_bpf_exec_opcode
    rw [if_pos h]
  have hout : ¬ (code = TC_ACT_OK ∨ code = TC_ACT_SHOT ∨ code = TC_ACT_STOLEN ∨
      code = TC_ACT_REDIRECT ∨ code = TC_ACT_UNSPEC) →
      cls_bpf_exec_opcode code = TC_ACT_UNSPEC := by
    intro h
    unfold cls_bpf_exec_opcode
    rw [if_neg h]
  have hunspec : cls_bpf_exec_opcode TC_ACT_UNSPEC = TC_ACT_UNSPEC := by decide
  refine ⟨hin, hout, ?_, ?_⟩
  · by_cases h : code = TC_ACT_OK ∨ code = TC_ACT_SHOT ∨ code = TC_ACT_STOLEN ∨
        code = TC_ACT_REDIRECT ∨ code = TC_ACT_UNSPEC
    · rw [hin h]; exact h
    · rw [hout h]; exact Or.inr (Or.inr (Or.inr (Or.inr rfl)))
  · by_cases h : code = TC_ACT_OK ∨ code = TC_ACT_SHOT ∨ code = TC_ACT_STOLEN ∨
        code = TC_ACT_REDIRECT ∨ code = TC_ACT_UNSPEC
    · rw [hin h]; exact hin h
    · rw [hout h, hunspec]

/-- C38, witness: the code `TC_ACT_SHOT` is kept and the code 5, which is none
of the five, is mapped to `TC_ACT_UNSPEC`. -/
theorem opcode_mapping_witness :
    cls_bpf_exec_opcode 2 = 2 ∧ cls_bpf_exec_opcode 5 = -1 :=
  ⟨(opcode_mapping 2).1 (Or.inr (Or.inl rfl)), (opcode_mapping 5).2.1 (by decide)⟩

/-! ## The length of a chain -/

theorem fill_effective_length_le (s : State) (type B : Nat)
    (hb : ∀ n, prog_list_length (s.progs n type) ≤ B) :
    ∀ (l : List Nat) (arr : List Nat),
      (fill_effective s type l arr).length ≤ arr.length + B * l.length := by
  intro l
  induction l with
  | nil => intro arr; simp [fill_effective]
  | cons p rest ih =>
    intro arr
    simp only [fill_effective, List.length_cons]
    have hp := hb p
    rw [prog_list_length_eq] at hp
    split
    · have := ih (arr ++ live_progs (s.progs p type))
      rw [List.length_append] at this
      rw [Nat.mul_succ]
      omega
    · have := ih arr
      rw [Nat.mul_succ]
      omega

/-- C39: in every state reached from a state with an empty registry (all lists
empty, any tree) by attach calls, detach calls and creations of cgroups, for
every cgroup `n` and attach type `h` the chain of `compute_effective_progs` has
at most `64 × depth` programs, where `depth` is the number of cgroups on the
walk from `n` up to the root. -/
theorem chain_length_bound (NR : Nat) (ops : List Op) (s : State)
    (hempty : ∀ n t, s.progs n t = []) (n h : Nat) :
    ∃ array, compute_effective_progs (run NR s ops) n h true = Except.ok array ∧
      array.length ≤ 64 * (cgroup_path (run NR s ops) n).length ∧
      BPF_CGROUP_MAX_PROGS = 64 := by
  refine ⟨_, compute_effective_progs_ok _ n h, ?_, rfl⟩
  have hb := run_progs_bound NR ops s (fun n t => by rw [hempty]; exact Nat.zero_le _)
  have := fill_effective_length_le (run NR s ops) h 64 (fun m => hb m h)
    (cgroup_path (run NR s ops) n) []
  simpa using this

/-- C39, witness: after two attaches with `BPF_F_ALLOW_MULTI` to the root of
`root_state` the chain of the root has at most 64 programs. -/
theorem chain_length_bound_witness :
    (∀ n t, root_state.progs n t = []) ∧
    ∃ array, compute_effective_progs (run 1 root_state
        [Op.attach 0 7 0 BPF_F_ALLOW_MULTI true (fun _ => true),
         Op.attach 0 9 0 BPF_F_ALLOW_MULTI true (fun _ => true)]) 0 0 true = Except.ok array ∧
      array.length ≤ 64 * (cgroup_path (run 1 root_state
        [Op.attach 0 7 0 BPF_F_ALLOW_MULTI true (fun _ => true),
         Op.attach 0 9 0 BPF_F_ALLOW_MULTI true (fun _ => true)]) 0).length ∧
      BPF_CGROUP_MAX_PROGS = 64 :=
  ⟨fun _ _ => rfl, chain_length_bound 1 _ root_state (fun _ _ => rfl) 0 0⟩

/-! ## cgroup_bpf_inherit publishes all chains or none -/

/-- C37: `cgroup_bpf_inherit` either returns 0 and has published, for every
attach type `t` below `NR`, the chain that `compute_effective_progs` gives for
the cgroup, which is the chain of its parent (the empty chain for a cgroup
without parent), the lists of the cgroup being empty; or it returns `-ENOMEM`
and no published array has changed, so that a newly created cgroup has no
published array at all. -/
theorem inherit_all_or_nothing (s : State) (cgrp NR : Nat) (arr_ok : Nat → Bool) :
    ((cgroup_bpf_inherit s cgrp NR arr_ok).1 = 0 ∧
      ∀ t, t < NR →
        ∃ chain, (cgroup_bpf_inherit s cgrp NR arr_ok).2.effective cgrp t = some chain ∧
          (cgroup_bpf_inherit s cgrp NR arr_ok).2.progs cgrp t = [] ∧
          compute_effective_progs (cgroup_bpf_inherit s cgrp NR arr_ok).2 cgrp t true
            = Except.ok chain ∧
          (∀ p, s.parent cgrp = some p →
            compute_effective_progs (cgroup_bpf_inherit s cgrp NR arr_ok).2 p t true
              = Except.ok chain) ∧
          (s.parent cgrp = none → chain = [])) ∨
    ((cgroup_bpf_inherit s cgrp NR arr_ok).1 = -ENOMEM ∧
      (cgroup_bpf_inherit s cgrp NR arr_ok).2.effective = s.effective ∧
      ∀ (s0 : State) (parent : Option (Fin s0.nr)), s = cgroup_create s0 parent →
        cgrp = s0.nr → ∀ t, (cgroup_bpf_inherit s cgrp NR arr_ok).2.effective cgrp t = none) := by
  rcases cgroup_bpf_inherit_cases s cgrp NR arr_ok with he | he
  · right
    rw [he]
    refine ⟨rfl, rfl, ?_⟩
    intro s0 parent hs hc t
    subst hs
    subst hc
    show (if s0.nr = s0.nr then none else s0.effective s0.nr t) = none
    rw [if_pos rfl]
  · left
    have h0 : (cgroup_bpf_inherit s cgrp NR arr_ok).1 = 0 := by rw [he]
    refine ⟨h0, ?_⟩
    obtain ⟨_, hpar, hprogs, hflags, heff⟩ := cgroup_bpf_inherit_ok s cgrp NR arr_ok h0
    generalize (cgroup_bpf_inherit s cgrp NR arr_ok).2 = r at *
    intro t ht
    have hpath : ∀ m, cgroup_path r m = cgroup_path s m :=
      fun m => cgroup_path_congr r s m (fun _ _ => by rw [hpar])
    have hfill : ∀ l arr, fill_effective r t l arr
        = fill_effective (init_list_heads s cgrp NR) t l arr := by
      intro l arr
      apply fill_effective_congr
      intro p _
      have e1 : r.progs p t = (init_list_heads s cgrp NR).progs p t := by rw [hprogs]; rfl
      have e2 : r.flags p t = (init_list_heads s cgrp NR).flags p t := by rw [hflags]; rfl
      rw [e1, e2]
      exact ⟨rfl, Or.inl rfl⟩
    have hown : r.progs cgrp t = [] := by rw [hprogs, if_pos ⟨rfl, ht⟩]
    refine ⟨fill_effective (init_list_heads s cgrp NR) t (cgroup_path s cgrp) [], ?_, hown, ?_,
      ?_, ?_⟩
    · rw [heff, if_pos ⟨rfl, ht⟩]
    · rw [compute_effective_progs_ok, hpath, hfill]
    · intro p hp
      rw [compute_effective_progs_ok, hpath, ← hfill, cgroup_path_child s cgrp p hp,
        fill_effective_cons, hown]
      simp [live_progs]
    · intro hp
      rw [← hfill, cgroup_path_root s cgrp hp, fill_effective_cons, hown]
      simp [live_progs, fill_effective]

/-- C37, witness: a child created below the root of `inherit_state`, whose
chain for attach type 0 is `[7]`: with both allocations succeeding the child
gets the chain `[7]` of its parent for attach type 0; with the second
allocation failing it gets no published array. -/
theorem inherit_all_or_nothing_witness :
    (cgroup_bpf_inherit (cgroup_create inherit_state (some ⟨0, by decide⟩)) 2 2
      (fun _ => true)).1 = 0 ∧
    (cgroup_bpf_inherit (cgroup_create inherit_state (some ⟨0, by decide⟩)) 2 2
      (fun _ => true)).2.effective 2 0 = some [7] ∧
    (cgroup_bpf_inherit (cgroup_create inherit_state (some ⟨0, by decide⟩)) 2 2
      (fun t => decide (t = 0))).1 = -ENOMEM ∧
    ∀ t, (cgroup_bpf_inherit (cgroup_create inherit_state (some ⟨0, by decide⟩)) 2 2
      (fun t => decide (t = 0))).2.effective 2 t = none :=
  ⟨by decide, by decide, by decide,
    (inherit_all_or_nothing (cgroup_create inherit_state (some ⟨0, by decide⟩)) 2 2
      (fun t => decide (t = 0))).elim
      (fun h => absurd h.1 (by decide))
      (fun h => h.2.2 inherit_state (some ⟨0, by decide⟩) rfl rfl)⟩

/-! ## The five-level example -/

/-- C35: on the chain of cgroups 0 (`BPF_F_ALLOW_MULTI`, programs `A = 10` then
`B = 11`), 1 (`BPF_F_ALLOW_OVERRIDE`, `C = 12`), 2 (`BPF_F_ALLOW_MULTI`,
`D = 13`), 3 (`BPF_F_ALLOW_OVERRIDE`, `E = 14`), 4 (no flags, `F = 15`), every
attach returns 0 and builds that configuration, and the chain of cgroup 4 is
`[F, D, A, B]`; after the detach of `F` it is `[E, D, A, B]`, after the
detaches of `F` and `D` it is `[E, A, B]`, and after the detaches of `F`, `D`
and `E` it is `[C, A, B]`; every detach returns 0 and the published chain of
cgroup 4 is the same chain. -/
theorem five_level_composition :
    (attach_all five_level_empty five_level_attaches).1 = [0, 0, 0, 0, 0, 0] ∧
    ((List.range 5).map (fun n => five_level_state.progs n 0)
      = [[some 10, some 11], [some 12], [some 13], [some 14], [some 15]] ∧
     (List.range 5).map (fun n => five_level_state.flags n 0)
      = [BPF_F_ALLOW_MULTI, BPF_F_ALLOW_OVERRIDE, BPF_F_ALLOW_MULTI, BPF_F_ALLOW_OVERRIDE, 0]) ∧
    (compute_effective_progs five_level_state 4 0 true = Except.ok [15, 13, 10, 11] ∧
      five_level_state.effective 4 0 = some [15, 13, 10, 11]) ∧
    (five_level_detach_F.1 = 0 ∧
      compute_effective_progs five_level_detach_F.2 4 0 true = Except.ok [14, 13, 10, 11] ∧
      five_level_detach_F.2.effective 4 0 = some [14, 13, 10, 11]) ∧
    (five_level_detach_FD.1 = 0 ∧
      compute_effective_progs five_level_detach_FD.2 4 0 true = Except.ok [14, 10, 11] ∧
      five_level_detach_FD.2.effective 4 0 = some [14, 10, 11]) ∧
    (five_level_detach_FDE.1 = 0 ∧
      compute_effective_progs five_level_detach_FDE.2 4 0 true = Except.ok [12, 10, 11] ∧
      five_level_detach_FDE.2.effective 4 0 = some [12, 10, 11]) :=
  ⟨by decide, ⟨by decide, by decide⟩, ⟨rfl, by decide⟩, ⟨by decide, rfl, by decide⟩,
    ⟨by decide, rfl, by decide⟩, ⟨by decide, rfl, by decide⟩⟩

/-! ## Handles -/

theorem grab_new_handle_step_plist (head : cls_bpf_head) :
    (grab_new_handle_step head).plist = head.plist := rfl

theorem grab_new_handle_step_hgen (head : cls_bpf_head) (h : head.hgen ≤ 0x7FFFFFFE) :
    (grab_new_handle_step head).hgen = head.hgen % 0x7FFFFFFE + 1 := by
  show (if (head.hgen + 1) % 2 ^ 32 = 0x7FFFFFFF then 1 else (head.hgen + 1) % 2 ^ 32) = _
  split <;> omega

theorem cls_bpf_get_plist (a b : cls_bpf_head) (h : a.plist = b.plist) (handle : Nat) :
    cls_bpf_get (some a) handle = cls_bpf_get (some b) handle := by
  show a.plist.find? _ = b.plist.find? _
  rw [h]

theorem grab_new_handle_loop_succ (i : Nat) (head : cls_bpf_head) :
    grab_new_handle_loop (i + 1) head =
      if 0 < i ∧ (cls_bpf_get (some (grab_new_handle_step head))
          (grab_new_handle_step head).hgen).isSome then
        grab_new_handle_loop i (grab_new_handle_step head)
      else (i, grab_new_handle_step head) := rfl

theorem grab_new_handle_loop_plist :
    ∀ (i : Nat) (head : cls_bpf_head), (grab_new_handle_loop i head).2.plist = head.plist := by
  intro i
  induction i with
  | zero => intro head; rfl
  | succ i ih =>
    intro head
    rw [grab_new_handle_loop_succ]
    split
    · rw [ih]; rfl
    · rfl

theorem grab_new_handle_loop_range :
    ∀ (i : Nat) (head : cls_bpf_head), head.hgen ≤ 0x7FFFFFFE → 1 ≤ i →
      1 ≤ (grab_new_handle_loop i head).2.hgen ∧
      (grab_new_handle_loop i head).2.hgen ≤ 0x7FFFFFFE ∧
      ((grab_new_handle_loop i head).1 ≠ 0 →
        cls_bpf_get (some (grab_new_handle_loop i head).2)
          (grab_new_handle_loop i head).2.hgen = none) := by
  intro i
  induction i with
  | zero => intro head _ hi; omega
  | succ i ih =>
    intro head hh _
    have hnext := grab_new_handle_step_hgen head hh
    rw [grab_new_handle_loop_succ]
    split
    · rename_i hc
      exact ih _ (by rw [hnext]; omega) hc.1
    · rename_i hc
      refine ⟨by rw [hnext]; omega, by rw [hnext]; omega, ?_⟩
      intro hi
      have hi' : 0 < i := Nat.pos_of_ne_zero hi
      by_contra hne
      apply hc
      refine ⟨hi', ?_⟩
      rw [Option.isSome_iff_ne_none]
      exact hne

theorem grab_new_handle_loop_used :
    ∀ (i : Nat) (head : cls_bpf_head), head.hgen ≤ 0x7FFFFFFE → 1 ≤ i →
      (grab_new_handle_loop i head).1 = 0 →
      ∀ j, 1 ≤ j → j < i →
        cls_bpf_get (some head) ((head.hgen + j - 1) % 0x7FFFFFFE + 1) ≠ none := by
  intro i
  induction i with
  | zero => intro head _ hi; omega
  | succ i ih =>
    intro head hh _ h0 j hj1 hj2
    have hnext := grab_new_handle_step_hgen head hh
    rw [grab_new_handle_loop_succ] at h0
    split at h0
    · rename_i hc
      by_cases hj : j = 1
      · subst hj
        have := hc.2
        rw [Option.isSome_iff_ne_none, hnext,
          cls_bpf_get_plist _ head (grab_new_handle_step_plist head)] at this
        have e : (head.hgen + 1 - 1) % 0x7FFFFFFE + 1 = head.hgen % 0x7FFFFFFE + 1 := by omega
        rw [e]
        exact this
      · have := ih _ (by rw [hnext]; omega) hc.1 h0 (j - 1) (by omega) (by omega)
        rw [hnext, cls_bpf_get_plist _ head (grab_new_handle_step_plist head)] at this
        have e : (head.hgen % 0x7FFFFFFE + 1 + (j - 1) - 1) % 0x7FFFFFFE + 1
            = (head.hgen + j - 1) % 0x7FFFFFFE + 1 := by omega
        rw [e] at this
        exact this
    · have : i = 0 := h0
      omega

/-- C40: for every head with `hgen < 0x7FFFFFFF`, whatever the programs of its
list are, `cls_bpf_grab_new_handle` (a total function: its loop runs at most
`0x80000000` times) leaves the list as it is and `hgen` below `0x7FFFFFFF`, and
returns 0 or a handle `h` with `1 ≤ h ≤ 0x7FFFFFFE` for which `cls_bpf_get`
finds no program; it returns 0 only if `cls_bpf_get` finds a program for every
handle of that range. -/
theorem handle_allocation (head : cls_bpf_head) (hgen : head.hgen < 0x7FFFFFFF) :
    (cls_bpf_grab_new_handle head).2.hgen < 0x7FFFFFFF ∧
    (cls_bpf_grab_new_handle head).2.plist = head.plist ∧
    ((cls_bpf_grab_new_handle head).1 = 0 ∨
      (1 ≤ (cls_bpf_grab_new_handle head).1 ∧ (cls_bpf_grab_new_handle head).1 ≤ 0x7FFFFFFE ∧
        (cls_bpf_grab_new_handle head).1 = (cls_bpf_grab_new_handle head).2.hgen ∧
        cls_bpf_get (some (cls_bpf_grab_new_handle head).2) (cls_bpf_grab_new_handle head).1
          = none ∧
        cls_bpf_get (some head) (cls_bpf_grab_new_handle head).1 = none)) ∧
    ((cls_bpf_grab_new_handle head).1 = 0 →
      ∀ h, 1 ≤ h → h ≤ 0x7FFFFFFE → cls_bpf_get (some head) h ≠ none) := by
  have hle : head.hgen ≤ 0x7FFFFFFE := by omega
  obtain ⟨h1, h2, h3⟩ := grab_new_handle_loop_range 0x80000000 head hle (by decide)
  have hpl := grab_new_handle_loop_plist 0x80000000 head
  have hused := grab_new_handle_loop_used 0x80000000 head hle (by decide)
  unfold cls_bpf_grab_new_handle
  simp only []
  generalize grab_new_handle_loop 0x80000000 head = r at *
  by_cases hr : r.1 = 0
  · rw [if_pos hr]
    refine ⟨by show r.2.hgen < _; omega, hpl, Or.inl rfl, ?_⟩
    intro _ h hh1 hh2
    by_cases hlt : head.hgen < h
    · have := hused hr (h - head.hgen) (by omega) (by omega)
      have e : (head.hgen + (h - head.hgen) - 1) % 0x7FFFFFFE + 1 = h := by omega
      rw [e] at this
      exact this
    · have := hused hr (h + 0x7FFFFFFE - head.hgen) (by omega) (by omega)
      have e : (head.hgen + (h + 0x7FFFFFFE - head.hgen) - 1) % 0x7FFFFFFE + 1 = h := by omega
      rw [e] at this
      exact this
  · rw [if_neg hr]
    refine ⟨by show r.2.hgen < _; omega, hpl, Or.inr ⟨h1, h2, rfl, h3 hr, ?_⟩, ?_⟩
    · rw [← cls_bpf_get_plist r.2 head hpl]
      exact h3 hr
    · intro h0
      have h0' : r.2.hgen = 0 := h0
      omega

/-- C40, witness: a head whose generator is 0 and whose list holds the programs
with the handles 1 and 2; the handle returned is 3. -/
theorem handle_allocation_witness :
    (0 : Nat) < 0x7FFFFFFF ∧
    (cls_bpf_grab_new_handle { plist := [integrated_prog, classic_prog], hgen := 0 }).1 = 3 ∧
    (cls_bpf_grab_new_handle { plist := [integrated_prog, classic_prog], hgen := 0 }).2.hgen
      < 0x7FFFFFFF ∧
    ((cls_bpf_grab_new_handle { plist := [integrated_prog, classic_prog], hgen := 0 }).1 = 0 →
      ∀ h, 1 ≤ h → h ≤ 0x7FFFFFFE →
        cls_bpf_get (some { plist := [integrated_prog, classic_prog], hgen := 0 }) h ≠ none) :=
  ⟨by decide, by decide,
    (handle_allocation { plist := [integrated_prog, classic_prog], hgen := 0 } (by decide)).1,
    (handle_allocation { plist := [integrated_prog, classic_prog], hgen := 0 }
      (by decide)).2.2.2⟩

/-! ## What a call does to the lists, the flags and the key -/

theorem attach_list_ok_cases (progs : List (Option Nat)) (prog flags : Nat) (pl_ok : Bool)
    (progs1 : List (Option Nat)) (idx : Nat) (old_prog : Option Nat) (alloc : Bool)
    (h : attach_list progs prog flags pl_ok = Except.ok (progs1, idx, old_prog, alloc)) :
    (allow_multi flags = true ∧ some prog ∉ progs ∧ progs1 = progs ++ [some prog] ∧
      old_prog = none) ∨
    (allow_multi flags = false ∧ progs = [] ∧ progs1 = [some prog] ∧ old_prog = none) ∨
    (allow_multi flags = false ∧ progs ≠ [] ∧ progs1 = progs.set 0 (some prog) ∧
      old_prog = progs.head?.join) := by
  cases hm : allow_multi flags with
  | true =>
    left
    obtain ⟨h1, h2, h3⟩ := attach_list_new progs prog flags pl_ok progs1 idx old_prog alloc h
      (Or.inl hm)
    exact ⟨rfl, h2, h1, h3⟩
  | false =>
    right
    by_cases hp : progs = []
    · left
      obtain ⟨h1, _, h3⟩ := attach_list_new progs prog flags pl_ok progs1 idx old_prog alloc h
        (Or.inr hp)
      subst hp
      exact ⟨rfl, rfl, h1, h3⟩
    · right
      unfold attach_list at h
      rw [if_neg (by rw [hm]; decide), if_neg hp] at h
      injection h with h
      simp only [Prod.mk.injEq] at h
      obtain ⟨rfl, rfl, rfl, rfl⟩ := h
      exact ⟨rfl, hp, rfl, rfl⟩

theorem attach_finish_enabled_key (s : State) (old : Option Nat) :
    (attach_finish s old).enabled_key =
      match old with
      | some _ => s.enabled_key
      | none => s.enabled_key + 1 := by
  cases old with
  | none => rfl
  | some v =>
    show s.enabled_key + 1 - 1 = s.enabled_key
    omega

theorem activate_staged_enabled_key (type : Nat) :
    ∀ (staged : List (Nat × List Nat)) (s : State),
      (activate_staged s type staged).enabled_key = s.enabled_key := by
  intro staged
  induction staged with
  | nil => intro s; rfl
  | cons x rest ih =>
    intro s
    obtain ⟨d, array⟩ := x
    simp only [activate_staged]
    rw [ih]
    rfl

theorem activate_staged_flags (type : Nat) :
    ∀ (staged : List (Nat × List Nat)) (s : State),
      (activate_staged s type staged).flags = s.flags := by
  intro staged
  induction staged with
  | nil => intro s; rfl
  | cons x rest ih =>
    intro s
    obtain ⟨d, array⟩ := x
    simp only [activate_staged]
    rw [ih]
    rfl

/-- The outcome of an attach on the lists, the flags and the key. -/
theorem attach_outcome (s : State) (cgrp prog type flags : Nat) (pl_ok : Bool)
    (arr_ok : Nat → Bool) :
    ((__cgroup_bpf_attach s cgrp prog type flags pl_ok arr_ok).1 ≠ 0 ∧
      (__cgroup_bpf_attach s cgrp prog type flags pl_ok arr_ok).2.progs = s.progs ∧
      (__cgroup_bpf_attach s cgrp prog type flags pl_ok arr_ok).2.enabled_key = s.enabled_key ∧
      ((__cgroup_bpf_attach s cgrp prog type flags pl_ok arr_ok).2.flags = s.flags ∨
        ((s.progs cgrp type = [] ∨ s.flags cgrp type = flags) ∧
          (__cgroup_bpf_attach s cgrp prog type flags pl_ok arr_ok).2.flags =
            fun n t => if n = cgrp ∧ t = type then flags else s.flags n t))) ∨
    ((__cgroup_bpf_attach s cgrp prog type flags pl_ok arr_ok).1 = 0 ∧
      ∃ progs1 idx old_prog alloc,
        attach_list (s.progs cgrp type) prog flags pl_ok
          = Except.ok (progs1, idx, old_prog, alloc) ∧
        (s.progs cgrp type = [] ∨ s.flags cgrp type = flags) ∧
        (__cgroup_bpf_attach s cgrp prog type flags pl_ok arr_ok).2.progs =
          (fun n t => if n = cgrp ∧ t = type then progs1 else s.progs n t) ∧
        (__cgroup_bpf_attach s cgrp prog type flags pl_ok arr_ok).2.flags =
          (fun n t => if n = cgrp ∧ t = type then flags else s.flags n t) ∧
        (__cgroup_bpf_attach s cgrp prog type flags pl_ok arr_ok).2.enabled_key =
          match old_prog with
          | some _ => s.enabled_key
          | none => s.enabled_key + 1) := by
  rcases attach_cases s cgrp prog type flags pl_ok arr_ok with
    ⟨err, hne, he⟩ | ⟨progs1, idx, old_prog, alloc, hl, hc, ⟨_, he⟩ | ⟨_, he⟩⟩
  · left
    rw [he]
    exact ⟨hne, rfl, rfl, Or.inl rfl⟩
  · left
    rw [he]
    have hne : ¬ ((-ENOMEM : Int) = 0) := by decide
    exact ⟨hne, rfl, rfl, Or.inr ⟨hc, rfl⟩⟩
  · right
    rw [he]
    refine ⟨rfl, progs1, idx, old_prog, alloc, hl, hc, ?_, ?_, ?_⟩
    · show (attach_finish _ old_prog).progs = _
      rw [attach_finish_progs, activate_staged_progs]
      rfl
    · show (attach_finish _ old_prog).flags = _
      rw [attach_finish_flags, activate_staged_flags]
      rfl
    · show (attach_finish _ old_prog).enabled_key = _
      rw [attach_finish_enabled_key, activate_staged_enabled_key]
      rfl

theorem eraseIdx_set_none (l : List (Option Nat)) :
    ∀ idx, (l.set idx none).eraseIdx idx = l.eraseIdx idx := by
  induction l with
  | nil => intro idx; rfl
  | cons x l ih =>
    intro idx
    cases idx with
    | zero => rfl
    | succ i => simp only [List.set_cons_succ, List.eraseIdx_cons_succ, ih]

theorem find_prog_lt (l : List (Option Nat)) (a : Option Nat) (h : a ∈ l) :
    find_prog l a < l.length := by
  induction l with
  | nil => cases h
  | cons x l ih =>
    simp only [find_prog, List.length_cons]
    split
    · omega
    · rename_i hx
      have : a ∈ l := by
        rcases List.mem_cons.mp h with h1 | h1
        · exact absurd h1.symm hx
        · exact h1
      have := ih this
      omega

theorem eraseIdx_find_prog (l : List (Option Nat)) (a : Option Nat) :
    l.eraseIdx (find_prog l a) = l.erase a := by
  induction l with
  | nil => rfl
  | cons x l ih =>
    simp only [find_prog]
    by_cases hx : x = a
    · rw [if_pos hx, hx]
      simp
    · rw [if_neg hx, List.eraseIdx_cons_succ, ih, List.erase_cons_tail]
      simpa using hx

/-- The outcome of a detach on the lists, the flags and the key. -/
theorem detach_outcome (s : State) (cgrp : Nat) (prog : Option Nat) (type : Nat)
    (arr_ok : Nat → Bool) :
    ((__cgroup_bpf_detach s cgrp prog type arr_ok).1 ≠ 0 ∧
      (__cgroup_bpf_detach s cgrp prog type arr_ok).2 = s) ∨
    ((__cgroup_bpf_detach s cgrp prog type arr_ok).1 = 0 ∧
      ∃ idx old_prog,
        detach_find (s.progs cgrp type) (s.flags cgrp type) prog = some (idx, old_prog) ∧
        idx < (s.progs cgrp type).length ∧
        (__cgroup_bpf_detach s cgrp prog type arr_ok).2.progs =
          (fun n t => if n = cgrp ∧ t = type then (s.progs cgrp type).eraseIdx idx
            else s.progs n t) ∧
        (__cgroup_bpf_detach s cgrp prog type arr_ok).2.flags =
          (fun n t => if (s.progs cgrp type).eraseIdx idx = [] ∧ n = cgrp ∧ t = type then 0
            else s.flags n t) ∧
        (__cgroup_bpf_detach s cgrp prog type arr_ok).2.enabled_key = s.enabled_key - 1) := by
  rcases detach_cases s cgrp prog type arr_ok with ⟨err, hne, he⟩ | ⟨idx, old_prog, hf, _, he⟩
  · left
    rw [he]
    exact ⟨hne, rfl⟩
  · right
    have hidx : idx < (s.progs cgrp type).length := by
      cases hm : allow_multi (s.flags cgrp type) with
      | true =>
        unfold detach_find at hf
        rw [if_pos hm] at hf
        split at hf
        · rename_i hmem
          injection hf with hf
          simp only [Prod.mk.injEq] at hf
          rw [← hf.1]
          exact find_prog_lt _ _ hmem
        · cases hf
      | false =>
        unfold detach_find at hf
        rw [if_neg (by rw [hm]; decide)] at hf
        injection hf with hf
        simp only [Prod.mk.injEq] at hf
        rw [← hf.1]
        by_cases hp : s.progs cgrp type = []
        · have h0 : (__cgroup_bpf_detach s cgrp prog type arr_ok).1 = 0 := by rw [he]
          rw [detach_err_empty s cgrp prog type arr_ok hm hp] at h0
          have hne : ¬ ((-ENOENT : Int) = 0) := by decide
          exact absurd h0 hne
        · exact List.length_pos.mpr hp
    have hset : (set_progs s cgrp type ((s.progs cgrp type).set idx none)).progs cgrp type
        = (s.progs cgrp type).set idx none := by
      simp [set_progs]
    rw [he]
    refine ⟨rfl, idx, old_prog, hf, hidx, ?_, ?_, ?_⟩
    · show (detach_finish _ cgrp type idx old_prog).progs = _
      rw [detach_finish_progs, activate_staged_progs, hset, eraseIdx_set_none]
      funext n t
      by_cases hnt : n = cgrp ∧ t = type
      · rw [if_pos hnt, if_pos hnt]
      · rw [if_neg hnt, if_neg hnt]
        simp [set_progs, hnt]
    · show (detach_finish _ cgrp type idx old_prog).flags = _
      rw [detach_finish_flags, activate_staged_progs, activate_staged_flags, hset,
        eraseIdx_set_none]
      rfl
    · show (detach_finish _ cgrp type idx old_prog).enabled_key = _
      rw [detach_finish_enabled_key, activate_staged_enabled_key]
      rfl

/-! ## The invariant of the lists is kept by every call -/

theorem registry_inv_attach (s : State) (cgrp prog type flags : Nat) (pl_ok : Bool)
    (arr_ok : Nat → Bool) (hc : cgrp < s.nr) (hinv : registry_inv s) :
    registry_inv (__cgroup_bpf_attach s cgrp prog type flags pl_ok arr_ok).2 := by
  have hnr := (attach_frame s cgrp prog type flags pl_ok arr_ok).1
  intro n t
  obtain ⟨i1, i2, i3, i4⟩ := hinv n t
  rw [hnr]
  rcases attach_outcome s cgrp prog type flags pl_ok arr_ok with
    ⟨_, hp, _, hf | ⟨hcond, hf⟩⟩ | ⟨_, progs1, idx, old_prog, alloc, hl, hcond, hp, hf, _⟩
  · rw [hp, hf]
    exact ⟨i1, i2, i3, i4⟩
  · rw [hp, hf]
    refine ⟨i1, i2, ?_, i4⟩
    by_cases hnt : n = cgrp ∧ t = type
    · simp only [if_pos hnt]
      obtain ⟨rfl, rfl⟩ := hnt
      intro hm
      rcases hcond with h | h
      · rw [h]; exact Nat.zero_le _
      · exact i3 (by rw [h]; exact hm)
    · simp only [if_neg hnt]
      exact i3
  · rw [hp, hf]
    by_cases hnt : n = cgrp ∧ t = type
    · simp only [if_pos hnt]
      obtain ⟨rfl, rfl⟩ := hnt
      rcases attach_list_ok_cases _ _ _ _ _ _ _ _ hl with
        ⟨hm, hmem, rfl, _⟩ | ⟨hm, _, rfl, _⟩ | ⟨hm, hne, rfl, _⟩
      · refine ⟨?_, ?_, ?_, ?_⟩
        · simp [i1]
        · rw [List.nodup_append]
          refine ⟨i2, List.nodup_singleton _, ?_⟩
          intro a ha hb
          rw [List.mem_singleton] at hb
          subst hb
          exact hmem ha
        · intro h; rw [hm] at h; cases h
        · intro h; omega
      · refine ⟨by simp, List.nodup_singleton _, fun _ => Nat.le_refl _, fun h => by omega⟩
      · have hflags : s.flags n t = flags := by
          rcases hcond with h | h
          · exact absurd h hne
          · exact h
        have hlen := i3 (by rw [hflags]; exact hm)
        cases hprogs : s.progs n t with
        | nil => exact absurd hprogs hne
        | cons x rest =>
          rw [hprogs] at hlen
          have hrest : rest = [] := by
            cases rest with
            | nil => rfl
            | cons y r => simp at hlen
          subst hrest
          refine ⟨by simp, List.nodup_singleton _, fun _ => Nat.le_refl _, fun h => by omega⟩
    · simp only [if_neg hnt]
      exact ⟨i1, i2, i3, i4⟩

theorem registry_inv_detach (s : State) (cgrp : Nat) (prog : Option Nat) (type : Nat)
    (arr_ok : Nat → Bool) (hinv : registry_inv s) :
    registry_inv (__cgroup_bpf_detach s cgrp prog type arr_ok).2 := by
  have hnr := (detach_frame s cgrp prog type arr_ok).1
  rcases detach_outcome s cgrp prog type arr_ok with
    ⟨_, he⟩ | ⟨_, idx, old_prog, _, _, hp, hf, _⟩
  · rw [he]; exact hinv
  · intro n t
    obtain ⟨i1, i2, i3, i4⟩ := hinv n t
    rw [hnr, hp, hf]
    by_cases hnt : n = cgrp ∧ t = type
    · simp only [if_pos hnt]
      obtain ⟨rfl, rfl⟩ := hnt
      have hsub := List.eraseIdx_sublist (s.progs n t) idx
      refine ⟨fun h => i1 (hsub.subset h), i2.sublist hsub, ?_, ?_⟩
      · intro hm
        by_cases he : (s.progs n t).eraseIdx idx = []
        · rw [he]; exact Nat.zero_le _
        · have hm2 : allow_multi (s.flags n t) = false := by
            rw [if_neg (fun h => he h.1)] at hm
            exact hm
          exact Nat.le_trans hsub.length_le (i3 hm2)
      · intro h
        rw [i4 h]
        rfl
    · simp only [if_neg hnt]
      refine ⟨i1, i2, ?_, i4⟩
      intro hm
      apply i3
      have : ¬ ((s.progs cgrp type).eraseIdx idx = [] ∧ n = cgrp ∧ t = type) :=
        fun h => hnt h.2
      rw [if_neg this] at hm
      exact hm

theorem registry_inv_create (NR : Nat) (s : State) (parent : Option (Fin s.nr))
    (arr_ok : Nat → Bool) (hinv : registry_inv s)
    (h0 : (cgroup_bpf_inherit (cgroup_create s parent) s.nr NR arr_ok).1 = 0) :
    registry_inv (cgroup_bpf_inherit (cgroup_create s parent) s.nr NR arr_ok).2 := by
  obtain ⟨hnr, _, hprogs, hflags, _⟩ :=
    cgroup_bpf_inherit_ok (cgroup_create s parent) s.nr NR arr_ok h0
  intro n t
  obtain ⟨i1, i2, i3, i4⟩ := hinv n t
  rw [hnr, hprogs, hflags]
  have hcp : (cgroup_create s parent).progs n t = s.progs n t := rfl
  have hcf : (cgroup_create s parent).flags n t = if n = s.nr then 0 else s.flags n t := rfl
  have hcn : (cgroup_create s parent).nr = s.nr + 1 := rfl
  rw [hcp, hcf, hcn]
  by_cases hn : n = s.nr
  · have hnil : s.progs n t = [] := i4 (by omega)
    have : (if n = s.nr ∧ t < NR then [] else s.progs n t) = [] := by
      split
      · rfl
      · exact hnil
    rw [this]
    exact ⟨by simp, List.nodup_nil, fun _ => Nat.zero_le _, fun _ => rfl⟩
  · rw [if_neg (fun h => hn h.1), if_neg hn]
    exact ⟨i1, i2, i3, fun h => i4 (by omega)⟩

theorem registry_inv_step (NR : Nat) (s : State) (op : Op) (hinv : registry_inv s) :
    registry_inv (step NR s op) := by
  cases op with
  | attach cgrp prog type flags pl_ok arr_ok =>
    simp only [step]
    split
    · rename_i hc
      exact registry_inv_attach s cgrp prog type flags pl_ok arr_ok hc hinv
    · exact hinv
  | detach cgrp prog type arr_ok =>
    simp only [step]
    split
    · exact registry_inv_detach s cgrp prog type arr_ok hinv
    · exact hinv
  | create parent arr_ok =>
    cases parent with
    | none =>
      simp only [step]
      split
      · rename_i h0
        exact registry_inv_create NR s none arr_ok hinv h0
      · exact hinv
    | some p =>
      simp only [step]
      split
      · rename_i hp
        split
        · rename_i h0
          exact registry_inv_create NR s (some ⟨p, hp⟩) arr_ok hinv h0
        · exact hinv
      · exact hinv

theorem registry_inv_run (NR : Nat) (ops : List Op) :
    ∀ s : State, registry_inv s → registry_inv (run NR s ops) := by
  induction ops with
  | nil => intro s h; exact h
  | cons op ops ih =>
    intro s h
    exact ih (step NR s op) (registry_inv_step NR s op h)

theorem registry_inv_of_empty (s : State) (hempty : ∀ n t, s.progs n t = []) :
    registry_inv s := by
  intro n t
  rw [hempty]
  exact ⟨by simp, List.nodup_nil, fun _ => Nat.zero_le _, fun _ => rfl⟩

/-! ## At most one program without BPF_F_ALLOW_MULTI -/

theorem prog_list_length_le_length (l : List (Option Nat)) :
    prog_list_length l ≤ l.length := by
  induction l with
  | nil => exact Nat.le_refl _
  | cons x l ih =>
    cases x with
    | none => simp only [prog_list_length, List.length_cons]; omega
    | some v => simp only [prog_list_length, List.length_cons]; omega

theorem hierarchy_warn_walk_false (s : State) (type : Nat)
    (h : ∀ p, allow_multi (s.flags p type) = false → prog_list_length (s.progs p type) ≤ 1) :
    ∀ l, hierarchy_warn_walk s type l = false := by
  intro l
  induction l with
  | nil => rfl
  | cons p rest ih =>
    simp only [hierarchy_warn_walk]
    cases hm : allow_multi (s.flags p type) with
    | true => simp
    | false =>
      have := h p hm
      have hd : decide (prog_list_length (s.progs p type) > 1) = false := by
        rw [decide_eq_false_iff_not]; omega
      simp only [hd, Bool.false_or, ih]
      simp

/-- C32: in every state reached from a state with an empty registry (all lists
empty, any tree) by attach calls and detach calls, successful or failed, and
creations of cgroups, every cgroup and attach type whose flags lack
`BPF_F_ALLOW_MULTI` has at most one entry in its list, hence at most one live
program, and the assertion `WARN_ON_ONCE(cnt > 1)` of
`hierarchy_allows_attach` fires for no cgroup and no attach type. -/
theorem single_slot_invariant (NR : Nat) (ops : List Op) (s : State)
    (hempty : ∀ n t, s.progs n t = []) :
    (∀ n t, allow_multi ((run NR s ops).flags n t) = false →
      ((run NR s ops).progs n t).length ≤ 1 ∧
      prog_list_length ((run NR s ops).progs n t) ≤ 1) ∧
    (∀ cgrp type, hierarchy_warns (run NR s ops) cgrp type = false) := by
  have hinv := registry_inv_run NR ops s (registry_inv_of_empty s hempty)
  have h1 : ∀ n t, allow_multi ((run NR s ops).flags n t) = false →
      ((run NR s ops).progs n t).length ≤ 1 ∧
      prog_list_length ((run NR s ops).progs n t) ≤ 1 := by
    intro n t hm
    have := (hinv n t).2.2.1 hm
    exact ⟨this, Nat.le_trans (prog_list_length_le_length _) this⟩
  refine ⟨h1, ?_⟩
  intro cgrp type
  unfold hierarchy_warns
  split
  · rfl
  · exact hierarchy_warn_walk_false _ type (fun p hm => (h1 p type hm).2) _

/-- C32, witness: on `five_level_empty`, after an attach of program 10 with
`BPF_F_ALLOW_OVERRIDE` to the root, an attach of program 11 with no flags that
is refused, an attach of program 12 with `BPF_F_ALLOW_OVERRIDE` that replaces
10, and an attach whose array allocation fails, the list of the root has the
single entry 12 and no assertion fires in a call on cgroup 4. -/
theorem single_slot_invariant_witness :
    (∀ n t, five_level_empty.progs n t = []) ∧
    (run 1 five_level_empty
      [Op.attach 0 10 0 BPF_F_ALLOW_OVERRIDE true (fun _ => true),
       Op.attach 0 11 0 0 true (fun _ => true),
       Op.attach 0 12 0 BPF_F_ALLOW_OVERRIDE true (fun _ => true),
       Op.attach 0 13 0 BPF_F_ALLOW_OVERRIDE true (fun _ => false)]).progs 0 0 = [some 12] ∧
    hierarchy_warns (run 1 five_level_empty
      [Op.attach 0 10 0 BPF_F_ALLOW_OVERRIDE true (fun _ => true),
       Op.attach 0 11 0 0 true (fun _ => true),
       Op.attach 0 12 0 BPF_F_ALLOW_OVERRIDE true (fun _ => true),
       Op.attach 0 13 0 BPF_F_ALLOW_OVERRIDE true (fun _ => false)]) 4 0 = false :=
  ⟨fun _ _ => rfl, by decide,
    (single_slot_invariant 1 _ five_level_empty (fun _ _ => rfl)).2 4 0⟩

/-! ## A detach under BPF_F_ALLOW_MULTI -/

theorem mem_live_progs (l : List (Option Nat)) (prog : Nat) :
    prog ∈ live_progs l ↔ some prog ∈ l := by
  rw [live_progs_eq_reduceOption, List.reduceOption_mem_iff]

/-- C34: on a cgroup whose flags have `BPF_F_ALLOW_MULTI` and whose list has an
entry for the program `P`, a detach of `P` that returns 0 leaves the list
without the first entry of `P`, the other entries keeping their order; the
chain of the cgroup is then made of the live programs of that list followed by
the parts of its proper ancestors, and `P` is not among the programs of that
list when the list had no program twice, which is the case in every state
reached from an empty registry. -/
theorem multi_detach_removes (s : State) (cgrp P type : Nat) (arr_ok : Nat → Bool)
    (hm : allow_multi (s.flags cgrp type) = true) (hmem : some P ∈ s.progs cgrp type)
    (h0 : (__cgroup_bpf_detach s cgrp (some P) type arr_ok).1 = 0) :
    (∃ pre post, s.progs cgrp type = pre ++ some P :: post ∧ some P ∉ pre ∧
      (__cgroup_bpf_detach s cgrp (some P) type arr_ok).2.progs cgrp type = pre ++ post) ∧
    (__cgroup_bpf_detach s cgrp (some P) type arr_ok).2.progs cgrp type
      = (s.progs cgrp type).erase (some P) ∧
    (∃ parts : List (List Nat),
      List.Forall₂ (fun p part => part = live_progs (s.progs p type) ∨ part = [])
        (cgroup_path s cgrp).tail parts ∧
      compute_effective_progs (__cgroup_bpf_detach s cgrp (some P) type arr_ok).2 cgrp type true
        = Except.ok
          (live_progs ((__cgroup_bpf_detach s cgrp (some P) type arr_ok).2.progs cgrp type)
            ++ parts.flatten)) ∧
    ((s.progs cgrp type).Nodup →
      P ∉ live_progs ((__cgroup_bpf_detach s cgrp (some P) type arr_ok).2.progs cgrp type)) ∧
    (∀ (NR : Nat) (ops : List Op) (s0 : State), (∀ n t, s0.progs n t = []) →
      s = run NR s0 ops →
      P ∉ live_progs ((__cgroup_bpf_detach s cgrp (some P) type arr_ok).2.progs cgrp type)) := by
  obtain ⟨_, hpar, hframe, _⟩ := detach_frame s cgrp (some P) type arr_ok
  rcases detach_outcome s cgrp (some P) type arr_ok with
    ⟨hne, _⟩ | ⟨_, idx, old_prog, hf, _, hp, _, _⟩
  · exact absurd h0 hne
  have hidx : idx = find_prog (s.progs cgrp type) (some P) := by
    unfold detach_find at hf
    rw [if_pos hm, if_pos hmem] at hf
    injection hf with hf
    simp only [Prod.mk.injEq] at hf
    exact hf.1.symm
  have herase : (__cgroup_bpf_detach s cgrp (some P) type arr_ok).2.progs cgrp type
      = (s.progs cgrp type).erase (some P) := by
    rw [hp]
    simp only [and_self, if_true]
    rw [hidx, eraseIdx_find_prog]
  have hnodup : (s.progs cgrp type).Nodup →
      P ∉ live_progs ((__cgroup_bpf_detach s cgrp (some P) type arr_ok).2.progs cgrp type) := by
    intro hnd hin
    rw [herase, mem_live_progs, hnd.mem_erase_iff] at hin
    exact hin.1 rfl
  refine ⟨?_, herase, ?_, hnodup, ?_⟩
  · obtain ⟨pre, post, h1, h2, h3⟩ := List.exists_erase_eq hmem
    exact ⟨pre, post, h2, h1, by rw [herase, h3]⟩
  · generalize (__cgroup_bpf_detach s cgrp (some P) type arr_ok).2 = r at *
    have hpath : cgroup_path r cgrp = cgroup_path s cgrp :=
      cgroup_path_congr r s cgrp (fun _ _ => by rw [hpar])
    have hcongr : ∀ arr, fill_effective r type (cgroup_path s cgrp).tail arr
        = fill_effective s type (cgroup_path s cgrp).tail arr := by
      intro arr
      apply fill_effective_congr
      intro p hp
      have hlt := cgroup_path_tail_lt s cgrp p hp
      have hne : ¬ (p = cgrp ∧ type = type) := fun h => by omega
      obtain ⟨e1, e2⟩ := hframe p type hne
      rw [e1, e2]
      exact ⟨rfl, Or.inl rfl⟩
    rw [compute_effective_progs_ok, hpath, cgroup_path_cons, fill_effective_cons, hcongr]
    obtain ⟨parts, hparts, he⟩ := fill_effective_parts s type (cgroup_path s cgrp).tail
      ([] ++ if ([] : List Nat) = [] ∨ allow_multi (r.flags cgrp type) then
        live_progs (r.progs cgrp type) else [])
    simp only [true_or, if_true, List.nil_append] at he hparts ⊢
    exact ⟨parts, hparts, by rw [he]⟩
  · intro NR ops s0 hempty hs
    apply hnodup
    rw [hs]
    exact ((registry_inv_run NR ops s0 (registry_inv_of_empty s0 hempty)) cgrp type).2.1

/-- C34, witness: on the root of `root_state`, after the attaches of the
programs 7, 8 and 9 with `BPF_F_ALLOW_MULTI`, the detach of 8 leaves the list
with 7 and 9, in this order. -/
theorem multi_detach_removes_witness :
    allow_multi ((run 1 root_state
      [Op.attach 0 7 0 BPF_F_ALLOW_MULTI true (fun _ => true),
       Op.attach 0 8 0 BPF_F_ALLOW_MULTI true (fun _ => true),
       Op.attach 0 9 0 BPF_F_ALLOW_MULTI true (fun _ => true)]).flags 0 0) = true ∧
    (run 1 root_state
      [Op.attach 0 7 0 BPF_F_ALLOW_MULTI true (fun _ => true),
       Op.attach 0 8 0 BPF_F_ALLOW_MULTI true (fun _ => true),
       Op.attach 0 9 0 BPF_F_ALLOW_MULTI true (fun _ => true)]).progs 0 0
        = [some 7, some 8, some 9] ∧
    (__cgroup_bpf_detach (run 1 root_state
      [Op.attach 0 7 0 BPF_F_ALLOW_MULTI true (fun _ => true),
       Op.attach 0 8 0 BPF_F_ALLOW_MULTI true (fun _ => true),
       Op.attach 0 9 0 BPF_F_ALLOW_MULTI true (fun _ => true)]) 0 (some 8) 0
        (fun _ => true)).1 = 0 ∧
    (__cgroup_bpf_detach (run 1 root_state
      [Op.attach 0 7 0 BPF_F_ALLOW_MULTI true (fun _ => true),
       Op.attach 0 8 0 BPF_F_ALLOW_MULTI true (fun _ => true),
       Op.attach 0 9 0 BPF_F_ALLOW_MULTI true (fun _ => true)]) 0 (some 8) 0
        (fun _ => true)).2.progs 0 0 = [some 7, some 9] ∧
    8 ∉ live_progs ((__cgroup_bpf_detach (run 1 root_state
      [Op.attach 0 7 0 BPF_F_ALLOW_MULTI true (fun _ => true),
       Op.attach 0 8 0 BPF_F_ALLOW_MULTI true (fun _ => true),
       Op.attach 0 9 0 BPF_F_ALLOW_MULTI true (fun _ => true)]) 0 (some 8) 0
        (fun _ => true)).2.progs 0 0) :=
  ⟨by decide, by decide, by decide, by decide,
    (multi_detach_removes _ 0 8 0 (fun _ => true) (by decide) (by decide) (by decide)).2.2.2.2
      1 _ root_state (fun _ _ => rfl) rfl⟩

/-! ## The number of entries and the key -/

theorem sum_range_congr (f g : Nat → Nat) :
    ∀ N, (∀ x, x < N → g x = f x) →
      ((List.range N).map g).sum = ((List.range N).map f).sum := by
  intro N h
  congr 1
  apply List.map_congr_left
  intro x hx
  exact h x (List.mem_range.mp hx)

theorem sum_range_point (f g : Nat → Nat) (a : Nat) (h : ∀ x, x ≠ a → g x = f x) :
    ∀ N, a < N →
      ((List.range N).map g).sum + f a = ((List.range N).map f).sum + g a := by
  intro N
  induction N with
  | zero => intro ha; omega
  | succ N ih =>
    intro ha
    rw [List.range_succ, List.map_append, List.map_append, List.sum_append, List.sum_append]
    simp only [List.map_cons, List.map_nil, List.sum_cons, List.sum_nil, Nat.add_zero]
    by_cases haN : a = N
    · subst haN
      have := sum_range_congr f g a (fun x hx => h x (by omega))
      omega
    · have := ih (by omega)
      have := h N (fun hN => haN hN.symm)
      omega

theorem total_slots_same (NR : Nat) (s r : State) (hnr : r.nr = s.nr) (hp : r.progs = s.progs) :
    total_slots NR r = total_slots NR s := by
  unfold total_slots cgroup_slots
  rw [hnr, hp]

theorem total_slots_update (NR : Nat) (s r : State) (cgrp type : Nat) (L : List (Option Nat))
    (hnr : r.nr = s.nr)
    (hp : r.progs = fun n t => if n = cgrp ∧ t = type then L else s.progs n t)
    (hc : cgrp < s.nr) (ht : type < NR) :
    total_slots NR r + (s.progs cgrp type).length = total_slots NR s + L.length := by
  have hother : ∀ n, n ≠ cgrp → cgroup_slots NR r n = cgroup_slots NR s n := by
    intro n hn
    unfold cgroup_slots
    rw [hp]
    simp only [if_neg (fun h : n = cgrp ∧ _ = type => hn h.1)]
  have hself : cgroup_slots NR r cgrp + (s.progs cgrp type).length
      = cgroup_slots NR s cgrp + L.length := by
    unfold cgroup_slots
    have := sum_range_point (fun t => (s.progs cgrp t).length) (fun t => (r.progs cgrp t).length)
      type (fun x hx => by
        rw [hp]
        show (if cgrp = cgrp ∧ x = type then L else s.progs cgrp x).length = _
        rw [if_neg (fun h : cgrp = cgrp ∧ x = type => hx h.2)]) NR ht
    simp only [] at this
    have hL : (r.progs cgrp type).length = L.length := by
      rw [hp]
      simp
    omega
  have := sum_range_point (cgroup_slots NR s) (cgroup_slots NR r) cgrp hother s.nr hc
  unfold total_slots
  rw [hnr]
  omega

theorem cgroup_bpf_inherit_enabled_key (s : State) (cgrp NR : Nat) (arr_ok : Nat → Bool) :
    (cgroup_bpf_inherit s cgrp NR arr_ok).2.enabled_key = s.enabled_key := by
  rcases cgroup_bpf_inherit_cases s cgrp NR arr_ok with he | he <;> rw [he] <;> rfl

theorem total_slots_create (NR : Nat) (s : State) (parent : Option (Fin s.nr))
    (arr_ok : Nat → Bool) (hinv : registry_inv s)
    (h0 : (cgroup_bpf_inherit (cgroup_create s parent) s.nr NR arr_ok).1 = 0) :
    total_slots NR (cgroup_bpf_inherit (cgroup_create s parent) s.nr NR arr_ok).2
      = total_slots NR s := by
  obtain ⟨hnr, _, hprogs, _, _⟩ :=
    cgroup_bpf_inherit_ok (cgroup_create s parent) s.nr NR arr_ok h0
  generalize (cgroup_bpf_inherit (cgroup_create s parent) s.nr NR arr_ok).2 = r at *
  have hcn : (cgroup_create s parent).nr = s.nr + 1 := rfl
  have hp : ∀ n t, r.progs n t = s.progs n t := by
    intro n t
    rw [hprogs]
    split
    · rename_i h
      rw [h.1]
      exact ((hinv s.nr t).2.2.2 (Nat.le_refl _)).symm
    · rfl
  have hslots : ∀ n, cgroup_slots NR r n = cgroup_slots NR s n := by
    intro n
    unfold cgroup_slots
    simp only [hp]
  have hnew : cgroup_slots NR s s.nr = 0 := by
    unfold cgroup_slots
    have : ∀ t, (s.progs s.nr t).length = 0 := by
      intro t
      rw [(hinv s.nr t).2.2.2 (Nat.le_refl _)]
      rfl
    simp only [this]
    simp
  unfold total_slots
  rw [hnr, hcn, List.range_succ, List.map_append, List.sum_append]
  have hfun : cgroup_slots NR r = cgroup_slots NR s := funext hslots
  rw [hfun]
  simp only [List.map_cons, List.map_nil, List.sum_cons, List.sum_nil, hnew]
  rfl

theorem length_eraseIdx_add_one (l : List (Option Nat)) :
    ∀ idx, idx < l.length → (l.eraseIdx idx).length + 1 = l.length := by
  induction l with
  | nil => intro idx h; cases h
  | cons x l ih =>
    intro idx h
    cases idx with
    | zero => rfl
    | succ i =>
      simp only [List.eraseIdx_cons_succ, List.length_cons] at h ⊢
      rw [ih i (by omega)]

/-- The change of the key and of the number of entries by an attach. -/
theorem attach_key_delta (s : State) (cgrp prog type flags : Nat) (pl_ok : Bool)
    (arr_ok : Nat → Bool) (hinv : registry_inv s) :
    ((__cgroup_bpf_attach s cgrp prog type flags pl_ok arr_ok).1 ≠ 0 ∧
      (__cgroup_bpf_attach s cgrp prog type flags pl_ok arr_ok).2.enabled_key = s.enabled_key ∧
      (__cgroup_bpf_attach s cgrp prog type flags pl_ok arr_ok).2.progs = s.progs) ∨
    ((__cgroup_bpf_attach s cgrp prog type flags pl_ok arr_ok).1 = 0 ∧
      ∃ L, (__cgroup_bpf_attach s cgrp prog type flags pl_ok arr_ok).2.progs =
          (fun n t => if n = cgrp ∧ t = type then L else s.progs n t) ∧
        (((allow_multi flags = true ∨ s.progs cgrp type = []) ∧
            (__cgroup_bpf_attach s cgrp prog type flags pl_ok arr_ok).2.enabled_key
              = s.enabled_key + 1 ∧
            L.length = (s.progs cgrp type).length + 1) ∨
         (allow_multi flags = false ∧ s.progs cgrp type ≠ [] ∧
            (__cgroup_bpf_attach s cgrp prog type flags pl_ok arr_ok).2.enabled_key
              = s.enabled_key ∧
            L.length = (s.progs cgrp type).length))) := by
  rcases attach_outcome s cgrp prog type flags pl_ok arr_ok with
    ⟨hne, hp, hk, _⟩ | ⟨h0, progs1, idx, old_prog, alloc, hl, _, hp, _, hk⟩
  · exact Or.inl ⟨hne, hk, hp⟩
  · right
    refine ⟨h0, progs1, hp, ?_⟩
    rcases attach_list_ok_cases _ _ _ _ _ _ _ _ hl with
      ⟨hm, _, rfl, rfl⟩ | ⟨hm, hnil, rfl, rfl⟩ | ⟨hm, hne, rfl, rfl⟩
    · left
      exact ⟨Or.inl hm, hk, by simp⟩
    · left
      exact ⟨Or.inr hnil, hk, by rw [hnil]; rfl⟩
    · right
      refine ⟨hm, hne, ?_, by simp⟩
      rw [hk]
      have hnone := (hinv cgrp type).1
      cases hprogs : s.progs cgrp type with
      | nil => exact absurd hprogs hne
      | cons x rest =>
        rw [hprogs] at hnone
        cases x with
        | none => exact absurd (List.mem_cons_self _ _) hnone
        | some v => rfl

/-- The change of the key and of the number of entries by a detach. -/
theorem detach_key_delta (s : State) (cgrp : Nat) (prog : Option Nat) (type : Nat)
    (arr_ok : Nat → Bool) :
    ((__cgroup_bpf_detach s cgrp prog type arr_ok).1 ≠ 0 ∧
      (__cgroup_bpf_detach s cgrp prog type arr_ok).2 = s) ∨
    ((__cgroup_bpf_detach s cgrp prog type arr_ok).1 = 0 ∧
      ∃ L, (__cgroup_bpf_detach s cgrp prog type arr_ok).2.progs =
          (fun n t => if n = cgrp ∧ t = type then L else s.progs n t) ∧
        L.length + 1 = (s.progs cgrp type).length ∧
        (__cgroup_bpf_detach s cgrp prog type arr_ok).2.enabled_key = s.enabled_key - 1) := by
  rcases detach_outcome s cgrp prog type arr_ok with
    ⟨hne, he⟩ | ⟨h0, idx, old_prog, _, hidx, hp, _, hk⟩
  · exact Or.inl ⟨hne, he⟩
  · exact Or.inr ⟨h0, _, hp, length_eraseIdx_add_one _ idx hidx, hk⟩

theorem key_inv_attach (NR : Nat) (s : State) (cgrp prog type flags : Nat) (pl_ok : Bool)
    (arr_ok : Nat → Bool) (hc : cgrp < s.nr) (ht : type < NR) (hinv : registry_inv s)
    (hk : s.enabled_key = (total_slots NR s : Int)) :
    (__cgroup_bpf_attach s cgrp prog type flags pl_ok arr_ok).2.enabled_key
      = (total_slots NR (__cgroup_bpf_attach s cgrp prog type flags pl_ok arr_ok).2 : Int) := by
  have hnr := (attach_frame s cgrp prog type flags pl_ok arr_ok).1
  rcases attach_key_delta s cgrp prog type flags pl_ok arr_ok hinv with
    ⟨_, hk1, hp⟩ | ⟨_, L, hp, ⟨_, hk1, hL⟩ | ⟨_, _, hk1, hL⟩⟩
  · rw [hk1, total_slots_same NR s _ hnr hp, hk]
  · have := total_slots_update NR s _ cgrp type L hnr hp hc ht
    rw [hk1, hk]
    omega
  · have := total_slots_update NR s _ cgrp type L hnr hp hc ht
    rw [hk1, hk]
    omega

theorem key_inv_detach (NR : Nat) (s : State) (cgrp : Nat) (prog : Option Nat) (type : Nat)
    (arr_ok : Nat → Bool) (hc : cgrp < s.nr) (ht : type < NR)
    (hk : s.enabled_key = (total_slots NR s : Int)) :
    (__cgroup_bpf_detach s cgrp prog type arr_ok).2.enabled_key
      = (total_slots NR (__cgroup_bpf_detach s cgrp prog type arr_ok).2 : Int) := by
  have hnr := (detach_frame s cgrp prog type arr_ok).1
  rcases detach_key_delta s cgrp prog type arr_ok with ⟨_, he⟩ | ⟨_, L, hp, hL, hk1⟩
  · rw [he]; exact hk
  · have := total_slots_update NR s _ cgrp type L hnr hp hc ht
    rw [hk1, hk]
    omega

theorem key_inv_step (NR : Nat) (s : State) (op : Op) (hop : op_type_ok NR op = true)
    (hinv : registry_inv s) (hk : s.enabled_key = (total_slots NR s : Int)) :
    (step NR s op).enabled_key = (total_slots NR (step NR s op) : Int) := by
  have hcreate : ∀ (parent : Option (Fin s.nr)) (arr_ok : Nat → Bool),
      (cgroup_bpf_inherit (cgroup_create s parent) s.nr NR arr_ok).1 = 0 →
      (cgroup_bpf_inherit (cgroup_create s parent) s.nr NR arr_ok).2.enabled_key
        = (total_slots NR (cgroup_bpf_inherit (cgroup_create s parent) s.nr NR arr_ok).2
            : Int) := by
    intro parent arr_ok h0
    rw [cgroup_bpf_inherit_enabled_key, total_slots_create NR s parent arr_ok hinv h0]
    exact hk
  cases op with
  | attach cgrp prog type flags pl_ok arr_ok =>
    have ht : type < NR := by simpa [op_type_ok] using hop
    simp only [step]
    split
    · rename_i hc
      exact key_inv_attach NR s cgrp prog type flags pl_ok arr_ok hc ht hinv hk
    · exact hk
  | detach cgrp prog type arr_ok =>
    have ht : type < NR := by simpa [op_type_ok] using hop
    simp only [step]
    split
    · rename_i hc
      exact key_inv_detach NR s cgrp prog type arr_ok hc ht hk
    · exact hk
  | create parent arr_ok =>
    cases parent with
    | none =>
      simp only [step]
      split
      · rename_i h0
        exact hcreate none arr_ok h0
      · exact hk
    | some p =>
      simp only [step]
      split
      · rename_i hp
        split
        · rename_i h0
          exact hcreate (some ⟨p, hp⟩) arr_ok h0
        · exact hk
      · exact hk

theorem key_inv_run (NR : Nat) (ops : List Op) :
    ∀ s : State, (∀ op ∈ ops, op_type_ok NR op = true) → registry_inv s →
      s.enabled_key = (total_slots NR s : Int) →
      (run NR s ops).enabled_key = (total_slots NR (run NR s ops) : Int) := by
  induction ops with
  | nil => intro s _ _ hk; exact hk
  | cons op ops ih =>
    intro s hops hinv hk
    exact ih (step NR s op) (fun o ho => hops o (List.mem_cons_of_mem _ ho))
      (registry_inv_step NR s op hinv)
      (key_inv_step NR s op (hops op (List.mem_cons_self _ _)) hinv hk)

theorem total_slots_of_empty (NR : Nat) (s : State) (hempty : ∀ n t, s.progs n t = []) :
    total_slots NR s = 0 := by
  unfold total_slots cgroup_slots
  simp [hempty]

/-! ## cgroup_bpf_put -/

theorem put_entries_spec (cgrp type : Nat) :
    ∀ (l : List (Option Nat)) (s : State),
      (put_entries s cgrp type l).enabled_key = s.enabled_key - (l.length : Int) ∧
      (put_entries s cgrp type l).released = s.released ++ l ∧
      (∀ n t, (put_entries s cgrp type l).progs n t =
        if l ≠ [] ∧ n = cgrp ∧ t = type then [] else s.progs n t) := by
  intro l
  induction l with
  | nil =>
    intro s
    refine ⟨by simp [put_entries], by simp [put_entries], fun n t => ?_⟩
    simp [put_entries]
  | cons pl rest ih =>
    intro s
    simp only [put_entries]
    obtain ⟨h1, h2, h3⟩ := ih
      { set_progs s cgrp type rest with
        released := (set_progs s cgrp type rest).released ++ [pl],
        enabled_key := (set_progs s cgrp type rest).enabled_key - 1 }
    refine ⟨?_, ?_, fun n t => ?_⟩
    · rw [h1]
      show s.enabled_key - 1 - (rest.length : Int) = s.enabled_key - ((rest.length + 1 : Nat) : Int)
      omega
    · rw [h2]
      show s.released ++ [pl] ++ rest = _
      simp
    · rw [h3]
      show (if rest ≠ [] ∧ n = cgrp ∧ t = type then []
        else (if n = cgrp ∧ t = type then rest else s.progs n t)) = _
      by_cases hnt : n = cgrp ∧ t = type
      · by_cases hr : rest = []
        · simp [hnt, hr]
        · simp [hnt, hr]
      · have h1 : ¬ (rest ≠ [] ∧ n = cgrp ∧ t = type) := fun h => hnt h.2
        have h2 : ¬ (pl :: rest ≠ [] ∧ n = cgrp ∧ t = type) := fun h => hnt h.2
        rw [if_neg h1, if_neg hnt, if_neg h2]

theorem cgroup_bpf_put_types_spec (cgrp : Nat) :
    ∀ (types : List Nat) (s : State), types.Nodup →
      (cgroup_bpf_put_types s cgrp types).enabled_key
        = s.enabled_key - (((types.map (fun t => (s.progs cgrp t).length)).sum : Nat) : Int) ∧
      (∀ n t, (cgroup_bpf_put_types s cgrp types).progs n t =
        if n = cgrp ∧ t ∈ types then [] else s.progs n t) := by
  intro types
  induction types with
  | nil =>
    intro s _
    exact ⟨by simp [cgroup_bpf_put_types], fun n t => by simp [cgroup_bpf_put_types]⟩
  | cons type rest ih =>
    intro s hnd
    rw [List.nodup_cons] at hnd
    obtain ⟨hk1, _, hp1⟩ := put_entries_spec cgrp type (s.progs cgrp type) s
    have hp1' : ∀ n t, (put_entries s cgrp type (s.progs cgrp type)).progs n t =
        if n = cgrp ∧ t = type then [] else s.progs n t := by
      intro n t
      rw [hp1]
      by_cases hnt : n = cgrp ∧ t = type
      · rw [if_pos hnt]
        by_cases hl : s.progs cgrp type = []
        · rw [if_neg (fun h => h.1 hl), hnt.1, hnt.2, hl]
        · rw [if_pos ⟨hl, hnt⟩]
      · rw [if_neg hnt, if_neg (fun h => hnt h.2)]
    obtain ⟨hk2, hp2⟩ := ih (put_entries s cgrp type (s.progs cgrp type)) hnd.2
    simp only [cgroup_bpf_put_types]
    refine ⟨?_, fun n t => ?_⟩
    · rw [hk2, hk1]
      have hmap : rest.map (fun t => ((put_entries s cgrp type (s.progs cgrp type)).progs
          cgrp t).length) = rest.map (fun t => (s.progs cgrp t).length) := by
        apply List.map_congr_left
        intro t ht
        have hne : ¬ (cgrp = cgrp ∧ t = type) := fun h => hnd.1 (h.2 ▸ ht)
        rw [hp1', if_neg hne]
      rw [hmap]
      simp only [List.map_cons, List.sum_cons]
      omega
    · rw [hp2, hp1']
      by_cases hn : n = cgrp
      · by_cases ht : t = type
        · simp [hn, ht]
        · simp [hn, ht]
      · simp [hn]

theorem cgroup_bpf_put_spec (s : State) (cgrp NR : Nat) :
    (cgroup_bpf_put s cgrp NR).enabled_key = s.enabled_key - (cgroup_slots NR s cgrp : Int) ∧
    (∀ n t, (cgroup_bpf_put s cgrp NR).progs n t =
      if n = cgrp ∧ t < NR then [] else s.progs n t) := by
  obtain ⟨h1, h2⟩ := cgroup_bpf_put_types_spec cgrp (List.range NR) s (List.nodup_range NR)
  refine ⟨h1, fun n t => ?_⟩
  show (cgroup_bpf_put_types s cgrp (List.range NR)).progs n t = _
  rw [h2]
  simp only [List.mem_range]

/-! ## The balance of the key -/

/-- C36: in every state `s` reached from a state with an empty registry and a
key of 0 by attach calls and detach calls on the `NR` attach types, successful
or failed, and creations of cgroups, the count of `cgroup_bpf_enabled_key` is
the number of entries of all lists; from `s`, a failed attach or detach leaves
the key as it is, a successful attach that adds an entry adds 1 to the key and
one entry to the list, a successful attach that replaces a program leaves the
key and the number of entries as they are, a successful detach takes 1 from the
key and one entry from the list, and `cgroup_bpf_put` takes from the key the
number of entries of the cgroup and leaves its lists empty. -/
theorem enable_key_balance (NR : Nat) (ops : List Op) (s0 s : State)
    (hempty : ∀ n t, s0.progs n t = []) (hkey : s0.enabled_key = 0)
    (hops : ops.all (op_type_ok NR) = true) (hs : s = run NR s0 ops) :
    s.enabled_key = (total_slots NR s : Int) ∧
    (∀ (cgrp prog type flags : Nat) (pl_ok : Bool) (arr_ok : Nat → Bool),
      ((__cgroup_bpf_attach s cgrp prog type flags pl_ok arr_ok).1 ≠ 0 →
        (__cgroup_bpf_attach s cgrp prog type flags pl_ok arr_ok).2.enabled_key
          = s.enabled_key) ∧
      ((__cgroup_bpf_attach s cgrp prog type flags pl_ok arr_ok).1 = 0 →
        (allow_multi flags = true ∨ s.progs cgrp type = []) →
        (__cgroup_bpf_attach s cgrp prog type flags pl_ok arr_ok).2.enabled_key
          = s.enabled_key + 1 ∧
        ((__cgroup_bpf_attach s cgrp prog type flags pl_ok arr_ok).2.progs cgrp type).length
          = (s.progs cgrp type).length + 1) ∧
      ((__cgroup_bpf_attach s cgrp prog type flags pl_ok arr_ok).1 = 0 →
        allow_multi flags = false → s.progs cgrp type ≠ [] →
        (__cgroup_bpf_attach s cgrp prog type flags pl_ok arr_ok).2.enabled_key
          = s.enabled_key ∧
        ((__cgroup_bpf_attach s cgrp prog type flags pl_ok arr_ok).2.progs cgrp type).length
          = (s.progs cgrp type).length)) ∧
    (∀ (cgrp : Nat) (prog : Option Nat) (type : Nat) (arr_ok : Nat → Bool),
      ((__cgroup_bpf_detach s cgrp prog type arr_ok).1 ≠ 0 →
        (__cgroup_bpf_detach s cgrp prog type arr_ok).2.enabled_key = s.enabled_key) ∧
      ((__cgroup_bpf_detach s cgrp prog type arr_ok).1 = 0 →
        (__cgroup_bpf_detach s cgrp prog type arr_ok).2.enabled_key = s.enabled_key - 1 ∧
        ((__cgroup_bpf_detach s cgrp prog type arr_ok).2.progs cgrp type).length + 1
          = (s.progs cgrp type).length)) ∧
    (∀ cgrp : Nat,
      (cgroup_bpf_put s cgrp NR).enabled_key = s.enabled_key - (cgroup_slots NR s cgrp : Int) ∧
      ∀ t, t < NR → (cgroup_bpf_put s cgrp NR).progs cgrp t = []) := by
  have hinv0 := registry_inv_of_empty s0 hempty
  have hinv : registry_inv s := by rw [hs]; exact registry_inv_run NR ops s0 hinv0
  have hops' : ∀ op ∈ ops, op_type_ok NR op = true := List.all_eq_true.mp hops
  have hk : s.enabled_key = (total_slots NR s : Int) := by
    rw [hs]
    apply key_inv_run NR ops s0 hops' hinv0
    rw [hkey, total_slots_of_empty NR s0 hempty]
    rfl
  refine ⟨hk, ?_, ?_, ?_⟩
  · intro cgrp prog type flags pl_ok arr_ok
    rcases attach_key_delta s cgrp prog type flags pl_ok arr_ok hinv with
      ⟨hne, hk1, _⟩ | ⟨h0, L, hp, ⟨hnew, hk1, hL⟩ | ⟨hm, hne, hk1, hL⟩⟩
    · exact ⟨fun _ => hk1, fun h => absurd h hne, fun h => absurd h hne⟩
    · refine ⟨fun h => absurd h0 h, fun _ _ => ⟨hk1, ?_⟩, fun _ hm hne => ?_⟩
      · rw [hp]
        simp only [and_self, if_true]
        exact hL
      · rcases hnew with h | h
        · rw [hm] at h; cases h
        · exact absurd h hne
    · refine ⟨fun h => absurd h0 h, fun _ hnew => ?_, fun _ _ _ => ⟨hk1, ?_⟩⟩
      · rcases hnew with h | h
        · rw [hm] at h; cases h
        · exact absurd h hne
      · rw [hp]
        simp only [and_self, if_true]
        exact hL
  · intro cgrp prog type arr_ok
    rcases detach_key_delta s cgrp prog type arr_ok with ⟨hne, he⟩ | ⟨h0, L, hp, hL, hk1⟩
    · exact ⟨fun _ => by rw [he], fun h => absurd h hne⟩
    · refine ⟨fun h => absurd h0 h, fun _ => ⟨hk1, ?_⟩⟩
      rw [hp]
      simp only [and_self, if_true]
      exact hL
  · intro cgrp
    obtain ⟨h1, h2⟩ := cgroup_bpf_put_spec s cgrp NR
    refine ⟨h1, fun t ht => ?_⟩
    rw [h2, if_pos ⟨rfl, ht⟩]

/-- C36, witness: from `root_state`, after two attaches with
`BPF_F_ALLOW_MULTI`, a refused attach and a detach, the key and the number of
entries are both 1. -/
theorem enable_key_balance_witness :
    (∀ n t, root_state.progs n t = []) ∧ root_state.enabled_key = 0 ∧
    (run 1 root_state
      [Op.attach 0 7 0 BPF_F_ALLOW_MULTI true (fun _ => true),
       Op.attach 0 9 0 BPF_F_ALLOW_MULTI true (fun _ => true),
       Op.attach 0 9 0 BPF_F_ALLOW_MULTI true (fun _ => true),
       Op.detach 0 (some 7) 0 (fun _ => true)]).enabled_key = 1 ∧
    total_slots 1 (run 1 root_state
      [Op.attach 0 7 0 BPF_F_ALLOW_MULTI true (fun _ => true),
       Op.attach 0 9 0 BPF_F_ALLOW_MULTI true (fun _ => true),
       Op.attach 0 9 0 BPF_F_ALLOW_MULTI true (fun _ => true),
       Op.detach 0 (some 7) 0 (fun _ => true)]) = 1 ∧
    (run 1 root_state
      [Op.attach 0 7 0 BPF_F_ALLOW_MULTI true (fun _ => true),
       Op.attach 0 9 0 BPF_F_ALLOW_MULTI true (fun _ => true),
       Op.attach 0 9 0 BPF_F_ALLOW_MULTI true (fun _ => true),
       Op.detach 0 (some 7) 0 (fun _ => true)]).enabled_key
      = (total_slots 1 (run 1 root_state
      [Op.attach 0 7 0 BPF_F_ALLOW_MULTI true (fun _ => true),
       Op.attach 0 9 0 BPF_F_ALLOW_MULTI true (fun _ => true),
       Op.attach 0 9 0 BPF_F_ALLOW_MULTI true (fun _ => true),
       Op.detach 0 (some 7) 0 (fun _ => true)]) : Int) :=
  ⟨fun _ _ => rfl, rfl, by decide, by decide,
    (enable_key_balance 1
      [Op.attach 0 7 0 BPF_F_ALLOW_MULTI true (fun _ => true),
       Op.attach 0 9 0 BPF_F_ALLOW_MULTI true (fun _ => true),
       Op.attach 0 9 0 BPF_F_ALLOW_MULTI true (fun _ => true),
       Op.detach 0 (some 7) 0 (fun _ => true)] root_state _ (fun _ _ => rfl) rfl rfl rfl).1⟩

end CgroupBpf
